import Mathlib

/-!
Verification of the colins.ai marketing-site visualization scripts.

The JavaScript sources are shallowly embedded over `ℚ`:
* machine floats become exact rationals (the claims under scrutiny are about
  branch structure, monotonicity and exact rational constants, none of which
  depend on rounding);
* every comparison `Math.sqrt e < c` in the source is embedded as the
  equivalent comparison of squares `e < c^2` (both sides are nonnegative and
  squaring is strictly monotone there), so no square roots are needed;
* `Math.cos`, `Math.sin` and the constant `2 * Math.PI` appear only in the
  procedural generator as position ingredients; they are abstracted as
  parameters `jcos jsin : ℚ → ℚ` and `tau : ℚ` of the generator, quantified
  universally in every general theorem;
* `Math.random()` is an oracle stream `σ : ℕ → ℚ`, consumed left to right, and
  the random-comparator array shuffles `sort(() => Math.random() - 0.5)`
  (whose result is some engine-dependent permutation) are an oracle
  `shuffle : ℕ → List ℕ → List ℕ`.
-/

namespace Colins

/-! ## Shared utility functions (fraud-graph-network.js lines 53-58, dendrite lines 62-65) -/

/-- JS `lerp = (a, b, t) => a + (b - a) * t` from fraud-graph-network.js. -/
def lerp (a b t : ℚ) : ℚ := a + (b - a) * t

/-- JS `easeInOutCubic = (t) => (t < 0.5 ? 4 * t * t * t : 1 - Math.pow(-2 * t + 2, 3) / 2)`. -/
def easeInOutCubic (t : ℚ) : ℚ :=
  if t < 0.5 then 4 * t * t * t else 1 - (-2 * t + 2) ^ 3 / 2

/-- Squared Euclidean distance.  The source computes
`distance = (x1,y1,x2,y2) => Math.sqrt((x2-x1)**2 + (y2-y1)**2)` and only ever
compares it against nonnegative bounds or other distances, so the embedding
works with the square throughout. -/
def dist2 (x1 y1 x2 y2 : ℚ) : ℚ := (x2 - x1) ^ 2 + (y2 - y1) ^ 2

/-- JS `randomRange = (min, max) => Math.random() * (max - min) + min`, with the
`Math.random()` draw `r` made explicit. -/
def randomRange (r lo hi : ℚ) : ℚ := r * (hi - lo) + lo

/-- JS `clamp = (val, min, max) => Math.max(min, Math.min(max, val))` from the
dendrite widget. -/
def clamp (val lo hi : ℚ) : ℚ := max lo (min hi val)

/-! ## Dendrite physics model (DENDRITE_CONFIG and calculatePhysicsState) -/

def PRESSURE_MIN : ℚ := 2
def PRESSURE_MAX : ℚ := 20
def ROUGHNESS_MIN : ℚ := 0.1
def ROUGHNESS_MAX : ℚ := 5.0
def DENDRITE_THRESHOLD_PRESSURE : ℚ := 6

/-- `pressureNorm` from `calculatePhysicsState`. -/
def pressureNorm (p : ℚ) : ℚ := (p - PRESSURE_MIN) / (PRESSURE_MAX - PRESSURE_MIN)

/-- `roughnessNorm` from `calculatePhysicsState`. -/
def roughnessNorm (r : ℚ) : ℚ := (r - ROUGHNESS_MIN) / (ROUGHNESS_MAX - ROUGHNESS_MIN)

/-- `dendriteThreshold` from `calculatePhysicsState`. -/
def dendriteThreshold : ℚ :=
  (DENDRITE_THRESHOLD_PRESSURE - PRESSURE_MIN) / (PRESSURE_MAX - PRESSURE_MIN)

/-- One frame of the dendrite-penetration update in `calculatePhysicsState`
(part_000 lines 666-675): below the threshold the penetration is recomputed
from a growth formula, above it the previous value recedes by 0.02, and the
result is clamped to [0, 1]. -/
def dendritePenetrationStep (pressure roughness prevPen : ℚ) : ℚ :=
  let pNorm := pressureNorm pressure
  let rNorm := roughnessNorm roughness
  let pen :=
    if pNorm < dendriteThreshold then
      (1 - pNorm / dendriteThreshold) * (0.4 + rNorm * 0.6)
    else
      max 0 (prevPen - 0.02)
  clamp pen 0 1

/-! ## Camera zoom transition (fraud-graph-network.js) -/

def ZOOM_LEVEL : ℚ := 2
def ZOOM_DURATION : ℚ := 800

/-- Camera/zoom state of the fraud graph (the `transform` object). -/
structure Transform where
  x : ℚ
  y : ℚ
  scale : ℚ
  targetScale : ℚ
  targetX : ℚ
  targetY : ℚ
  zoomProgress : ℚ
  isZooming : Bool
  focusedCluster : Option ℕ
deriving Repr, DecidableEq

/-- The zoom-animation part of `update(deltaTime)` (lines 937-949): advance
`zoomProgress` by `deltaTime / ZOOM_DURATION`, cap it at 1, and lerp `scale`,
`x`, `y` from their *current* values toward the targets using the eased
progress. -/
def updateZoom (tr : Transform) (deltaTime : ℚ) : Transform :=
  if tr.isZooming then
    let p0 := tr.zoomProgress + deltaTime / ZOOM_DURATION
    let p := if p0 ≥ 1 then (1 : ℚ) else p0
    let zooming := if p0 ≥ 1 then false else true
    let t := easeInOutCubic p
    { tr with
      zoomProgress := p
      isZooming := zooming
      scale := lerp tr.scale tr.targetScale t
      x := lerp tr.x tr.targetX t
      y := lerp tr.y tr.targetY t }
  else tr

/-- Folding `updateZoom` over a list of frame delta-times. -/
def updateZoomSeq (tr : Transform) (dts : List ℚ) : Transform :=
  dts.foldl updateZoom tr

/-- The camera state at the start of the zoom transition of claim C2:
scale 1, target scale 2, progress 0, zooming. -/
def zoomStart : Transform :=
  { x := 0, y := 0, scale := 1, targetScale := 2, targetX := 0, targetY := 0,
    zoomProgress := 0, isZooming := true, focusedCluster := none }

/-! ## Hit-testing: point-to-segment distance (findEdgeAtPosition lines 717-741) -/

/-- The clamped projection parameter `param` of `findEdgeAtPosition`:
`dot / lenSq` when the segment has nonzero length, `-1` otherwise. -/
def segParam (px py sx sy tx ty : ℚ) : ℚ :=
  let A := px - sx
  let B := py - sy
  let C := tx - sx
  let D := ty - sy
  let dot := A * C + B * D
  let lenSq := C * C + D * D
  if lenSq ≠ 0 then dot / lenSq else -1

/-- The point `(xx, yy)` computed by `findEdgeAtPosition`: the source endpoint
when `param < 0`, the target endpoint when `param > 1`, and the projection foot
otherwise. -/
def segClosestPoint (px py sx sy tx ty : ℚ) : ℚ × ℚ :=
  let C := tx - sx
  let D := ty - sy
  let param := segParam px py sx sy tx ty
  if param < 0 then (sx, sy)
  else if param > 1 then (tx, ty)
  else (sx + param * C, sy + param * D)

/-- Squared distance from the probe point to the point returned by the
point-to-segment computation (`dist` in the source is its square root). -/
def segDist2 (px py sx sy tx ty : ℚ) : ℚ :=
  let q := segClosestPoint px py sx sy tx ty
  dist2 px py q.1 q.2

/-! ## i18n.js: language detection -/

/-- `this.supportedLanguages` from the `I18n` constructor. -/
def supportedLanguages : List String := ["en", "es", "de", "fr", "it", "pt"]

/-- `this.fallbackLanguage`. -/
def fallbackLanguage : String := "en"

/-- `this.countryToLanguage` from the `I18n` constructor. -/
def countryToLanguage : List (String × String) :=
  [("US", "en"), ("GB", "en"), ("CA", "en"), ("AU", "en"), ("NZ", "en"), ("IE", "en"),
   ("ES", "es"), ("MX", "es"), ("AR", "es"), ("CO", "es"), ("CL", "es"), ("PE", "es"), ("VE", "es"),
   ("DE", "de"), ("AT", "de"), ("CH", "de"),
   ("FR", "fr"), ("BE", "fr"), ("LU", "fr"),
   ("IT", "it"),
   ("PT", "pt"), ("BR", "pt")]

/-- `isLanguageSupported(lang)`: `this.supportedLanguages.includes(lang)`. -/
def isLanguageSupported (lang : String) : Bool := supportedLanguages.contains lang

/-- `getLanguageFromCountry(countryCode)`: map lookup, `null` when absent. -/
def getLanguageFromCountry (countryCode : String) : Option String :=
  countryToLanguage.lookup countryCode

/-- JS truthiness of a string (only the empty string is falsy). -/
def strTruthy (s : String) : Bool := s ≠ ""

/-- Priority 3 and 4 of `detectLanguage`: the browser language prefix if it is
supported, else the default `'en'`. -/
def detectLanguageBrowser (navLanguage : String) : String :=
  let browserLanguage := (navLanguage.splitOn "-").headD ""
  if isLanguageSupported browserLanguage then browserLanguage else "en"

/-- Priority 2 of `detectLanguage`: geolocation country mapped to a language,
used when truthy and supported; otherwise fall through to the browser check.
`geoCountry = none` models a failed geolocation lookup
(`detectUserCountry` returning `null`). -/
def detectLanguageGeo (geoCountry : Option String) (navLanguage : String) : String :=
  match geoCountry with
  | some cc =>
      if strTruthy cc then
        match getLanguageFromCountry cc with
        | some geoLanguage =>
            if strTruthy geoLanguage && isLanguageSupported geoLanguage then geoLanguage
            else detectLanguageBrowser navLanguage
        | none => detectLanguageBrowser navLanguage
      else detectLanguageBrowser navLanguage
  | none => detectLanguageBrowser navLanguage

/-- `detectLanguage` (i18n.js lines 49-73), with its three external inputs made
explicit: the saved preference (`localStorage.getItem`, `none` when absent),
the geolocation country code, and `navigator.language`. -/
def detectLanguage (saved geoCountry : Option String) (navLanguage : String) : String :=
  match saved with
  | some savedLanguage =>
      if strTruthy savedLanguage && isLanguageSupported savedLanguage then savedLanguage
      else detectLanguageGeo geoCountry navLanguage
  | none => detectLanguageGeo geoCountry navLanguage

/-! ## i18n.js: translation lookup `t` -/

/-- JSON-like values stored in a translation file. -/
inductive TransValue where
  | obj : List (String × TransValue) → TransValue
  | str : String → TransValue
  | num : ℚ → TransValue
  | boolean : Bool → TransValue
  | null : TransValue
deriving Repr

/-- JS truthiness of a stored value (`value || key` keeps `value` iff truthy). -/
def TransValue.truthy : TransValue → Bool
  | .obj _ => true
  | .str s => s ≠ ""
  | .num q => q ≠ 0
  | .boolean b => b
  | .null => false

/-- Whether a value is a string. -/
def TransValue.isStr : TransValue → Bool
  | .str _ => true
  | _ => false

/-- Outcome of the key-walking loop in `t`: either the guard
`value && typeof value === 'object'` failed at some iteration (`midFail`,
triggering the fallback path), or the loop ran to completion with a final
value (`done`, possibly `none` when the last property access was undefined). -/
inductive WalkOut where
  | midFail : WalkOut
  | done : Option TransValue → WalkOut
deriving Repr

/-- The key-walking loop of `t` (i18n.js lines 102-116).  At each step the
current value must be a truthy object (note `null` is falsy, so the JS guard
rejects it even though `typeof null === 'object'`); property access is
association-list lookup. -/
def walkKeys : Option TransValue → List String → WalkOut
  | v, [] => .done v
  | some (.obj o), k :: ks => walkKeys (o.lookup k) ks
  | _, _ :: _ => .midFail

/-- `t(key, 'en')`: walking the fallback language; a mid-walk failure returns
the raw key (the `language !== fallbackLanguage` test is false). -/
def tEn (store : List (String × TransValue)) (key : String) : TransValue :=
  match walkKeys (store.lookup "en") (key.splitOn ".") with
  | .midFail => .str key
  | .done (some value) => if value.truthy then value else .str key
  | .done none => .str key

/-- `t(key, language)` (i18n.js lines 101-119).  `store` models
`this.translations` (one entry per loaded language file).  A mid-walk guard
failure in a non-fallback language restarts the whole lookup at `'en'`;
a completed walk returns `value || key`. -/
def t (store : List (String × TransValue)) (language : String) (key : String) : TransValue :=
  if language = "en" then tEn store key
  else
    match walkKeys (store.lookup language) (key.splitOn ".") with
    | .midFail => tEn store key
    | .done (some value) => if value.truthy then value else .str key
    | .done none => .str key

/-! ## Fraud graph: nodes, edges, hit-testing, click handling -/

/-- A fraud-graph node (the object literals built in `generateNetworkData`).
`accountId` keeps the raw `Math.random()` draw behind `generateAccountId`
(the base-36 rendering is display-only); `pulseOffset` likewise keeps its
draw. -/
structure GNode where
  id : ℕ
  x : ℚ
  y : ℚ
  baseX : ℚ
  baseY : ℚ
  vx : ℚ
  vy : ℚ
  radius : ℚ
  riskScore : ℚ
  accountId : Option ℚ
  isHighRisk : Bool
  isHub : Bool
  clusterId : Option ℕ
  pulseOffset : ℚ
  isInnocentNearCluster : Bool := false
  isSatellite : Bool := false
deriving Repr, DecidableEq

/-- A fraud-graph edge.  `atoRisk = none` models the JS `atoRisk: null`. -/
structure GEdge where
  source : ℕ
  target : ℕ
  isHighRisk : Bool
  atoRisk : Option ℚ
  clusterId : Option ℕ
  flashProgress : ℚ
  isFlashing : Bool
deriving Repr, DecidableEq

/-- Two edges join the same unordered node pair (the test inside every
`edgeExists` scan of `generateNetworkData`). -/
def samePair (e f : GEdge) : Prop :=
  (e.source = f.source ∧ e.target = f.target) ∨ (e.source = f.target ∧ e.target = f.source)

instance (e f : GEdge) : Decidable (samePair e f) := by unfold samePair; infer_instance

/-- The `edgeExists` linear scan: does the edge list already contain an edge
between `a` and `b` in either order? -/
def edgeExists (edges : List GEdge) (a b : ℕ) : Bool :=
  edges.any fun e => (e.source == a && e.target == b) || (e.source == b && e.target == a)

/-- The no-duplicate-undirected-edge property of claim C1: any two edges at
distinct positions of the edge list join distinct unordered pairs. -/
def NoDupEdges (edges : List GEdge) : Prop :=
  ∀ i j : Fin edges.length, i ≠ j → ¬ samePair (edges.get i) (edges.get j)

instance (edges : List GEdge) : Decidable (NoDupEdges edges) := by
  unfold NoDupEdges; infer_instance

/-- `screenToCanvas` (lines 679-684). -/
def screenToCanvas (tr : Transform) (screenX screenY : ℚ) : ℚ × ℚ :=
  ((screenX - tr.x) / tr.scale, (screenY - tr.y) / tr.scale)

/-- `findClosestCluster` (lines 752-768): the first high-risk node strictly
closer than every high-risk node before it (`if (dist < closestDist)` with
`closestDist` starting at `Infinity`), or `none` when no high-risk node
exists.  Distances are compared squared. -/
def findClosestCluster (nodes : List GNode) (x y : ℚ) : Option GNode :=
  (nodes.foldl
    (fun acc node =>
      if node.isHighRisk then
        match acc with
        | none => some (node, dist2 x y node.x node.y)
        | some (_, bestD2) =>
            if dist2 x y node.x node.y < bestD2 then some (node, dist2 x y node.x node.y)
            else acc
      else acc)
    none).map Prod.fst

/-- The members of the clicked node's cluster
(`this.nodes.filter(n => n.clusterId === node.clusterId)`; note
`null === null` holds in JS, matching `Option` equality). -/
def clusterMembers (nodes : List GNode) (node : GNode) : List GNode :=
  nodes.filter fun n => n.clusterId = node.clusterId

/-- The cluster centroid computed by `zoomToCluster` (lines 779-789): the mean
of the member positions, defaulting to the clicked node itself when the member
list is empty. -/
def clusterCenter (nodes : List GNode) (node : GNode) : ℚ × ℚ :=
  let clusterNodes := clusterMembers nodes node
  if clusterNodes.length > 0 then
    ((clusterNodes.map GNode.x).sum / clusterNodes.length,
     (clusterNodes.map GNode.y).sum / clusterNodes.length)
  else (node.x, node.y)

/-- `zoomToCluster(node)` (lines 773-793). -/
def zoomToCluster (width height : ℚ) (nodes : List GNode) (tr : Transform) (node : GNode) :
    Transform :=
  let c := clusterCenter nodes node
  { tr with
    isZooming := true
    zoomProgress := 0
    focusedCluster := node.clusterId
    targetScale := ZOOM_LEVEL
    targetX := width / 2 - c.1 * ZOOM_LEVEL
    targetY := height / 2 - c.2 * ZOOM_LEVEL }

/-- `zoomOut()` (lines 798-806), camera part. -/
def zoomOut (tr : Transform) : Transform :=
  { tr with
    isZooming := true
    zoomProgress := 0
    focusedCluster := none
    targetScale := 1
    targetX := 0
    targetY := 0 }

/-- Interaction state touched by `handleClick`. -/
structure UIState where
  transform : Transform
  hoveredNode : Option ℕ
  hoveredEdge : Option ℕ
  selectedNode : Option ℕ
deriving Repr

/-- `handleClick(e)` (lines 842-862): while a cluster is focused any click
zooms out (and clears the hover/selection state); otherwise the click zooms to
the closest mule cluster when one exists, and does nothing when the graph has
no high-risk node. -/
def handleClick (width height : ℚ) (nodes : List GNode) (st : UIState) (x y : ℚ) : UIState :=
  if st.transform.focusedCluster ≠ none then
    { st with
      transform := zoomOut st.transform
      hoveredNode := none
      hoveredEdge := none
      selectedNode := none }
  else
    let canvasPos := screenToCanvas st.transform x y
    match findClosestCluster nodes canvasPos.1 canvasPos.2 with
    | some closestCluster =>
        { st with transform := zoomToCluster width height nodes st.transform closestCluster }
    | none => st

/-! ## Idle-motion integrator (update, lines 951-975) -/

def IDLE_SPEED : ℚ := 0.35

/-- One frame of the idle-motion integrator for one coordinate axis:
position advance by `v * IDLE_SPEED`, spring term `0.008` toward the rest
position `b`, additive noise (zero in claim C5), damping `0.98`, and the
velocity clamp to `[-1.5, 1.5]`. -/
def idleStep (b noise : ℚ) (s : ℚ × ℚ) : ℚ × ℚ :=
  let x := s.1 + s.2 * IDLE_SPEED
  let v := s.2 + (b - x) * 0.008
  let v := v + noise
  let v := v * 0.98
  let v := max (-1.5) (min 1.5 v)
  (x, v)

/-- One frame of the idle-motion integrator on a whole node (both axes),
with the two noise draws explicit. -/
def nodeIdleStep (noiseX noiseY : ℚ) (n : GNode) : GNode :=
  let sx := idleStep n.baseX noiseX (n.x, n.vx)
  let sy := idleStep n.baseY noiseY (n.y, n.vy)
  { n with x := sx.1, vx := sx.2, y := sy.1, vy := sy.2 }

/-! ## General helper lemmas -/

theorem clamp_le_clamp {a b lo hi : ℚ} (h : a ≤ b) : clamp a lo hi ≤ clamp b lo hi :=
  max_le_max le_rfl (min_le_min le_rfl h)

theorem clamp_of_mem {v : ℚ} (h0 : 0 ≤ v) (h1 : v ≤ 1) : clamp v 0 1 = v := by
  unfold clamp
  rw [min_eq_right h1, max_eq_right h0]

/-! ## Claim C4: dendrite penetration -/

/-- The growth branch applies exactly when the pressure is below the dendrite
threshold pressure of 6. -/
theorem pressureNorm_lt_threshold (p : ℚ) : pressureNorm p < dendriteThreshold ↔ p < 6 := by
  unfold pressureNorm dendriteThreshold PRESSURE_MIN PRESSURE_MAX DENDRITE_THRESHOLD_PRESSURE
  norm_num
  constructor <;> intro h <;> linarith

/-- Closed form of the penetration step below the threshold. -/
theorem dendritePenetrationStep_growth (p r prev : ℚ) (hp : p < 6) :
    dendritePenetrationStep p r prev =
      clamp ((1 - (p - 2) / 4) * (2/5 + (r - 1/10) * (6/49))) 0 1 := by
  simp only [dendritePenetrationStep]
  rw [if_pos ((pressureNorm_lt_threshold p).mpr hp)]
  congr 1
  unfold pressureNorm roughnessNorm dendriteThreshold
  unfold PRESSURE_MIN PRESSURE_MAX ROUGHNESS_MIN ROUGHNESS_MAX DENDRITE_THRESHOLD_PRESSURE
  norm_num
  ring

/-- Closed form of the penetration step at or above the threshold. -/
theorem dendritePenetrationStep_decay (p r prev : ℚ) (hp : 6 ≤ p) :
    dendritePenetrationStep p r prev = clamp (max 0 (prev - 1/50)) 0 1 := by
  simp only [dendritePenetrationStep]
  rw [if_neg]
  · norm_num
  · intro h
    exact absurd ((pressureNorm_lt_threshold p).mp h) (not_lt.mpr hp)

/-- Claim C4: in `calculatePhysicsState`, one penetration frame is monotonically
non-decreasing in roughness (any pressure, any prior state); below the dendrite
threshold pressure it is non-increasing in pressure for slider-range roughness;
at or above the threshold it ignores roughness and decays the prior penetration
by exactly 0.02 per frame until it reaches zero (iterated form included); and
pressure 2 with roughness 5 yields strictly more penetration than pressure 2
with roughness 0.1. -/
theorem dendrite_penetration_monotone :
    (∀ p r₁ r₂ prev : ℚ, r₁ ≤ r₂ →
      dendritePenetrationStep p r₁ prev ≤ dendritePenetrationStep p r₂ prev) ∧
    (∀ p₁ p₂ r prev : ℚ, ROUGHNESS_MIN ≤ r → p₁ ≤ p₂ → p₂ < DENDRITE_THRESHOLD_PRESSURE →
      dendritePenetrationStep p₂ r prev ≤ dendritePenetrationStep p₁ r prev) ∧
    (∀ p r prev : ℚ, DENDRITE_THRESHOLD_PRESSURE ≤ p → 0 ≤ prev → prev ≤ 1 →
      dendritePenetrationStep p r prev = max 0 (prev - 0.02)) ∧
    (∀ (k : ℕ) (p r prev : ℚ), DENDRITE_THRESHOLD_PRESSURE ≤ p → 0 ≤ prev → prev ≤ 1 →
      (fun pen => dendritePenetrationStep p r pen)^[k] prev = max 0 (prev - (k : ℚ) * 0.02)) ∧
    (∀ prev : ℚ, dendritePenetrationStep 2 0.1 prev < dendritePenetrationStep 2 5 prev) := by
  have hthr : (6 : ℚ) = DENDRITE_THRESHOLD_PRESSURE := by
    unfold DENDRITE_THRESHOLD_PRESSURE; norm_num
  have decay_eq : ∀ p r prev : ℚ, DENDRITE_THRESHOLD_PRESSURE ≤ p → 0 ≤ prev → prev ≤ 1 →
      dendritePenetrationStep p r prev = max 0 (prev - 0.02) := by
    intro p r prev hp h0 h1
    rw [dendritePenetrationStep_decay p r prev (hthr ▸ hp),
      show (0.02 : ℚ) = 1/50 by norm_num]
    apply clamp_of_mem (le_max_left _ _)
    rw [max_le_iff]
    refine ⟨by norm_num, by linarith⟩
  refine ⟨?_, ?_, decay_eq, ?_, ?_⟩
  · intro p r₁ r₂ prev h
    by_cases hp : p < 6
    · rw [dendritePenetrationStep_growth p r₁ prev hp, dendritePenetrationStep_growth p r₂ prev hp]
      apply clamp_le_clamp
      have hcoef : (0 : ℚ) ≤ 1 - (p - 2) / 4 := by linarith
      have hmono : (2/5 + (r₁ - 1/10) * (6/49) : ℚ) ≤ 2/5 + (r₂ - 1/10) * (6/49) := by linarith
      exact mul_le_mul_of_nonneg_left hmono hcoef
    · push_neg at hp
      rw [dendritePenetrationStep_decay p r₁ prev hp, dendritePenetrationStep_decay p r₂ prev hp]
  · intro p₁ p₂ r prev hr h12 h2
    rw [← hthr] at h2
    have h1 : p₁ < 6 := lt_of_le_of_lt h12 h2
    rw [dendritePenetrationStep_growth p₁ r prev h1, dendritePenetrationStep_growth p₂ r prev h2]
    apply clamp_le_clamp
    have hrmin : (1/10 : ℚ) ≤ r := by
      have hh : ROUGHNESS_MIN = (1/10 : ℚ) := by unfold ROUGHNESS_MIN; norm_num
      rw [hh] at hr; exact hr
    have hrn : (0 : ℚ) ≤ 2/5 + (r - 1/10) * (6/49) := by linarith
    have hco : (1 - (p₂ - 2) / 4 : ℚ) ≤ 1 - (p₁ - 2) / 4 := by linarith
    exact mul_le_mul_of_nonneg_right hco hrn
  · intro k
    induction k with
    | zero =>
        intro p r prev _ h0 _
        simp [Function.iterate_zero, max_eq_right h0]
    | succ n ih =>
        intro p r prev hp h0 h1
        rw [Function.iterate_succ_apply, decay_eq p r prev hp h0 h1]
        have h0' : (0 : ℚ) ≤ max 0 (prev - 0.02) := le_max_left _ _
        have h1' : max 0 (prev - 0.02) ≤ 1 := by
          rw [max_le_iff]
          refine ⟨by norm_num, ?_⟩
          rw [show (0.02 : ℚ) = 1/50 by norm_num]
          linarith
        rw [ih p r _ hp h0' h1']
        rw [show (0.02 : ℚ) = 1/50 by norm_num] at *
        rcases le_total (prev - 1/50) 0 with hc | hc
        · rw [max_eq_left hc]
          have hn : (0 : ℚ) ≤ (n : ℚ) * (1/50) := by positivity
          have hcc : prev - ((n : ℕ) + 1 : ℚ) * (1/50) ≤ 0 := by linarith
          rw [max_eq_left (by linarith : (0 : ℚ) - (n : ℚ) * (1/50) ≤ 0)]
          rw [max_eq_left (by push_cast at hcc ⊢; linarith : prev - ((n + 1 : ℕ) : ℚ) * (1/50) ≤ 0)]
        · rw [max_eq_right hc]
          have : prev - 1/50 - (n : ℚ) * (1/50) = prev - ((n + 1 : ℕ) : ℚ) * (1/50) := by
            push_cast
            ring
          rw [this]
  · intro prev
    rw [dendritePenetrationStep_growth 2 0.1 prev (by norm_num),
      dendritePenetrationStep_growth 2 5 prev (by norm_num)]
    norm_num [clamp]

/-- Witness for claim C4 at concrete inputs. -/
theorem dendrite_penetration_monotone_witness :
    ((1 : ℚ) ≤ 2 ∧ dendritePenetrationStep 3 1 0 ≤ dendritePenetrationStep 3 2 0) ∧
    (ROUGHNESS_MIN ≤ (1 : ℚ) ∧ (4 : ℚ) ≤ 5 ∧ (5 : ℚ) < DENDRITE_THRESHOLD_PRESSURE ∧
      dendritePenetrationStep 5 1 (1/2) ≤ dendritePenetrationStep 4 1 (1/2)) ∧
    (DENDRITE_THRESHOLD_PRESSURE ≤ (18 : ℚ) ∧
      dendritePenetrationStep 18 1 (1/2) = max 0 ((1/2 : ℚ) - 0.02)) ∧
    ((fun pen => dendritePenetrationStep 18 1 pen)^[30] (1/2) =
      max 0 ((1/2 : ℚ) - ((30 : ℕ) : ℚ) * 0.02)) :=
  ⟨⟨by norm_num, dendrite_penetration_monotone.1 3 1 2 0 (by norm_num)⟩,
   ⟨by norm_num [ROUGHNESS_MIN], by norm_num, by norm_num [DENDRITE_THRESHOLD_PRESSURE],
     dendrite_penetration_monotone.2.1 4 5 1 (1/2) (by norm_num [ROUGHNESS_MIN]) (by norm_num)
       (by norm_num [DENDRITE_THRESHOLD_PRESSURE])⟩,
   ⟨by norm_num [DENDRITE_THRESHOLD_PRESSURE],
     dendrite_penetration_monotone.2.2.1 18 1 (1/2) (by norm_num [DENDRITE_THRESHOLD_PRESSURE])
       (by norm_num) (by norm_num)⟩,
   dendrite_penetration_monotone.2.2.2.1 30 18 1 (1/2) (by norm_num [DENDRITE_THRESHOLD_PRESSURE])
     (by norm_num) (by norm_num)⟩

/-! ## Claim C2: camera zoom at half progress -/

/-- Claim C2 counterexample: two frames of 200ms each bring the accumulated
zoom progress to exactly 1/2 (their sum is D/2 = 400ms with D = 800ms), yet the
resulting scale is 49/32, not 1 + (2-1) x easeInOutCubic(1/2) = 3/2: each frame
lerps from the *current* scale, so progress-compounding breaks the claimed
closed form for multi-frame sequences. -/
theorem zoom_half_progress_counterexample :
    (updateZoomSeq zoomStart [200, 200]).zoomProgress = 1/2 ∧
    (updateZoomSeq zoomStart [200, 200]).scale = 49/32 ∧
    ¬ (updateZoomSeq zoomStart [200, 200]).scale = 1 + (2 - 1) * easeInOutCubic (1/2) := by
  refine ⟨by with_unfolding_all rfl, by with_unfolding_all rfl, ?_⟩
  rw [show (updateZoomSeq zoomStart [200, 200]).scale = 49/32 from by with_unfolding_all rfl,
    show easeInOutCubic (1/2) = 1/2 from by with_unfolding_all rfl]
  norm_num

/-- Claim C2 amended: the ease function takes value 1/2 at t = 1/2, and a zoom
transition from scale 1 to target 2 sampled by a *single* frame whose delta is
D/2 = 400ms reaches progress 1/2 and scale exactly
1 + (2-1) x easeInOutCubic(1/2) = 3/2. -/
theorem zoom_half_progress_single_frame :
    easeInOutCubic (1/2) = 1/2 ∧
    (updateZoom zoomStart 400).zoomProgress = 1/2 ∧
    (updateZoom zoomStart 400).scale = 1 + (2 - 1) * easeInOutCubic (1/2) ∧
    (updateZoom zoomStart 400).scale = 3/2 := by
  refine ⟨by with_unfolding_all rfl, by with_unfolding_all rfl,
    by with_unfolding_all rfl, by with_unfolding_all rfl⟩

/-! ## Claim C6: point-to-segment distance in findEdgeAtPosition -/

/-- Claim C6: when the clamped projection parameter falls below 0 the
computation returns the source endpoint, which is then the nearer endpoint;
when it exceeds 1 it returns the target endpoint, again the nearer one; for a
parameter inside [0, 1] it returns the perpendicular foot of the probe point on
the segment line (the residual is orthogonal to the segment direction).  For
the segment (0,0)-(10,0) and probe point (15,5) the nearest point is (10,0)
and the squared distance is 50 = (5 sqrt 2)^2. -/
theorem seg_distance_cases :
    (∀ px py sx sy tx ty : ℚ, segParam px py sx sy tx ty < 0 →
      segClosestPoint px py sx sy tx ty = (sx, sy) ∧
      dist2 px py sx sy ≤ dist2 px py tx ty) ∧
    (∀ px py sx sy tx ty : ℚ, segParam px py sx sy tx ty > 1 →
      segClosestPoint px py sx sy tx ty = (tx, ty) ∧
      dist2 px py tx ty ≤ dist2 px py sx sy) ∧
    (∀ px py sx sy tx ty : ℚ, 0 ≤ segParam px py sx sy tx ty →
      segParam px py sx sy tx ty ≤ 1 →
      segClosestPoint px py sx sy tx ty =
        (sx + segParam px py sx sy tx ty * (tx - sx),
         sy + segParam px py sx sy tx ty * (ty - sy)) ∧
      (px - (sx + segParam px py sx sy tx ty * (tx - sx))) * (tx - sx) +
        (py - (sy + segParam px py sx sy tx ty * (ty - sy))) * (ty - sy) = 0) ∧
    (segClosestPoint 15 5 0 0 10 0 = (10, 0) ∧ segDist2 15 5 0 0 10 0 = 50) := by
  have hparam : ∀ px py sx sy tx ty : ℚ,
      (tx - sx) * (tx - sx) + (ty - sy) * (ty - sy) ≠ 0 →
      segParam px py sx sy tx ty =
        ((px - sx) * (tx - sx) + (py - sy) * (ty - sy)) /
          ((tx - sx) * (tx - sx) + (ty - sy) * (ty - sy)) := by
    intro px py sx sy tx ty h
    simp only [segParam]
    rw [if_pos h]
  have hdeg : ∀ px py sx sy tx ty : ℚ,
      (tx - sx) * (tx - sx) + (ty - sy) * (ty - sy) = 0 → tx = sx ∧ ty = sy := by
    intro px py sx sy tx ty h
    constructor <;> nlinarith [sq_nonneg (tx - sx), sq_nonneg (ty - sy), sq_abs (tx - sx)]
  have hlenpos : ∀ sx sy tx ty : ℚ,
      (tx - sx) * (tx - sx) + (ty - sy) * (ty - sy) ≠ 0 →
      0 < (tx - sx) * (tx - sx) + (ty - sy) * (ty - sy) := by
    intro sx sy tx ty h
    rcases lt_or_eq_of_le
      (add_nonneg (mul_self_nonneg (tx - sx)) (mul_self_nonneg (ty - sy)))
      with hlt | heq
    · exact hlt
    · exact absurd heq.symm h
  refine ⟨?_, ?_, ?_, by with_unfolding_all rfl, by with_unfolding_all rfl⟩
  · intro px py sx sy tx ty h
    refine ⟨by simp only [segClosestPoint]; rw [if_pos h], ?_⟩
    by_cases hL : (tx - sx) * (tx - sx) + (ty - sy) * (ty - sy) = 0
    · obtain ⟨h1, h2⟩ := hdeg px py sx sy tx ty hL
      rw [h1, h2]
    · have hpos := hlenpos sx sy tx ty hL
      rw [hparam px py sx sy tx ty hL] at h
      have hdot : (px - sx) * (tx - sx) + (py - sy) * (ty - sy) < 0 := by
        by_contra hc
        push_neg at hc
        exact absurd (div_nonneg hc (le_of_lt hpos)) (not_le.mpr h)
      unfold dist2
      nlinarith [hdot, hpos]
  · intro px py sx sy tx ty h
    refine ⟨?_, ?_⟩
    · simp only [segClosestPoint]
      rw [if_neg (by
        by_cases hL : (tx - sx) * (tx - sx) + (ty - sy) * (ty - sy) = 0
        · exfalso
          simp only [segParam] at h
          rw [if_neg (fun hh => hh hL)] at h
          norm_num at h
        · rw [hparam px py sx sy tx ty hL]
          rw [hparam px py sx sy tx ty hL] at h
          exact not_lt.mpr (le_trans (by norm_num) (le_of_lt h))), if_pos h]
    · by_cases hL : (tx - sx) * (tx - sx) + (ty - sy) * (ty - sy) = 0
      · exfalso
        simp only [segParam] at h
        rw [if_neg (fun hh => hh hL)] at h
        norm_num at h
      · have hpos := hlenpos sx sy tx ty hL
        rw [hparam px py sx sy tx ty hL] at h
        have hdot : (tx - sx) * (tx - sx) + (ty - sy) * (ty - sy) <
            (px - sx) * (tx - sx) + (py - sy) * (ty - sy) := by
          rw [gt_iff_lt, lt_div_iff₀ hpos, one_mul] at h
          exact h
        unfold dist2
        nlinarith [hdot, hpos]
  · intro px py sx sy tx ty h0 h1
    have hL : (tx - sx) * (tx - sx) + (ty - sy) * (ty - sy) ≠ 0 := by
      intro hL
      simp only [segParam] at h0
      rw [if_neg (fun hh => hh hL)] at h0
      norm_num at h0
    refine ⟨?_, ?_⟩
    · simp only [segClosestPoint]
      rw [if_neg (not_lt.mpr h0), if_neg (not_lt.mpr h1)]
    · rw [hparam px py sx sy tx ty hL]
      field_simp
      ring

/-- Witness for claim C6 at concrete inputs: the probe (15,5) against segment
(0,0)-(10,0) exercises the parameter-above-1 branch, probe (-3,1) the
parameter-below-0 branch, and probe (3,4) the interior branch. -/
theorem seg_distance_cases_witness :
    (segParam 15 5 0 0 10 0 > 1 ∧ segClosestPoint 15 5 0 0 10 0 = (10, 0) ∧
      dist2 15 5 10 0 ≤ dist2 15 5 0 0) ∧
    (segParam (-3) 1 0 0 10 0 < 0 ∧ segClosestPoint (-3) 1 0 0 10 0 = (0, 0) ∧
      dist2 (-3) 1 0 0 ≤ dist2 (-3) 1 10 0) ∧
    (0 ≤ segParam 3 4 0 0 10 0 ∧ segParam 3 4 0 0 10 0 ≤ 1 ∧
      segClosestPoint 3 4 0 0 10 0 =
        (0 + segParam 3 4 0 0 10 0 * (10 - 0), 0 + segParam 3 4 0 0 10 0 * (0 - 0)) ∧
      (3 - (0 + segParam 3 4 0 0 10 0 * (10 - 0))) * (10 - 0) +
        (4 - (0 + segParam 3 4 0 0 10 0 * (0 - 0))) * (0 - 0) = 0) :=
  ⟨⟨by with_unfolding_all decide,
    (seg_distance_cases.2.1 15 5 0 0 10 0 (by with_unfolding_all decide)).1,
    (seg_distance_cases.2.1 15 5 0 0 10 0 (by with_unfolding_all decide)).2⟩,
   ⟨by with_unfolding_all decide,
    (seg_distance_cases.1 (-3) 1 0 0 10 0 (by with_unfolding_all decide)).1,
    (seg_distance_cases.1 (-3) 1 0 0 10 0 (by with_unfolding_all decide)).2⟩,
   by with_unfolding_all decide, by with_unfolding_all decide,
   (seg_distance_cases.2.2.1 3 4 0 0 10 0 (by with_unfolding_all decide)
     (by with_unfolding_all decide)).1,
   (seg_distance_cases.2.2.1 3 4 0 0 10 0 (by with_unfolding_all decide)
     (by with_unfolding_all decide)).2⟩

/-! ## Claim C10: detectLanguage always yields a supported language -/

theorem mem_of_supported {s : String} (h : isLanguageSupported s = true) :
    s ∈ supportedLanguages :=
  List.mem_of_elem_eq_true h

theorem detectLanguageBrowser_mem (nav : String) :
    detectLanguageBrowser nav ∈ supportedLanguages := by
  unfold detectLanguageBrowser
  by_cases h : isLanguageSupported ((nav.splitOn "-").headD "") = true
  · rw [if_pos h]
    exact mem_of_supported h
  · rw [if_neg h]
    unfold supportedLanguages
    simp

theorem detectLanguageGeo_some (cc nav : String) :
    detectLanguageGeo (some cc) nav =
      if strTruthy cc = true then
        (match getLanguageFromCountry cc with
          | some geoLanguage =>
              if (strTruthy geoLanguage && isLanguageSupported geoLanguage) = true then geoLanguage
              else detectLanguageBrowser nav
          | none => detectLanguageBrowser nav)
      else detectLanguageBrowser nav := rfl

theorem detectLanguage_some (s nav : String) (geo : Option String) :
    detectLanguage (some s) geo nav =
      if (strTruthy s && isLanguageSupported s) = true then s
      else detectLanguageGeo geo nav := rfl

theorem detectLanguageGeo_mem (geo : Option String) (nav : String) :
    detectLanguageGeo geo nav ∈ supportedLanguages := by
  rcases geo with _ | cc
  · exact detectLanguageBrowser_mem nav
  · rw [detectLanguageGeo_some]
    by_cases ht : strTruthy cc = true
    · rw [if_pos ht]
      rcases hg : getLanguageFromCountry cc with _ | g
      · exact detectLanguageBrowser_mem nav
      · show (if (strTruthy g && isLanguageSupported g) = true then g
            else detectLanguageBrowser nav) ∈ supportedLanguages
        by_cases hs : (strTruthy g && isLanguageSupported g) = true
        · rw [if_pos hs]
          exact mem_of_supported (Bool.and_elim_right hs)
        · rw [if_neg hs]
          exact detectLanguageBrowser_mem nav
    · rw [if_neg ht]
      exact detectLanguageBrowser_mem nav

/-- Claim C10: for every combination of saved preference, geolocation outcome
(including failure) and browser language, `detectLanguage` returns a member of
the supported-language list; a saved preference is used exactly when it passes
`isLanguageSupported`, the geolocation language likewise, then the browser
prefix, and otherwise the result is the default `'en'`. -/
theorem detectLanguage_contract :
    (∀ saved geoCountry navLanguage,
      detectLanguage saved geoCountry navLanguage ∈ supportedLanguages) ∧
    (∀ s geoCountry navLanguage, strTruthy s = true → isLanguageSupported s = true →
      detectLanguage (some s) geoCountry navLanguage = s) ∧
    (∀ s geoCountry navLanguage, (strTruthy s && isLanguageSupported s) = false →
      detectLanguage (some s) geoCountry navLanguage =
        detectLanguageGeo geoCountry navLanguage) ∧
    (∀ geoCountry navLanguage,
      detectLanguage none geoCountry navLanguage = detectLanguageGeo geoCountry navLanguage) ∧
    (∀ cc navLanguage g, strTruthy cc = true → getLanguageFromCountry cc = some g →
      strTruthy g = true → isLanguageSupported g = true →
      detectLanguageGeo (some cc) navLanguage = g) ∧
    (∀ cc navLanguage, getLanguageFromCountry cc = none →
      detectLanguageGeo (some cc) navLanguage = detectLanguageBrowser navLanguage) ∧
    (∀ navLanguage,
      detectLanguageGeo none navLanguage = detectLanguageBrowser navLanguage) ∧
    (∀ navLanguage, isLanguageSupported ((navLanguage.splitOn "-").headD "") = true →
      detectLanguageBrowser navLanguage = (navLanguage.splitOn "-").headD "") ∧
    (∀ navLanguage, isLanguageSupported ((navLanguage.splitOn "-").headD "") = false →
      detectLanguageBrowser navLanguage = "en") := by
  refine ⟨?_, ?_, ?_, ?_, ?_, ?_, ?_, ?_, ?_⟩
  · intro saved geo nav
    rcases saved with _ | s
    · exact detectLanguageGeo_mem geo nav
    · rw [detectLanguage_some]
      by_cases hs : (strTruthy s && isLanguageSupported s) = true
      · rw [if_pos hs]
        exact mem_of_supported (Bool.and_elim_right hs)
      · rw [if_neg hs]
        exact detectLanguageGeo_mem geo nav
  · intro s geo nav ht hs
    rw [detectLanguage_some, if_pos (by rw [ht, hs]; rfl)]
  · intro s geo nav h
    rw [detectLanguage_some, if_neg (by rw [h]; exact Bool.false_ne_true)]
  · intro geo nav
    rfl
  · intro cc nav g ht hg hgt hgs
    rw [detectLanguageGeo_some, if_pos ht, hg]
    show (if (strTruthy g && isLanguageSupported g) = true then g
        else detectLanguageBrowser nav) = g
    rw [if_pos (by rw [hgt, hgs]; rfl)]
  · intro cc nav hg
    rw [detectLanguageGeo_some]
    by_cases ht : strTruthy cc = true
    · rw [if_pos ht, hg]
    · rw [if_neg ht]
  · intro nav
    rfl
  · intro nav h
    unfold detectLanguageBrowser
    rw [if_pos h]
  · intro nav h
    unfold detectLanguageBrowser
    rw [if_neg (by rw [h]; exact Bool.false_ne_true)]

/-- Witness for claim C10 at concrete inputs. -/
theorem detectLanguage_contract_witness :
    (strTruthy "de" = true ∧ isLanguageSupported "de" = true ∧
      detectLanguage (some "de") (some "FR") "en-US" = "de") ∧
    ((strTruthy "xx" && isLanguageSupported "xx") = false ∧
      detectLanguage (some "xx") (some "MX") "en-US" = detectLanguageGeo (some "MX") "en-US") ∧
    (strTruthy "MX" = true ∧ getLanguageFromCountry "MX" = some "es" ∧ strTruthy "es" = true ∧
      isLanguageSupported "es" = true ∧ detectLanguageGeo (some "MX") "en-US" = "es") ∧
    (getLanguageFromCountry "ZZ" = none ∧
      detectLanguageGeo (some "ZZ") "it-IT" = detectLanguageBrowser "it-IT") ∧
    (isLanguageSupported (("it-IT".splitOn "-").headD "") = true ∧
      detectLanguageBrowser "it-IT" = ("it-IT".splitOn "-").headD "") ∧
    (isLanguageSupported (("ja-JP".splitOn "-").headD "") = false ∧
      detectLanguageBrowser "ja-JP" = "en") :=
  ⟨⟨rfl, rfl, detectLanguage_contract.2.1 "de" (some "FR") "en-US" rfl rfl⟩,
   ⟨rfl, detectLanguage_contract.2.2.1 "xx" (some "MX") "en-US" rfl⟩,
   ⟨rfl, rfl, rfl, rfl, detectLanguage_contract.2.2.2.2.1 "MX" "en-US" "es" rfl rfl rfl rfl⟩,
   ⟨rfl, detectLanguage_contract.2.2.2.2.2.1 "ZZ" "it-IT" rfl⟩,
   ⟨by with_unfolding_all rfl,
    detectLanguage_contract.2.2.2.2.2.2.2.1 "it-IT" (by with_unfolding_all rfl)⟩,
   ⟨by with_unfolding_all rfl,
    detectLanguage_contract.2.2.2.2.2.2.2.2 "ja-JP" (by with_unfolding_all rfl)⟩⟩

/-! ## Claim C7: the translation lookup t -/

/-- A concrete translation store shaped like the real translation files:
nested objects with string leaves, loaded for `'de'` and `'en'`. -/
def cexStore : List (String × TransValue) :=
  [("de", TransValue.obj
      [("banking", TransValue.obj
        [("graph", TransValue.obj
          [("legend", TransValue.str "Hohes Risiko")])])]),
   ("en", TransValue.obj
      [("banking", TransValue.obj
        [("graph", TransValue.obj
          [("legend", TransValue.str "High Risk")])])])]

/-- Claim C7 counterexample: looking up the dotted key `banking.graph` (a key
path that resolves to a *subtree*, not a leaf) makes `t` return the stored
object itself via `return value || key`, so `t` does not always return a
string. -/
theorem t_returns_object_counterexample :
    t cexStore "de" "banking.graph" =
      TransValue.obj [("legend", TransValue.str "Hohes Risiko")] ∧
    (t cexStore "de" "banking.graph").isStr = false := by
  constructor
  · with_unfolding_all rfl
  · with_unfolding_all rfl

/-- Claim C7 amended: `t` is total and follows this exact chain: a walk of the
requested language that completes on a truthy value returns that value (which
need not be a string); a walk that fails its object guard mid-way falls back to
the full English lookup when the language is not `'en'`, and to the raw key
when it is; a walk that completes on a missing or falsy value returns the raw
key directly (without consulting English); and in all cases the result is
either the raw key or a value stored at the key path in the requested or
fallback language. -/
theorem t_fallback_contract :
    (∀ store language key value, language ≠ "en" →
      walkKeys (store.lookup language) (key.splitOn ".") = .done (some value) →
      value.truthy = true →
      t store language key = value) ∧
    (∀ store language key, language ≠ "en" →
      walkKeys (store.lookup language) (key.splitOn ".") = .midFail →
      t store language key = tEn store key) ∧
    (∀ store language key, language ≠ "en" →
      walkKeys (store.lookup language) (key.splitOn ".") = .done none →
      t store language key = .str key) ∧
    (∀ store language key value, language ≠ "en" →
      walkKeys (store.lookup language) (key.splitOn ".") = .done (some value) →
      value.truthy = false →
      t store language key = .str key) ∧
    (∀ store key, t store "en" key = tEn store key) ∧
    (∀ store key, walkKeys (store.lookup "en") (key.splitOn ".") = .midFail →
      tEn store key = .str key) ∧
    (∀ store language key,
      t store language key = .str key ∨
      walkKeys (store.lookup language) (key.splitOn ".") = .done (some (t store language key)) ∨
      walkKeys (store.lookup "en") (key.splitOn ".") = .done (some (t store language key))) := by
  have htEn : ∀ store key,
      tEn store key = .str key ∨
      walkKeys (store.lookup "en") (key.splitOn ".") = .done (some (tEn store key)) := by
    intro store key
    unfold tEn
    rcases hw : walkKeys (store.lookup "en") (key.splitOn ".") with _ | v
    · exact Or.inl rfl
    · rcases v with _ | val
      · exact Or.inl rfl
      · by_cases ht : val.truthy = true
        · simp only [ht, if_true]
          exact Or.inr trivial
        · have hf : val.truthy = false := by
            rcases Bool.eq_false_or_eq_true val.truthy with h | h
            · exact absurd h ht
            · exact h
          refine Or.inl ?_
          simp [hf]
  refine ⟨?_, ?_, ?_, ?_, ?_, ?_, ?_⟩
  · intro store language key value hne hw ht
    unfold t
    rw [if_neg hne, hw]
    simp [ht]
  · intro store language key hne hw
    unfold t
    rw [if_neg hne, hw]
  · intro store language key hne hw
    unfold t
    rw [if_neg hne, hw]
  · intro store language key value hne hw ht
    unfold t
    rw [if_neg hne, hw]
    simp [ht]
  · intro store key
    unfold t
    rw [if_pos rfl]
  · intro store key hw
    unfold tEn
    rw [hw]
  · intro store language key
    by_cases hen : language = "en"
    · subst hen
      unfold t
      rw [if_pos rfl]
      rcases htEn store key with h | h
      · exact Or.inl h
      · exact Or.inr (Or.inr h)
    · unfold t
      rw [if_neg hen]
      rcases hw : walkKeys (store.lookup language) (key.splitOn ".") with _ | v
      · rcases htEn store key with h | h
        · exact Or.inl h
        · exact Or.inr (Or.inr h)
      · rcases v with _ | val
        · exact Or.inl rfl
        · by_cases ht : val.truthy = true
          · simp only [ht, if_true]
            exact Or.inr (Or.inl trivial)
          · have hf : val.truthy = false := by
              rcases Bool.eq_false_or_eq_true val.truthy with h | h
              · exact absurd h ht
              · exact h
            refine Or.inl ?_
            simp [hf]

/-- Witness for claim C7 at concrete inputs: a leaf lookup in `'de'` succeeds,
a lookup in the unloaded language `'fr'` fails mid-walk and falls back to the
English value, and a key whose first component is missing in English resolves
to the raw key. -/
theorem t_fallback_contract_witness :
    ("de" ≠ "en" ∧
      walkKeys (cexStore.lookup "de") ("banking.graph.legend".splitOn ".") =
        .done (some (TransValue.str "Hohes Risiko")) ∧
      (TransValue.str "Hohes Risiko").truthy = true ∧
      t cexStore "de" "banking.graph.legend" = TransValue.str "Hohes Risiko") ∧
    ("fr" ≠ "en" ∧
      walkKeys (cexStore.lookup "fr") ("banking.graph.legend".splitOn ".") = .midFail ∧
      t cexStore "fr" "banking.graph.legend" = tEn cexStore "banking.graph.legend") ∧
    (walkKeys (cexStore.lookup "en") ("missing.key".splitOn ".") = .midFail ∧
      tEn cexStore "missing.key" = TransValue.str "missing.key") :=
  ⟨⟨by decide, by with_unfolding_all rfl, rfl,
    t_fallback_contract.1 cexStore "de" "banking.graph.legend" (TransValue.str "Hohes Risiko")
      (by decide) (by with_unfolding_all rfl) rfl⟩,
   ⟨by decide, by with_unfolding_all rfl,
    t_fallback_contract.2.1 cexStore "fr" "banking.graph.legend" (by decide)
      (by with_unfolding_all rfl)⟩,
   ⟨by with_unfolding_all rfl,
    t_fallback_contract.2.2.2.2.2.1 cexStore "missing.key" (by with_unfolding_all rfl)⟩⟩

/-! ## Claim C8: camera state machine triggers -/

theorem findClosestCluster_none (nodes : List GNode) (x y : ℚ)
    (h : ∀ n ∈ nodes, n.isHighRisk = false) : findClosestCluster nodes x y = none := by
  unfold findClosestCluster
  have hfold : nodes.foldl
      (fun acc node =>
        if node.isHighRisk then
          match acc with
          | none => some (node, dist2 x y node.x node.y)
          | some (_, bestD2) =>
              if dist2 x y node.x node.y < bestD2 then some (node, dist2 x y node.x node.y)
              else acc
        else acc)
      none = none := by
    induction nodes with
    | nil => rfl
    | cons n ns ih =>
        have hn : n.isHighRisk = false := h n (List.mem_cons_self n ns)
        rw [List.foldl_cons, if_neg (by rw [hn]; exact Bool.false_ne_true)]
        exact ih fun m hm => h m (List.mem_cons_of_mem n hm)
  rw [hfold]
  rfl

/-- Claim C8: `handleClick` implements exactly the two trigger rules.  While a
cluster is focused, every click returns the camera to idle: target scale 1,
target offset (0,0), no focused cluster, with the eased transition restarted.
While idle, a click zooms to the cluster of the closest high-risk node when one
exists (target scale ZOOM_LEVEL, centered on that cluster's centroid), and a
click does nothing at all when the graph has no high-risk node (in particular
the state is unchanged, so there is no third behaviour). -/
theorem camera_click_rules :
    (∀ (width height : ℚ) (nodes : List GNode) (st : UIState) (x y : ℚ),
      st.transform.focusedCluster ≠ none →
      (handleClick width height nodes st x y).transform.targetScale = 1 ∧
      (handleClick width height nodes st x y).transform.targetX = 0 ∧
      (handleClick width height nodes st x y).transform.targetY = 0 ∧
      (handleClick width height nodes st x y).transform.focusedCluster = none ∧
      (handleClick width height nodes st x y).transform.isZooming = true ∧
      (handleClick width height nodes st x y).transform.zoomProgress = 0 ∧
      (handleClick width height nodes st x y).hoveredNode = none) ∧
    (∀ (width height : ℚ) (nodes : List GNode) (st : UIState) (x y : ℚ) (nd : GNode),
      st.transform.focusedCluster = none →
      findClosestCluster nodes (screenToCanvas st.transform x y).1
        (screenToCanvas st.transform x y).2 = some nd →
      (handleClick width height nodes st x y).transform.focusedCluster = nd.clusterId ∧
      (handleClick width height nodes st x y).transform.targetScale = ZOOM_LEVEL ∧
      (handleClick width height nodes st x y).transform.targetX =
        width / 2 - (clusterCenter nodes nd).1 * ZOOM_LEVEL ∧
      (handleClick width height nodes st x y).transform.targetY =
        height / 2 - (clusterCenter nodes nd).2 * ZOOM_LEVEL ∧
      (handleClick width height nodes st x y).transform.isZooming = true ∧
      (handleClick width height nodes st x y).transform.zoomProgress = 0) ∧
    (∀ (width height : ℚ) (nodes : List GNode) (st : UIState) (x y : ℚ),
      st.transform.focusedCluster = none →
      findClosestCluster nodes (screenToCanvas st.transform x y).1
        (screenToCanvas st.transform x y).2 = none →
      handleClick width height nodes st x y = st) ∧
    (∀ (nodes : List GNode) (x y : ℚ), (∀ n ∈ nodes, n.isHighRisk = false) →
      findClosestCluster nodes x y = none) := by
  refine ⟨?_, ?_, ?_, findClosestCluster_none⟩
  · intro width height nodes st x y h
    unfold handleClick
    rw [if_pos h]
    exact ⟨rfl, rfl, rfl, rfl, rfl, rfl, rfl⟩
  · intro width height nodes st x y nd h hf
    unfold handleClick
    rw [if_neg (by rw [h]; exact fun hh => hh rfl)]
    simp only [hf]
    exact ⟨rfl, rfl, rfl, rfl, rfl, rfl⟩
  · intro width height nodes st x y h hf
    unfold handleClick
    rw [if_neg (by rw [h]; exact fun hh => hh rfl)]
    simp only [hf]

/-- Concrete high-risk node used by the claim C8 witness. -/
def wNode : GNode :=
  { id := 0, x := 10, y := 20, baseX := 10, baseY := 20, vx := 0, vy := 0,
    radius := 5, riskScore := 0.9, accountId := some 0.5, isHighRisk := true,
    isHub := true, clusterId := some 0, pulseOffset := 0 }

/-- Concrete idle interaction state used by the claim C8 witness. -/
def wIdle : UIState :=
  { transform :=
      { x := 0, y := 0, scale := 1, targetScale := 1, targetX := 0, targetY := 0,
        zoomProgress := 1, isZooming := false, focusedCluster := none },
    hoveredNode := none, hoveredEdge := none, selectedNode := none }

/-- Concrete focused interaction state used by the claim C8 witness. -/
def wFocused : UIState :=
  { transform :=
      { x := 0, y := 0, scale := 2, targetScale := 2, targetX := -10, targetY := -20,
        zoomProgress := 1, isZooming := false, focusedCluster := some 0 },
    hoveredNode := some 0, hoveredEdge := none, selectedNode := none }

/-- Witness for claim C8 at concrete inputs: a click while focused zooms out,
and a click while idle zooms to the unique high-risk node's cluster. -/
theorem camera_click_rules_witness :
    (wFocused.transform.focusedCluster ≠ none ∧
      (handleClick 100 100 [wNode] wFocused 1 2).transform.targetScale = 1 ∧
      (handleClick 100 100 [wNode] wFocused 1 2).transform.focusedCluster = none) ∧
    (wIdle.transform.focusedCluster = none ∧
      findClosestCluster [wNode] (screenToCanvas wIdle.transform 1 2).1
        (screenToCanvas wIdle.transform 1 2).2 = some wNode ∧
      (handleClick 100 100 [wNode] wIdle 1 2).transform.focusedCluster = wNode.clusterId ∧
      (handleClick 100 100 [wNode] wIdle 1 2).transform.targetScale = ZOOM_LEVEL) :=
  ⟨⟨by decide, ((camera_click_rules.1 100 100 [wNode] wFocused 1 2) (by decide)).1,
    ((camera_click_rules.1 100 100 [wNode] wFocused 1 2) (by decide)).2.2.2.1⟩,
   ⟨rfl, by with_unfolding_all rfl,
    ((camera_click_rules.2.1 100 100 [wNode] wIdle 1 2 wNode) rfl
      (by with_unfolding_all rfl)).1,
    ((camera_click_rules.2.1 100 100 [wNode] wIdle 1 2 wNode) rfl
      (by with_unfolding_all rfl)).2.1⟩⟩

/-! ## The network topology generator (generateNetworkData, lines 242-658)

The generator is embedded as a deterministic function of an environment
carrying the canvas geometry and the external effects of the source:
`rand` is the `Math.random()` stream (drawn left to right), `shuffle` models
the random-comparator array sorts (each call consumes one shuffle index and
returns some reordering; all theorems that need it assume each result is a
permutation), and `tau`, `jcos`, `jsin` abstract `2 * Math.PI`, `Math.cos` and
`Math.sin`, which enter only as position ingredients. -/

def TOTAL_NODES : ℕ := 500
def MULE_CLUSTERS : ℕ := 3
def NODE_RADIUS : ℚ := 3
def NODE_RADIUS_HUB : ℚ := 5

structure GenEnv where
  width : ℚ
  height : ℚ
  isMobile : Bool
  tau : ℚ
  jcos : ℚ → ℚ
  jsin : ℚ → ℚ
  rand : ℕ → ℚ
  shuffle : ℕ → List GNode → List GNode

/-- Mutable state of `generateNetworkData`: the three arrays plus the cursor
into the random stream (`ri`) and the shuffle oracle (`si`). -/
structure GenState where
  nodes : List GNode
  edges : List GEdge
  muleClusters : List (List GNode)
  ri : ℕ
  si : ℕ
deriving Repr

/-- Consume one `Math.random()` draw. -/
def GenState.draw (s : GenState) (env : GenEnv) : ℚ × GenState :=
  (env.rand s.ri, { s with ri := s.ri + 1 })

/-- Consume one shuffle (`array.sort(() => Math.random() - 0.5)`). -/
def GenState.doShuffle (s : GenState) (env : GenEnv) (l : List GNode) :
    List GNode × GenState :=
  (env.shuffle s.si l, { s with si := s.si + 1 })

/-- `padding` (line 248). -/
def genPadding (env : GenEnv) : ℚ := if env.isMobile then 20 else 40

/-- `topPadding` (line 249). -/
def genTopPadding (env : GenEnv) : ℚ := if env.isMobile then 80 else genPadding env

/-- `clusterPositions` (lines 254-258). -/
def clusterPositions (env : GenEnv) : List (ℚ × ℚ) :=
  [(env.width * 0.2, env.height * 0.35),
   (env.width * 0.8, env.height * 0.35),
   (env.width * 0.35, env.height * 0.7)]

/-- One mule-cluster node (lines 268-295), consuming its nine draws in source
order: angle jitter, distance, x jitter, y jitter, vx, vy, riskScore,
accountId, pulseOffset.  `baseX`/`baseY` end up equal to `x`/`y` because the
source overwrites them right after building the literal. -/
def mkClusterNode (env : GenEnv) (center : ℚ × ℚ) (clusterNodeCount : ℕ)
    (c i : ℕ) (s : GenState) : GNode × GenState :=
  let (r1, s) := s.draw env
  let (r2, s) := s.draw env
  let (r3, s) := s.draw env
  let (r4, s) := s.draw env
  let (r5, s) := s.draw env
  let (r6, s) := s.draw env
  let (r7, s) := s.draw env
  let (r8, s) := s.draw env
  let (r9, s) := s.draw env
  let angle := ((i : ℚ) / (clusterNodeCount : ℚ)) * env.tau + randomRange r1 (-0.5) 0.5
  let dist := randomRange r2 30 130
  let x := center.1 + env.jcos angle * dist + randomRange r3 (-35) 35
  let y := center.2 + env.jsin angle * dist + randomRange r4 (-35) 35
  ({ id := s.nodes.length
     x := x, y := y, baseX := x, baseY := y
     vx := randomRange r5 (-0.2) 0.2
     vy := randomRange r6 (-0.2) 0.2
     radius := if i = 0 then NODE_RADIUS_HUB else NODE_RADIUS
     riskScore := randomRange r7 0.78 0.99
     accountId := some r8
     isHighRisk := true
     isHub := i == 0
     clusterId := some c
     pulseOffset := r9 * env.tau }, s)

/-- The cluster-node creation loop (lines 268-296), returning the local
`clusterNodes` array alongside the state. -/
def mkClusterNodes (env : GenEnv) (center : ℚ × ℚ) (clusterNodeCount : ℕ)
    (c : ℕ) (s : GenState) : List GNode × GenState :=
  (List.range clusterNodeCount).foldl
    (fun (acc : List GNode × GenState) i =>
      let (node, s) := mkClusterNode env center clusterNodeCount c i acc.2
      (acc.1 ++ [node], { s with nodes := s.nodes ++ [node] }))
    ([], s)

/-- `Math.floor` on a rational, as used around `randomRange`. -/
def jsFloor (q : ℚ) : ℤ := ⌊q⌋

/-- The within-cluster web connections (lines 300-330): every node picks 2-4
shuffled targets; an edge is pushed only when the `edgeExists` scan fails. -/
def addWebConnections (env : GenEnv) (clusterNodes : List GNode) (c : ℕ)
    (s : GenState) : GenState :=
  (List.range clusterNodes.length).foldl
    (fun s i =>
      match clusterNodes.get? i with
      | none => s
      | some node =>
        let (rc, s) := s.draw env
        let connectionCount := (jsFloor (randomRange rc 2 5)).toNat
        let availableTargets := (clusterNodes.enum.filter (fun p => p.1 != i)).map Prod.snd
        let (shuffled, s) := s.doShuffle env availableTargets
        let targets := shuffled.take (min connectionCount shuffled.length)
        targets.foldl
          (fun s target =>
            if edgeExists s.edges node.id target.id then s
            else
              let (ra, s) := s.draw env
              { s with edges := s.edges ++
                  [{ source := node.id, target := target.id, isHighRisk := true,
                     atoRisk := some (randomRange ra 0.05 0.18), clusterId := some c,
                     flashProgress := 0, isFlashing := false }] })
          s)
    s

/-- The cross-connections (lines 333-354): each pair `(i, j)` with
`j ≥ i + 2` is linked with probability 0.8, deduplicated. -/
def addCrossConnections (env : GenEnv) (clusterNodes : List GNode) (c : ℕ)
    (s : GenState) : GenState :=
  (List.range clusterNodes.length).foldl
    (fun s i =>
      (List.range clusterNodes.length).foldl
        (fun s j =>
          if i + 2 ≤ j then
            match clusterNodes.get? i, clusterNodes.get? j with
            | some ni, some nj =>
              let (rp, s) := s.draw env
              if rp < 0.8 then
                if edgeExists s.edges ni.id nj.id then s
                else
                  let (ra, s) := s.draw env
                  { s with edges := s.edges ++
                      [{ source := ni.id, target := nj.id, isHighRisk := true,
                         atoRisk := some (randomRange ra 0.06 0.16), clusterId := some c,
                         flashProgress := 0, isFlashing := false }] }
              else s
            | _, _ => s
          else s)
        s)
    s

/-- The innocent-node loop (lines 356-399): low-risk nodes placed near the
cluster, skipped entirely (drawing no further randoms) when they fall within
the minimum-distance buffer (35 for hubs, 20 otherwise) of any high-risk
cluster node.  `distance < minDist` is embedded squared. -/
def addInnocentNodes (env : GenEnv) (center : ℚ × ℚ) (clusterNodes : List GNode)
    (s : GenState) : GenState :=
  let (ric, s) := s.draw env
  let innocentCount := (jsFloor (randomRange ric 3 6)).toNat
  (List.range innocentCount).foldl
    (fun s _ =>
      let (ra, s) := s.draw env
      let (rd, s) := s.draw env
      let (rx, s) := s.draw env
      let (ry, s) := s.draw env
      let innocentAngle := ra * env.tau
      let innocentDist := randomRange rd 40 120
      let innX := center.1 + env.jcos innocentAngle * innocentDist + randomRange rx (-25) 25
      let innY := center.2 + env.jsin innocentAngle * innocentDist + randomRange ry (-25) 25
      let tooCloseToHighRisk := clusterNodes.any fun hrNode =>
        let minDist : ℚ := if hrNode.isHub then 35 else 20
        decide (dist2 innX innY hrNode.x hrNode.y < minDist ^ 2)
      if tooCloseToHighRisk then s
      else
        let (rvx, s) := s.draw env
        let (rvy, s) := s.draw env
        let (rr, s) := s.draw env
        let (rp, s) := s.draw env
        let innocentNode : GNode :=
          { id := s.nodes.length
            x := innX, y := innY, baseX := innX, baseY := innY
            vx := randomRange rvx (-0.15) 0.15
            vy := randomRange rvy (-0.15) 0.15
            radius := NODE_RADIUS
            riskScore := randomRange rr 0.05 0.25
            accountId := none
            isHighRisk := false
            isHub := false
            clusterId := none
            pulseOffset := rp * env.tau
            isInnocentNearCluster := true }
        { s with nodes := s.nodes ++ [innocentNode] })
    s

/-- The satellite loop (lines 401-471): distant high-risk nodes clamped into
safe bounds, each wired to 1-3 shuffled main-cluster nodes *without* an
`edgeExists` scan.  Returns the grown `clusterNodes` array. -/
def addSatellites (env : GenEnv) (center : ℚ × ℚ) (clusterNodes : List GNode)
    (c : ℕ) (s : GenState) : List GNode × GenState :=
  let padding := genPadding env
  let (rsc, s) := s.draw env
  let satelliteCount := (jsFloor (randomRange rsc 2 4)).toNat
  (List.range satelliteCount).foldl
    (fun (acc : List GNode × GenState) _ =>
      let clusterNodes := acc.1
      let s := acc.2
      let (ra, s) := s.draw env
      let satelliteAngle := ra * env.tau
      let maxDistToLeft := center.1 - padding - 30
      let maxDistToRight := env.width - padding - 30 - center.1
      let maxDistToTop := center.2 - padding - 30
      let maxDistToBottom := env.height - padding - 30 - center.2
      let dirX := env.jcos satelliteAngle
      let dirY := env.jsin satelliteAngle
      let maxSafeDist : ℚ := 250
      let maxSafeDist := if dirX < 0 then min maxSafeDist (maxDistToLeft / |dirX|) else maxSafeDist
      let maxSafeDist := if dirX > 0 then min maxSafeDist (maxDistToRight / dirX) else maxSafeDist
      let maxSafeDist := if dirY < 0 then min maxSafeDist (maxDistToTop / |dirY|) else maxSafeDist
      let maxSafeDist := if dirY > 0 then min maxSafeDist (maxDistToBottom / dirY) else maxSafeDist
      let (rd, s) := s.draw env
      let satelliteDist := randomRange rd 80 (max 100 (min maxSafeDist 200))
      let satX := center.1 + dirX * satelliteDist
      let satY := center.2 + dirY * satelliteDist
      let satX := max (padding + 40) (min (env.width - padding - 40) satX)
      let satY := max (padding + 40) (min (env.height - padding - 40) satY)
      let (rvx, s) := s.draw env
      let (rvy, s) := s.draw env
      let (rr, s) := s.draw env
      let (racc, s) := s.draw env
      let (rp, s) := s.draw env
      let satelliteNode : GNode :=
        { id := s.nodes.length
          x := satX, y := satY, baseX := satX, baseY := satY
          vx := randomRange rvx (-0.15) 0.15
          vy := randomRange rvy (-0.15) 0.15
          radius := NODE_RADIUS
          riskScore := randomRange rr 0.72 0.94
          accountId := some racc
          isHighRisk := true
          isHub := false
          clusterId := some c
          pulseOffset := rp * env.tau
          isSatellite := true }
      let s := { s with nodes := s.nodes ++ [satelliteNode] }
      let clusterNodes := clusterNodes ++ [satelliteNode]
      let (rcm, s) := s.draw env
      let connectionsToMain := (jsFloor (randomRange rcm 1 4)).toNat
      let mainClusterNodes := clusterNodes.filter fun n => !n.isSatellite
      let (shuffledMain, s) := s.doShuffle env mainClusterNodes
      let s := (List.range (min connectionsToMain shuffledMain.length)).foldl
        (fun s m =>
          match shuffledMain.get? m with
          | none => s
          | some tgt =>
            let (rar, s) := s.draw env
            { s with edges := s.edges ++
                [{ source := satelliteNode.id, target := tgt.id, isHighRisk := true,
                   atoRisk := some (randomRange rar 0.04 0.14), clusterId := some c,
                   flashProgress := 0, isFlashing := false }] })
        s
      (clusterNodes, s))
    (clusterNodes, s)

/-- One full mule-cluster iteration (lines 260-474): nodes, web connections,
cross-connections, innocents, satellites, and the push onto `muleClusters`. -/
def mkCluster (env : GenEnv) (c : ℕ) (s : GenState) : GenState :=
  match (clusterPositions env).get? c with
  | none => s
  | some clusterCenter =>
    let (rcc, s) := s.draw env
    let clusterNodeCount := (jsFloor (randomRange rcc 8 15)).toNat
    let (clusterNodes, s) := mkClusterNodes env clusterCenter clusterNodeCount c s
    let s := addWebConnections env clusterNodes c s
    let s := addCrossConnections env clusterNodes c s
    let s := addInnocentNodes env clusterCenter clusterNodes s
    let (clusterNodes, s) := addSatellites env clusterCenter clusterNodes c s
    { s with muleClusters := s.muleClusters ++ [clusterNodes] }

/-- `Math.ceil(Math.sqrt q)` for the grid-column count: for `q > 0` this is the
least natural `n` with `q ≤ n^2` (computed via `Nat.sqrt` of the integer
ceiling, which agrees because the surrounding bounds are integers); the source
only ever reaches it with a positive argument in a live layout, and for
`q ≤ 0` (where JS would produce NaN and create no nodes) we return 0. -/
def jsCeilSqrt (q : ℚ) : ℕ :=
  if q ≤ 0 then 0
  else
    let m := (⌈q⌉).toNat
    if Nat.sqrt m * Nat.sqrt m = m then Nat.sqrt m else Nat.sqrt m + 1

/-- One candidate iteration of the low-risk grid loop (lines 487-529).
Returns the updated state and whether a node was created. -/
def lowRiskCandidate (env : GenEnv) (gridCols : ℕ) (cellWidth cellHeight : ℚ)
    (i : ℕ) (s : GenState) : GenState × Bool :=
  let padding := genPadding env
  let col := i % max gridCols 1
  let row := i / max gridCols 1
  let baseX := padding + (col : ℚ) * cellWidth + cellWidth / 2
  let baseY := padding + (row : ℚ) * cellHeight + cellHeight / 2
  let (rjx, s) := s.draw env
  let (rjy, s) := s.draw env
  let jitterX := randomRange rjx (-cellWidth * 0.4) (cellWidth * 0.4)
  let jitterY := randomRange rjy (-cellHeight * 0.4) (cellHeight * 0.4)
  let nodeX := baseX + jitterX
  let nodeY := baseY + jitterY
  let tooCloseToCluster := (clusterPositions env).any fun cp =>
    decide (dist2 nodeX nodeY cp.1 cp.2 < 35 ^ 2)
  if tooCloseToCluster then (s, false)
  else if nodeX < padding ∨ nodeX > env.width - padding ∨
      nodeY < padding ∨ nodeY > env.height - padding then (s, false)
  else
    let (rvx, s) := s.draw env
    let (rvy, s) := s.draw env
    let (rr, s) := s.draw env
    let (rp, s) := s.draw env
    let lowRiskNode : GNode :=
      { id := s.nodes.length
        x := nodeX, y := nodeY, baseX := nodeX, baseY := nodeY
        vx := randomRange rvx (-0.15) 0.15
        vy := randomRange rvy (-0.15) 0.15
        radius := NODE_RADIUS
        riskScore := randomRange rr 0.02 0.35
        accountId := none
        isHighRisk := false
        isHub := false
        clusterId := none
        pulseOffset := rp * env.tau }
    ({ s with nodes := s.nodes ++ [lowRiskNode] }, true)

/-- The grid loop of lines 487-529, by fuel (the fuel is one more than the
largest possible number of iterations, so the guard `i < lowRiskCount * 1.3`
is always what stops it, exactly as in the source). -/
def lowRiskLoop (env : GenEnv) (gridCols : ℕ) (cellWidth cellHeight : ℚ)
    (lowRiskCount : ℤ) : ℕ → ℕ → ℕ → GenState → GenState
  | 0, _, _, s => s
  | fuel + 1, i, created, s =>
      if (i : ℚ) < (lowRiskCount : ℚ) * 1.3 ∧ (created : ℤ) < lowRiskCount then
        let (s, added) := lowRiskCandidate env gridCols cellWidth cellHeight i s
        lowRiskLoop env gridCols cellWidth cellHeight lowRiskCount fuel (i + 1)
          (created + if added then 1 else 0) s
      else s

/-- The whole low-risk grid phase (lines 476-529). -/
def addLowRiskNodes (env : GenEnv) (s : GenState) : GenState :=
  let padding := genPadding env
  let topPadding := genTopPadding env
  let effectiveWidth := env.width - padding * 2
  let effectiveHeight := env.height - padding - topPadding
  let highRiskCount := s.nodes.length
  let lowRiskCount : ℤ := (TOTAL_NODES : ℤ) - (highRiskCount : ℤ)
  let gridCols := jsCeilSqrt ((lowRiskCount : ℚ) * (effectiveWidth / effectiveHeight))
  let gridRows : ℤ := ⌈(lowRiskCount : ℚ) / (gridCols : ℚ)⌉
  let cellWidth := effectiveWidth / (gridCols : ℚ)
  let cellHeight := effectiveHeight / (gridRows : ℚ)
  let fuel := (⌈(lowRiskCount : ℚ) * 1.3⌉).toNat + 1
  lowRiskLoop env gridCols cellWidth cellHeight lowRiskCount fuel 0 0 s

/-- The proximity edges between low-risk nodes (lines 531-568): each low-risk
node connects to its 2-5 nearest low-risk neighbours within radius 120
(distances compared squared; the stable `sort` by distance is a stable merge
sort on the squared-distance key), deduplicated. -/
def addLowRiskEdges (env : GenEnv) (s : GenState) : GenState :=
  let lowRiskNodes := s.nodes.filter fun n => !n.isHighRisk
  lowRiskNodes.foldl
    (fun s node =>
      let (rc, s) := s.draw env
      let connectionCount := (jsFloor (randomRange rc 2 6)).toNat
      let nearbyNodes := lowRiskNodes.filter fun n =>
        n.id != node.id && decide (dist2 node.x node.y n.x n.y < 120 ^ 2)
      let sorted := nearbyNodes.mergeSort fun a b =>
        decide (dist2 node.x node.y a.x a.y ≤ dist2 node.x node.y b.x b.y)
      let targets := sorted.take connectionCount
      targets.foldl
        (fun s target =>
          if edgeExists s.edges node.id target.id then s
          else
            { s with edges := s.edges ++
                [{ source := node.id, target := target.id, isHighRisk := false,
                   atoRisk := none, clusterId := none,
                   flashProgress := 0, isFlashing := false }] })
        s)
    s

/-- The long-range small-world connections (lines 570-594). -/
def addLongRangeEdges (env : GenEnv) (s : GenState) : GenState :=
  let lowRiskNodes := s.nodes.filter fun n => !n.isHighRisk
  let iterations := (⌈(lowRiskNodes.length : ℚ) * 0.12⌉).toNat
  (List.range iterations).foldl
    (fun s _ =>
      let (rA, s) := s.draw env
      let (rB, s) := s.draw env
      let nodeA := lowRiskNodes.get? (jsFloor (rA * (lowRiskNodes.length : ℚ))).toNat
      let nodeB := lowRiskNodes.get? (jsFloor (rB * (lowRiskNodes.length : ℚ))).toNat
      match nodeA, nodeB with
      | some a, some b =>
        if a.id ≠ b.id then
          if edgeExists s.edges a.id b.id then s
          else
            { s with edges := s.edges ++
                [{ source := a.id, target := b.id, isHighRisk := false,
                   atoRisk := none, clusterId := none,
                   flashProgress := 0, isFlashing := false }] }
        else s
      | _, _ => s)
    s

/-- The 25 "false connection" attempts between low-risk and high-risk nodes
(lines 596-613).  Note the source pushes these edges with *no* `edgeExists`
scan. -/
def addFalseConnections (env : GenEnv) (s : GenState) : GenState :=
  let lowRiskNodes := s.nodes.filter fun n => !n.isHighRisk
  let highRiskNodes := s.nodes.filter fun n => n.isHighRisk
  (List.range 25).foldl
    (fun s _ =>
      let (rL, s) := s.draw env
      let (rH, s) := s.draw env
      let lowRisk := lowRiskNodes.get? (jsFloor (rL * (lowRiskNodes.length : ℚ))).toNat
      let highRisk := highRiskNodes.get? (jsFloor (rH * (highRiskNodes.length : ℚ))).toNat
      match lowRisk, highRisk with
      | some lo, some hi =>
        if dist2 lo.x lo.y hi.x hi.y < 150 ^ 2 then
          { s with edges := s.edges ++
              [{ source := lo.id, target := hi.id, isHighRisk := false,
                 atoRisk := none, clusterId := none,
                 flashProgress := 0, isFlashing := false }] }
        else s
      | _, _ => s)
    s

/-- The farthest pair search of the hidden-relationship step (lines 622-634):
strict improvement over an initial best of 0, scanning pairs `i < j` in order
(distances compared squared). -/
def farthestPair (clusterNodes : List GNode) : Option (GNode × GNode) :=
  let step := fun (acc : ℚ × Option (GNode × GNode)) (p : GNode × GNode) =>
    let d2 := dist2 p.1.x p.1.y p.2.x p.2.y
    if d2 > acc.1 then (d2, some p) else acc
  let pairs := (List.range clusterNodes.length).flatMap fun i =>
    (List.range clusterNodes.length).filterMap fun j =>
      if i < j then
        match clusterNodes.get? i, clusterNodes.get? j with
        | some a, some b => some (a, b)
        | _, _ => none
      else none
  (pairs.foldl step (0, none)).2

/-- The guaranteed long-range edge inside each mule network (lines 615-657). -/
def addHiddenRelationshipEdges (env : GenEnv) (s : GenState) : GenState :=
  s.muleClusters.foldl
    (fun s clusterNodes =>
      if 2 ≤ clusterNodes.length then
        match farthestPair clusterNodes with
        | some (nodeA, nodeB) =>
          if edgeExists s.edges nodeA.id nodeB.id then s
          else
            let (rar, s) := s.draw env
            { s with edges := s.edges ++
                [{ source := nodeA.id, target := nodeB.id, isHighRisk := true,
                   atoRisk := some (randomRange rar 0.03 0.11), clusterId := nodeA.clusterId,
                   flashProgress := 0, isFlashing := false }] }
        | none => s
      else s)
    s

/-- The initial state of `generateNetworkData` (lines 243-245). -/
def initialGenState : GenState :=
  { nodes := [], edges := [], muleClusters := [], ri := 0, si := 0 }

/-- `generateNetworkData()` (lines 242-658) end to end. -/
def generateNetworkData (env : GenEnv) : GenState :=
  let s := initialGenState
  let s := (List.range MULE_CLUSTERS).foldl (fun s c => mkCluster env c s) s
  let s := addLowRiskNodes env s
  let s := addLowRiskEdges env s
  let s := addLongRangeEdges env s
  let s := addFalseConnections env s
  addHiddenRelationshipEdges env s

/-! ## Oracle validity -/

/-- `Math.random()` returns values in [0, 1). -/
def SeedOK (σ : ℕ → ℚ) : Prop := ∀ n, 0 ≤ σ n ∧ σ n < 1

/-- A JS `Array.prototype.sort` call returns a permutation of its input,
whatever the comparator does. -/
def ShuffleOK (sh : ℕ → List GNode → List GNode) : Prop := ∀ k l, (sh k l).Perm l

/-- Both oracle components of an environment are admissible. -/
def GenEnv.Valid (env : GenEnv) : Prop := SeedOK env.rand ∧ ShuffleOK env.shuffle

/-! ## Graph notions used by claims C1 and C3 -/

/-- Boolean form of `samePair`. -/
def samePairB (e f : GEdge) : Bool :=
  (e.source == f.source && e.target == f.target) ||
  (e.source == f.target && e.target == f.source)

theorem samePair_of_samePairB {e f : GEdge} (h : samePairB e f = true) : samePair e f := by
  unfold samePairB at h
  unfold samePair
  simp only [Bool.or_eq_true, Bool.and_eq_true, beq_iff_eq] at h
  exact h

/-- A duplicate unordered pair at two given positions of the edge list. -/
def dupAt (l : List GEdge) (i j : ℕ) : Bool :=
  match l.get? i, l.get? j with
  | some e, some f => samePairB e f
  | _, _ => false

theorem not_noDup_of_get (l : List GEdge) (i j : ℕ) (e f : GEdge) (hne : i ≠ j)
    (hi : l.get? i = some e) (hj : l.get? j = some f) (hs : samePair e f) :
    ¬ NoDupEdges l := by
  intro hnd
  rcases List.get?_eq_some.mp hi with ⟨hil, hie⟩
  rcases List.get?_eq_some.mp hj with ⟨hjl, hje⟩
  exact hnd ⟨i, hil⟩ ⟨j, hjl⟩ (Fin.ne_of_val_ne hne) (by rw [hie, hje]; exact hs)

theorem not_noDup_of_dupAt (l : List GEdge) (i j : ℕ) (hne : i ≠ j)
    (h : dupAt l i j = true) : ¬ NoDupEdges l := by
  unfold dupAt at h
  rcases hi : l.get? i with _ | e <;> rcases hj : l.get? j with _ | f <;> rw [hi, hj] at h
  · exact absurd h Bool.false_ne_true
  · exact absurd h Bool.false_ne_true
  · exact absurd h Bool.false_ne_true
  · exact not_noDup_of_get l i j e f hne hi hj (samePair_of_samePairB h)

/-- The edges carrying a given cluster id. -/
def clusterEdges (s : GenState) (c : ℕ) : List GEdge :=
  s.edges.filter fun e => e.clusterId == some c

/-- Undirected reachability through a list of edges (the connectivity notion of
claim C3). -/
inductive Reaches (edges : List GEdge) : ℕ → ℕ → Prop
  | refl (a : ℕ) : Reaches edges a a
  | step {a b c : ℕ} (e : GEdge) (he : e ∈ edges) (hab : Reaches edges a b)
      (hbc : (e.source = b ∧ e.target = c) ∨ (e.source = c ∧ e.target = b)) :
      Reaches edges a c

/-- A vertex cut argument: when every edge stays on one side of `A`, nothing
inside `A` reaches anything outside. -/
theorem not_reaches_of_separator (edges : List GEdge) (A : List ℕ) (a b : ℕ)
    (ha : a ∈ A) (hb : b ∉ A)
    (hclosed : ∀ e ∈ edges, (e.source ∈ A ↔ e.target ∈ A)) :
    ¬ Reaches edges a b := by
  intro h
  have hinv : ∀ x, Reaches edges a x → x ∈ A := by
    intro x hx
    induction hx with
    | refl => exact ha
    | step e he hab hbc ih =>
        rcases hbc with ⟨hs, ht⟩ | ⟨hs, ht⟩
        · exact ht ▸ (hclosed e he).mp (hs ▸ ih)
        · exact hs ▸ (hclosed e he).mpr (ht ▸ ih)
  exact hb (hinv b h)

/-! ## A concrete run exhibiting the failures of claims C1 and C3

The environment below runs `generateNetworkData` on a 100 x 100 desktop
canvas.  Its random stream makes every mule cluster have 8 main nodes laid out
on a horizontal ray (`jcos = 1`, `jsin = 0`), makes every web-connection
shuffle rotate so that nodes 0-2 and 7 only pick targets among themselves
while nodes 3-6 only pick targets among themselves, skips every
cross-connection coin flip, and makes all 25 false-connection attempts pick
the same low-risk/high-risk pair. -/

/-- The per-node distance draws of the concrete run. -/
def distR (i : ℕ) : ℚ :=
  if i = 0 then 0
  else if i = 1 then 3/10
  else if i = 2 then 2/5
  else if i = 3 then 1/2
  else if i = 4 then 11/20
  else if i = 5 then 3/5
  else if i = 6 then 13/20
  else 99/100

/-- One 156-draw segment of the random stream, covering one mule cluster. -/
def clusterDraw (m : ℕ) : ℚ :=
  if m = 0 then 0
  else if m ≤ 72 then (if (m - 1) % 9 = 1 then distR ((m - 1) / 9) else 1/2)
  else if m ≤ 90 then
    (if m = 73 ∨ m = 76 ∨ m = 78 ∨ m = 79 ∨ m = 82 ∨ m = 84 ∨ m = 85 ∨ m = 88 then 0 else 1/2)
  else if m ≤ 111 then 9/10
  else if m = 112 then 0
  else if m ≤ 136 then (if (m - 113) % 8 = 3 then 49/50 else 1/2)
  else if m = 137 then 0
  else if m ≤ 155 then (if m = 145 ∨ m = 154 then 0 else 1/2)
  else 1/2

/-- The full random stream of the concrete run. -/
def cexSigma (n : ℕ) : ℚ :=
  if n < 468 then clusterDraw (n % 156)
  else if n < 1668 then 1/2
  else if n < 1677 then 0
  else if n < 1681 then 1/2
  else if n < 1731 then 0
  else 1/2

/-- The shuffle oracle of the concrete run: a rotation by 3 for the shuffles
of cluster nodes 3-6, the identity otherwise (all permutations). -/
def cexShuffle (k : ℕ) (l : List GNode) : List GNode :=
  if 3 ≤ k % 10 ∧ k % 10 ≤ 6 then l.rotate 3 else l

/-- The concrete environment of the counterexample run. -/
def cexEnv : GenEnv :=
  { width := 100, height := 100, isMobile := false, tau := 0,
    jcos := fun _ => 1, jsin := fun _ => 0, rand := cexSigma, shuffle := cexShuffle }

theorem distR_mem (i : ℕ) : 0 ≤ distR i ∧ distR i < 1 := by
  unfold distR
  split_ifs <;> constructor <;> norm_num

theorem clusterDraw_mem (m : ℕ) : 0 ≤ clusterDraw m ∧ clusterDraw m < 1 := by
  unfold clusterDraw
  split_ifs
  case _ => constructor <;> norm_num
  case _ => exact distR_mem _
  all_goals constructor <;> norm_num

theorem seedOK_cexSigma : SeedOK cexSigma := by
  intro n
  unfold cexSigma
  split_ifs
  case _ => exact clusterDraw_mem _
  all_goals constructor <;> norm_num

theorem shuffleOK_cexShuffle : ShuffleOK cexShuffle := by
  intro k l
  unfold cexShuffle
  split_ifs
  · exact l.rotate_perm 3
  · exact List.Perm.refl l

theorem contains_true_iff {A : List ℕ} {a : ℕ} : A.contains a = true ↔ a ∈ A :=
  ⟨List.mem_of_elem_eq_true, List.elem_eq_true_of_mem⟩

theorem separator_closed_of_all (edges : List GEdge) (A : List ℕ)
    (h : (edges.all fun e => A.contains e.source == A.contains e.target) = true) :
    ∀ e ∈ edges, (e.source ∈ A ↔ e.target ∈ A) := by
  intro e he
  have heq : A.contains e.source = A.contains e.target :=
    beq_iff_eq.mp (List.all_eq_true.mp h e he)
  constructor <;> intro hm
  · exact contains_true_iff.mp (heq ▸ contains_true_iff.mpr hm)
  · exact contains_true_iff.mp (heq.symm ▸ contains_true_iff.mpr hm)

/-- Whether the node at a list position carries a given id and cluster id. -/
def nodeHasIdCluster (s : GenState) (idx nid : ℕ) (c : Option ℕ) : Bool :=
  match s.nodes.get? idx with
  | some n => n.id == nid && n.clusterId == c
  | none => false

theorem nodeHasIdCluster_spec (s : GenState) (idx nid : ℕ) (c : Option ℕ)
    (h : nodeHasIdCluster s idx nid c = true) :
    ∃ u ∈ s.nodes, u.id = nid ∧ u.clusterId = c := by
  unfold nodeHasIdCluster at h
  rcases hg : s.nodes.get? idx with _ | n <;> rw [hg] at h
  · exact absurd h Bool.false_ne_true
  · simp only [Bool.and_eq_true] at h
    exact ⟨n, List.get?_mem hg, beq_iff_eq.mp h.1, beq_iff_eq.mp h.2⟩

/-- The vertex set separating cluster 0 of the concrete run: its hub-side
component (main nodes 0, 1, 2, 7 and both satellites). -/
def cexSeparator : List ℕ := [0, 1, 2, 7, 11, 12]

/-- The combined decidable check behind the claim C3 counterexample. -/
def c3Check (s : GenState) : Bool :=
  ((clusterEdges s 0).all fun e =>
    cexSeparator.contains e.source == cexSeparator.contains e.target) &&
  nodeHasIdCluster s 0 0 (some 0) &&
  nodeHasIdCluster s 3 3 (some 0)

theorem c3_bridge (s : GenState) (h : c3Check s = true) :
    (∃ u ∈ s.nodes, u.id = 0 ∧ u.clusterId = some 0) ∧
    (∃ v ∈ s.nodes, v.id = 3 ∧ v.clusterId = some 0) ∧
    ¬ Reaches (clusterEdges s 0) 0 3 := by
  unfold c3Check at h
  simp only [Bool.and_eq_true] at h
  obtain ⟨⟨hall, h0⟩, h3⟩ := h
  refine ⟨nodeHasIdCluster_spec s 0 0 (some 0) h0, nodeHasIdCluster_spec s 3 3 (some 0) h3, ?_⟩
  exact not_reaches_of_separator _ cexSeparator 0 3 (by decide) (by decide)
    (separator_closed_of_all _ _ hall)

set_option maxRecDepth 400000 in
/-- Claim C1 counterexample: on the concrete run (valid oracles), the edges at
positions 45 and 46 of the generated edge list join the same unordered node
pair, because the false-connection step (lines 596-613) pushes edges without
an `edgeExists` scan and can re-pick the same low-risk/high-risk pair. -/
theorem no_dup_edges_counterexample :
    cexEnv.Valid ∧ ¬ NoDupEdges (generateNetworkData cexEnv).edges :=
  ⟨⟨seedOK_cexSigma, shuffleOK_cexShuffle⟩,
   not_noDup_of_dupAt _ 45 46 (by norm_num) (by with_unfolding_all rfl)⟩

set_option maxRecDepth 400000 in
/-- Claim C3 counterexample: on the concrete run (valid oracles), nodes 0 and
3 both belong to cluster 0, yet no path of cluster-0 edges joins them: the
2-4 random web links plus the cross-connection coin flips can leave a cluster
split in two, and the one guaranteed farthest-pair edge need not bridge the
two components. -/
theorem cluster_connectivity_counterexample :
    cexEnv.Valid ∧
    (∃ u ∈ (generateNetworkData cexEnv).nodes, u.id = 0 ∧ u.clusterId = some 0) ∧
    (∃ v ∈ (generateNetworkData cexEnv).nodes, v.id = 3 ∧ v.clusterId = some 0) ∧
    ¬ Reaches (clusterEdges (generateNetworkData cexEnv) 0) 0 3 :=
  ⟨⟨seedOK_cexSigma, shuffleOK_cexShuffle⟩,
   c3_bridge _ (by with_unfolding_all rfl)⟩

/-! ## Claim C9: generation always succeeds, degrading to fewer nodes -/

/-- Drawing randoms never touches the node list. -/
theorem draw_nodes (s : GenState) (env : GenEnv) : (s.draw env).2.nodes = s.nodes := rfl

/-- A fold whose body only ever appends nodes satisfying `P` appends nodes
satisfying `P`. -/
theorem foldl_nodes_extend {α : Type} (f : GenState → α → GenState) (P : GNode → Prop)
    (hf : ∀ s a, ∃ added, (f s a).nodes = s.nodes ++ added ∧ ∀ n ∈ added, P n) :
    ∀ (l : List α) (s : GenState),
      ∃ added, (l.foldl f s).nodes = s.nodes ++ added ∧ ∀ n ∈ added, P n := by
  intro l
  induction l with
  | nil => exact fun s => ⟨[], by simp⟩
  | cons a as ih =>
      intro s
      obtain ⟨a1, h1, hp1⟩ := hf s a
      obtain ⟨a2, h2, hp2⟩ := ih (f s a)
      refine ⟨a1 ++ a2, ?_, ?_⟩
      · rw [List.foldl_cons, h2, h1, List.append_assoc]
      · intro n hn
        rcases List.mem_append.mp hn with hn | hn
        · exact hp1 n hn
        · exact hp2 n hn

/-- What one grid candidate does (lines 487-529): either it is rejected (too
close to a cluster center, or out of padded bounds) and adds nothing, or it
adds exactly one low-risk, cluster-free node inside the padded bounds. -/
theorem lowRiskCandidate_spec (env : GenEnv) (gridCols : ℕ) (cw ch : ℚ) (i : ℕ)
    (s : GenState) :
    ((lowRiskCandidate env gridCols cw ch i s).1.nodes = s.nodes ∧
      (lowRiskCandidate env gridCols cw ch i s).2 = false) ∨
    (∃ node,
      (lowRiskCandidate env gridCols cw ch i s).1.nodes = s.nodes ++ [node] ∧
      (lowRiskCandidate env gridCols cw ch i s).2 = true ∧
      node.isHighRisk = false ∧ node.clusterId = none ∧
      genPadding env ≤ node.x ∧ node.x ≤ env.width - genPadding env ∧
      genPadding env ≤ node.y ∧ node.y ≤ env.height - genPadding env) := by
  unfold lowRiskCandidate
  simp only [GenState.draw]
  split_ifs with h1 h2
  · exact Or.inl ⟨rfl, rfl⟩
  · exact Or.inl ⟨rfl, rfl⟩
  · push_neg at h2
    exact Or.inr ⟨_, rfl, rfl, rfl, rfl, h2.1, h2.2.1, h2.2.2.1, h2.2.2.2⟩

/-- The grid loop only appends low-risk in-bounds nodes, and never more than
its remaining budget `lowRiskCount - created` allows. -/
theorem lowRiskLoop_spec (env : GenEnv) (gridCols : ℕ) (cw ch : ℚ) (L : ℤ) :
    ∀ (fuel i created : ℕ) (s : GenState),
      ∃ added,
        (lowRiskLoop env gridCols cw ch L fuel i created s).nodes = s.nodes ++ added ∧
        added.length ≤ (L - created).toNat ∧
        ∀ n ∈ added, n.isHighRisk = false ∧ n.clusterId = none ∧
          genPadding env ≤ n.x ∧ n.x ≤ env.width - genPadding env ∧
          genPadding env ≤ n.y ∧ n.y ≤ env.height - genPadding env := by
  intro fuel
  induction fuel with
  | zero =>
      intro i created s
      exact ⟨[], by simp [lowRiskLoop], by simp, by simp⟩
  | succ f ih =>
      intro i created s
      unfold lowRiskLoop
      split_ifs with hg
      · rcases lowRiskCandidate_spec env gridCols cw ch i s with
          ⟨hn, hb⟩ | ⟨node, hn, hb, hflags⟩
        · obtain ⟨added, ha, hl, hp⟩ :=
            ih (i + 1) (created + if (lowRiskCandidate env gridCols cw ch i s).2 then 1 else 0)
              (lowRiskCandidate env gridCols cw ch i s).1
          refine ⟨added, ?_, ?_, hp⟩
          · rw [ha, hn]
          · rw [hb] at hl
            simp at hl
            omega
        · obtain ⟨added, ha, hl, hp⟩ :=
            ih (i + 1) (created + if (lowRiskCandidate env gridCols cw ch i s).2 then 1 else 0)
              (lowRiskCandidate env gridCols cw ch i s).1
          refine ⟨node :: added, ?_, ?_, ?_⟩
          · rw [ha, hn]
            simp
          · rw [hb] at hl
            simp at hl
            have hcL : (created : ℤ) < L := hg.2
            simp only [List.length_cons]
            omega
          · intro n hn2
            rcases List.mem_cons.mp hn2 with hn2 | hn2
            · exact hn2 ▸ hflags
            · exact hp n hn2
      · exact ⟨[], by simp, by simp, by simp⟩

/-- What the innocent-node phase does (lines 356-399): it only ever appends
low-risk, cluster-free nodes, each at least the minimum-distance buffer away
from every high-risk cluster node (squared form; buffer 35 for hubs, 20
otherwise).  Candidates inside the buffer are skipped, never a failure. -/
theorem addInnocentNodes_spec (env : GenEnv) (center : ℚ × ℚ)
    (clusterNodes : List GNode) (s : GenState) :
    ∃ added, (addInnocentNodes env center clusterNodes s).nodes = s.nodes ++ added ∧
      ∀ n ∈ added, n.isHighRisk = false ∧ n.clusterId = none ∧
        n.isInnocentNearCluster = true ∧
        ∀ hr ∈ clusterNodes,
          (if hr.isHub then (35 : ℚ) else 20) ^ 2 ≤ dist2 n.x n.y hr.x hr.y := by
  unfold addInnocentNodes
  apply foldl_nodes_extend
  intro s' a
  simp only [GenState.draw]
  split_ifs with hclose
  · exact ⟨[], by simp, by simp⟩
  · refine ⟨[_], rfl, ?_⟩
    intro n hn
    rcases List.mem_singleton.mp hn with rfl
    refine ⟨rfl, rfl, rfl, ?_⟩
    intro hr hhr
    have hfalse := List.any_eq_false.mp ((Bool.not_eq_true _).mp hclose) hr hhr
    have := of_decide_eq_false ((Bool.not_eq_true _).mp hfalse)
    push_neg at this
    simpa using this

/-- The grid phase appends at most `TOTAL_NODES - (current node count)`
low-risk nodes, all inside the padded bounds. -/
theorem addLowRiskNodes_spec (env : GenEnv) (s : GenState) :
    ∃ added, (addLowRiskNodes env s).nodes = s.nodes ++ added ∧
      added.length ≤ ((TOTAL_NODES : ℤ) - (s.nodes.length : ℤ)).toNat ∧
      ∀ n ∈ added, n.isHighRisk = false ∧ n.clusterId = none ∧
        genPadding env ≤ n.x ∧ n.x ≤ env.width - genPadding env ∧
        genPadding env ≤ n.y ∧ n.y ≤ env.height - genPadding env := by
  simp only [addLowRiskNodes]
  obtain ⟨added, ha, hl, hp⟩ := lowRiskLoop_spec env _ _ _ _ _ 0 0 s
  refine ⟨added, ha, ?_, hp⟩
  omega

/-- Claim C9: `generateNetworkData` has no failure path.  It always yields a
node list, an edge list and a cluster list; the innocent-placement step only
skips (never fails on) candidates inside the minimum-distance buffer of a
high-risk cluster node, so every innocent node it does add respects the
buffer; the low-risk grid step only skips candidates outside the padded
bounds or too close to a cluster center, so every node it adds is in bounds
and their count never exceeds the remaining `TOTAL_NODES` budget. -/
theorem generation_no_failure :
    (∀ env : GenEnv, ∃ nodes edges muleClusters ri si, generateNetworkData env =
      { nodes := nodes, edges := edges, muleClusters := muleClusters, ri := ri, si := si }) ∧
    (∀ (env : GenEnv) (s : GenState),
      ∃ added, (addLowRiskNodes env s).nodes = s.nodes ++ added ∧
        added.length ≤ ((TOTAL_NODES : ℤ) - (s.nodes.length : ℤ)).toNat ∧
        ∀ n ∈ added, n.isHighRisk = false ∧ n.clusterId = none ∧
          genPadding env ≤ n.x ∧ n.x ≤ env.width - genPadding env ∧
          genPadding env ≤ n.y ∧ n.y ≤ env.height - genPadding env) ∧
    (∀ (env : GenEnv) (center : ℚ × ℚ) (clusterNodes : List GNode) (s : GenState),
      ∃ added, (addInnocentNodes env center clusterNodes s).nodes = s.nodes ++ added ∧
        ∀ n ∈ added, n.isHighRisk = false ∧ n.clusterId = none ∧
          n.isInnocentNearCluster = true ∧
          ∀ hr ∈ clusterNodes,
            (if hr.isHub then (35 : ℚ) else 20) ^ 2 ≤ dist2 n.x n.y hr.x hr.y) :=
  ⟨fun _ => ⟨_, _, _, _, _, rfl⟩, addLowRiskNodes_spec, addInnocentNodes_spec⟩

/-- Witness for claim C9 at a concrete input: on the counterexample
environment, starting from the empty state the grid phase respects the
`TOTAL_NODES` budget. -/
theorem generation_no_failure_witness :
    (addLowRiskNodes cexEnv initialGenState).nodes.length ≤ TOTAL_NODES := by
  obtain ⟨added, ha, hl, _⟩ := generation_no_failure.2.1 cexEnv initialGenState
  rw [ha]
  simp only [initialGenState, List.length_nil, List.nil_append]
  simpa using hl

/-! ## Structural invariants of the generator

Shared infrastructure for the amended forms of claims C1 and C3: every phase
only appends to the node and edge arrays, node ids are bounded by the node
count, and edge endpoints are node ids. -/

/-- An edge joins `a` and `b` (in either order) - the test of `edgeExists`. -/
def connects (e : GEdge) (a b : ℕ) : Prop :=
  (e.source = a ∧ e.target = b) ∨ (e.source = b ∧ e.target = a)

theorem edgeExists_iff {edges : List GEdge} {a b : ℕ} :
    edgeExists edges a b = true ↔ ∃ e ∈ edges, connects e a b := by
  unfold edgeExists connects
  rw [List.any_eq_true]
  constructor
  · rintro ⟨e, he, hc⟩
    simp only [Bool.or_eq_true, Bool.and_eq_true, beq_iff_eq] at hc
    exact ⟨e, he, hc⟩
  · rintro ⟨e, he, hc⟩
    refine ⟨e, he, ?_⟩
    simp only [Bool.or_eq_true, Bool.and_eq_true, beq_iff_eq]
    exact hc

/-- `t` extends `s`: both arrays of `t` are the arrays of `s` plus a suffix. -/
def Extends (s t : GenState) : Prop :=
  (∃ tn, t.nodes = s.nodes ++ tn) ∧ (∃ te, t.edges = s.edges ++ te)

theorem Extends.refl (s : GenState) : Extends s s :=
  ⟨⟨[], (List.append_nil _).symm⟩, ⟨[], (List.append_nil _).symm⟩⟩

theorem Extends.trans {s t u : GenState} (h1 : Extends s t) (h2 : Extends t u) :
    Extends s u := by
  obtain ⟨⟨tn1, hn1⟩, ⟨te1, he1⟩⟩ := h1
  obtain ⟨⟨tn2, hn2⟩, ⟨te2, he2⟩⟩ := h2
  exact ⟨⟨tn1 ++ tn2, by rw [hn2, hn1, List.append_assoc]⟩,
         ⟨te1 ++ te2, by rw [he2, he1, List.append_assoc]⟩⟩

theorem Extends.nodes_mem {s t : GenState} (h : Extends s t) {n : GNode}
    (hn : n ∈ s.nodes) : n ∈ t.nodes := by
  obtain ⟨⟨tn, hn1⟩, _⟩ := h
  rw [hn1]
  exact List.mem_append_left _ hn

theorem Extends.edges_mem {s t : GenState} (h : Extends s t) {e : GEdge}
    (he : e ∈ s.edges) : e ∈ t.edges := by
  obtain ⟨_, ⟨te, he1⟩⟩ := h
  rw [he1]
  exact List.mem_append_left _ he

theorem Extends.nodes_len {s t : GenState} (h : Extends s t) :
    s.nodes.length ≤ t.nodes.length := by
  obtain ⟨⟨tn, hn1⟩, _⟩ := h
  rw [hn1, List.length_append]
  omega

/-- A fold whose body extends the state extends the state. -/
theorem foldl_extends {α : Type} (f : GenState → α → GenState)
    (hf : ∀ s a, Extends s (f s a)) :
    ∀ (l : List α) (s : GenState), Extends s (l.foldl f s) := by
  intro l
  induction l with
  | nil => exact fun s => Extends.refl s
  | cons a as ih => exact fun s => (hf s a).trans (ih (f s a))

/-- A fold whose body extends any state from a family closed under the body. -/
theorem foldl_extends_inv {α : Type} (f : GenState → α → GenState) (P : GenState → Prop)
    (hf : ∀ s a, P s → Extends s (f s a) ∧ P (f s a)) :
    ∀ (l : List α) (s : GenState), P s → Extends s (l.foldl f s) ∧ P (l.foldl f s) := by
  intro l
  induction l with
  | nil => exact fun s hp => ⟨Extends.refl s, hp⟩
  | cons a as ih =>
      intro s hp
      obtain ⟨h1, hp1⟩ := hf s a hp
      obtain ⟨h2, hp2⟩ := ih (f s a) hp1
      exact ⟨h1.trans h2, hp2⟩

/-- A node with the given id and cluster id has at least one incident edge
carrying that cluster id (the amended connectivity guarantee of claim C3). -/
def HasClusterEdge (edges : List GEdge) (nid c : ℕ) : Prop :=
  ∃ e ∈ edges, e.clusterId = some c ∧ (e.source = nid ∨ e.target = nid)

theorem HasClusterEdge.mono {edges : List GEdge} {te : List GEdge} {nid c : ℕ}
    (h : HasClusterEdge edges nid c) : HasClusterEdge (edges ++ te) nid c := by
  obtain ⟨e, he, hc⟩ := h
  exact ⟨e, List.mem_append_left _ he, hc⟩

theorem HasClusterEdge.of_extends {s t : GenState} {nid c : ℕ} (hst : Extends s t)
    (h : HasClusterEdge s.edges nid c) : HasClusterEdge t.edges nid c := by
  obtain ⟨_, ⟨te, he⟩⟩ := hst
  rw [he]
  exact h.mono

theorem extends_of_eq {s t : GenState} (hn : t.nodes = s.nodes) (he : t.edges = s.edges) :
    Extends s t :=
  ⟨⟨[], by rw [hn, List.append_nil]⟩, ⟨[], by rw [he, List.append_nil]⟩⟩

theorem extends_of_push_edge {s t : GenState} (e : GEdge) (hn : t.nodes = s.nodes)
    (he : t.edges = s.edges ++ [e]) : Extends s t :=
  ⟨⟨[], by rw [hn, List.append_nil]⟩, ⟨[e], he⟩⟩

theorem extends_of_push_node {s t : GenState} (n : GNode) (hn : t.nodes = s.nodes ++ [n])
    (he : t.edges = s.edges) : Extends s t :=
  ⟨⟨[n], hn⟩, ⟨[], by rw [he, List.append_nil]⟩⟩

theorem foldl_extends_pair {α β : Type} (f : (β × GenState) → α → (β × GenState))
    (hf : ∀ p a, Extends p.2 (f p a).2) :
    ∀ (l : List α) (p : β × GenState), Extends p.2 (l.foldl f p).2 := by
  intro l
  induction l with
  | nil => exact fun p => Extends.refl _
  | cons a as ih => exact fun p => (hf p a).trans (ih (f p a))

theorem extends_mkClusterNodes (env : GenEnv) (center : ℚ × ℚ) (k c : ℕ) (s : GenState) :
    Extends s (mkClusterNodes env center k c s).2 := by
  unfold mkClusterNodes
  refine foldl_extends_pair _ ?_ _ _
  intro p a
  exact extends_of_push_node _ rfl rfl

theorem extends_addWebConnections (env : GenEnv) (cn : List GNode) (c : ℕ) (s : GenState) :
    Extends s (addWebConnections env cn c s) := by
  unfold addWebConnections
  refine foldl_extends _ ?_ _ _
  intro s' i
  rcases h : cn.get? i with _ | node
  · simp only [h]
    exact Extends.refl _
  · simp only [h]
    refine Extends.trans (extends_of_eq (t := { s' with ri := s'.ri + 1, si := s'.si + 1 }) rfl rfl) ?_
    refine foldl_extends _ ?_ _ _
    intro s'' target
    split_ifs
    · exact Extends.refl _
    · exact extends_of_push_edge _ rfl rfl

theorem extends_addCrossConnections (env : GenEnv) (cn : List GNode) (c : ℕ) (s : GenState) :
    Extends s (addCrossConnections env cn c s) := by
  unfold addCrossConnections
  refine foldl_extends _ ?_ _ _
  intro s' i
  refine foldl_extends _ ?_ _ _
  intro s'' j
  split_ifs
  · rcases hi : cn.get? i with _ | ni <;> rcases hj : cn.get? j with _ | nj <;>
      simp only [hi, hj]
    · exact Extends.refl _
    · exact Extends.refl _
    · exact Extends.refl _
    · split_ifs
      · exact extends_of_eq rfl rfl
      · exact extends_of_push_edge _ rfl rfl
      · exact extends_of_eq rfl rfl
  · exact Extends.refl _

theorem extends_addInnocentNodes (env : GenEnv) (center : ℚ × ℚ) (cn : List GNode)
    (s : GenState) : Extends s (addInnocentNodes env center cn s) := by
  unfold addInnocentNodes
  refine Extends.trans (extends_of_eq (t := { s with ri := s.ri + 1 }) rfl rfl) ?_
  refine foldl_extends _ ?_ _ _
  intro s' a
  simp only [GenState.draw]
  split
  · exact extends_of_eq rfl rfl
  · exact extends_of_push_node _ rfl rfl

theorem extends_addSatellites (env : GenEnv) (center : ℚ × ℚ) (cn : List GNode) (c : ℕ)
    (s : GenState) : Extends s (addSatellites env center cn c s).2 := by
  unfold addSatellites
  refine Extends.trans (extends_of_eq (t := { s with ri := s.ri + 1 }) rfl rfl) ?_
  refine foldl_extends_pair _ ?_ _ _
  intro p a
  simp only [GenState.draw, GenState.doShuffle]
  refine Extends.trans ?_ (foldl_extends _ ?_ _ _)
  · exact extends_of_push_node _ rfl rfl
  · intro s'' m
    split
    · exact Extends.refl _
    · exact extends_of_push_edge _ rfl rfl

theorem extends_mkCluster (env : GenEnv) (c : ℕ) (s : GenState) :
    Extends s (mkCluster env c s) := by
  unfold mkCluster
  rcases h : (clusterPositions env).get? c with _ | center
  · simp only [h]
    exact Extends.refl _
  · simp only [h, GenState.draw]
    rcases hp : mkClusterNodes env center ((jsFloor (randomRange (env.rand s.ri) 8 15)).toNat) c
      { s with ri := s.ri + 1 } with ⟨cn, s2⟩
    dsimp only
    have h1 : Extends s { s with ri := s.ri + 1 } := extends_of_eq rfl rfl
    have h2 := extends_mkClusterNodes env center
      ((jsFloor (randomRange (env.rand s.ri) 8 15)).toNat) c { s with ri := s.ri + 1 }
    rw [hp] at h2
    have h3 := extends_addWebConnections env cn c s2
    have h4 := extends_addCrossConnections env cn c (addWebConnections env cn c s2)
    have h5 := extends_addInnocentNodes env center cn
      (addCrossConnections env cn c (addWebConnections env cn c s2))
    have h6 := extends_addSatellites env center cn c
      (addInnocentNodes env center cn
        (addCrossConnections env cn c (addWebConnections env cn c s2)))
    rcases hq : addSatellites env center cn c
      (addInnocentNodes env center cn
        (addCrossConnections env cn c (addWebConnections env cn c s2))) with ⟨cn2, s6⟩
    dsimp only
    rw [hq] at h6
    have h7 : Extends s6 { s6 with muleClusters := s6.muleClusters ++ [cn2] } :=
      extends_of_eq rfl rfl
    exact ((((((h1.trans h2).trans h3).trans h4).trans h5).trans h6).trans h7)

/-! ## Duplicate-edge analysis of the guarded phases (claim C1) -/

theorem samePair_symm {e f : GEdge} (h : samePair e f) : samePair f e := by
  unfold samePair at h ⊢
  tauto

/-- A list-valued fold preserves any property its body preserves. -/
theorem foldl_preserves {α : Type} (f : GenState → α → GenState) (P : GenState → Prop)
    (hf : ∀ s a, P s → P (f s a)) :
    ∀ (l : List α) (s : GenState), P s → P (l.foldl f s) := by
  intro l
  induction l with
  | nil => exact fun s hp => hp
  | cons a as ih => exact fun s hp => ih (f s a) (hf s a hp)

/-- Appending an edge whose unordered pair is new preserves the
no-duplicate invariant. -/
theorem noDup_push {edges : List GEdge} {e : GEdge}
    (hnd : NoDupEdges edges) (hno : ∀ f ∈ edges, ¬ samePair f e) :
    NoDupEdges (edges ++ [e]) := by
  intro i j hij
  rcases lt_or_ge (i : ℕ) edges.length with hi | hi <;>
    rcases lt_or_ge (j : ℕ) edges.length with hj | hj
  · have hgi : (edges ++ [e]).get i = edges.get ⟨i, hi⟩ := by
      rw [List.get_eq_getElem, List.get_eq_getElem]
      exact List.getElem_append_left hi
    have hgj : (edges ++ [e]).get j = edges.get ⟨j, hj⟩ := by
      rw [List.get_eq_getElem, List.get_eq_getElem]
      exact List.getElem_append_left hj
    rw [hgi, hgj]
    have hvne : (i : ℕ) ≠ (j : ℕ) := fun hq => hij (Fin.ext hq)
    exact hnd ⟨i, hi⟩ ⟨j, hj⟩ (Fin.ne_of_val_ne hvne)
  · have hje : (j : ℕ) = edges.length := by
      have := j.isLt; simp only [List.length_append, List.length_singleton] at this; omega
    have hgj : (edges ++ [e]).get j = e := by
      rw [List.get_eq_getElem, List.getElem_append_right (by omega)]
      simp [hje]
    have hgi : (edges ++ [e]).get i = edges.get ⟨i, hi⟩ := by
      rw [List.get_eq_getElem, List.get_eq_getElem]
      exact List.getElem_append_left hi
    rw [hgi, hgj]
    exact hno _ (List.get_mem _ _ _)
  · have hie : (i : ℕ) = edges.length := by
      have := i.isLt; simp only [List.length_append, List.length_singleton] at this; omega
    have hgi : (edges ++ [e]).get i = e := by
      rw [List.get_eq_getElem, List.getElem_append_right (by omega)]
      simp [hie]
    have hgj : (edges ++ [e]).get j = edges.get ⟨j, hj⟩ := by
      rw [List.get_eq_getElem, List.get_eq_getElem]
      exact List.getElem_append_left hj
    rw [hgi, hgj]
    intro hsp
    exact hno _ (List.get_mem _ _ _) (samePair_symm hsp)
  · exfalso
    have hi' := i.isLt
    have hj' := j.isLt
    simp only [List.length_append, List.length_singleton] at hi' hj'
    exact hij (Fin.ext (by omega))

/-- When the `edgeExists` scan comes back false, the pushed edge duplicates
no existing edge. -/
theorem not_samePair_of_edgeExists_false {edges : List GEdge} {a b : ℕ}
    (h : edgeExists edges a b = false) {e : GEdge} (hs : e.source = a) (ht : e.target = b) :
    ∀ f ∈ edges, ¬ samePair f e := by
  intro f hf hsp
  unfold edgeExists at h
  rw [List.any_eq_false] at h
  have hfb := h f hf
  simp only [Bool.or_eq_true, Bool.and_eq_true, beq_iff_eq, not_or, not_and] at hfb
  unfold samePair at hsp
  rw [hs, ht] at hsp
  rcases hsp with ⟨h1, h2⟩ | ⟨h1, h2⟩
  · exact hfb.1 h1 h2
  · exact hfb.2 h1 h2

theorem noDup_addWebConnections (env : GenEnv) (cn : List GNode) (c : ℕ) (s : GenState)
    (h : NoDupEdges s.edges) : NoDupEdges (addWebConnections env cn c s).edges := by
  unfold addWebConnections
  refine foldl_preserves _ (fun t => NoDupEdges t.edges) ?_ _ _ h
  intro s' i hP
  rcases hg : cn.get? i with _ | node
  · simp only [hg]
    exact hP
  · simp only [hg, GenState.draw, GenState.doShuffle]
    refine foldl_preserves _ (fun t => NoDupEdges t.edges) ?_ _ _ hP
    intro s'' target hP'
    split_ifs with hex
    · exact hP'
    · simp only [GenState.draw]
      exact noDup_push hP'
        (not_samePair_of_edgeExists_false ((Bool.not_eq_true _).mp hex) rfl rfl)

theorem noDup_addCrossConnections (env : GenEnv) (cn : List GNode) (c : ℕ) (s : GenState)
    (h : NoDupEdges s.edges) : NoDupEdges (addCrossConnections env cn c s).edges := by
  unfold addCrossConnections
  refine foldl_preserves _ (fun t => NoDupEdges t.edges) ?_ _ _ h
  intro s' i hP
  refine foldl_preserves _ (fun t => NoDupEdges t.edges) ?_ _ _ hP
  intro s'' j hP'
  split_ifs with hij
  · rcases hi : cn.get? i with _ | ni <;> rcases hj : cn.get? j with _ | nj <;>
      simp only [hi, hj, GenState.draw]
    · exact hP'
    · exact hP'
    · exact hP'
    · split_ifs with hprob hex
      · exact hP'
      · exact noDup_push hP'
          (not_samePair_of_edgeExists_false ((Bool.not_eq_true _).mp hex) rfl rfl)
      · exact hP'
  · exact hP'

theorem noDup_addLowRiskEdges (env : GenEnv) (s : GenState)
    (h : NoDupEdges s.edges) : NoDupEdges (addLowRiskEdges env s).edges := by
  unfold addLowRiskEdges
  refine foldl_preserves _ (fun t => NoDupEdges t.edges) ?_ _ _ h
  intro s' node hP
  simp only [GenState.draw]
  refine foldl_preserves _ (fun t => NoDupEdges t.edges) ?_ _ _ hP
  intro s'' target hP'
  split_ifs with hex
  · exact hP'
  · exact noDup_push hP'
      (not_samePair_of_edgeExists_false ((Bool.not_eq_true _).mp hex) rfl rfl)

theorem noDup_addLongRangeEdges (env : GenEnv) (s : GenState)
    (h : NoDupEdges s.edges) : NoDupEdges (addLongRangeEdges env s).edges := by
  unfold addLongRangeEdges
  refine foldl_preserves _ (fun t => NoDupEdges t.edges) ?_ _ _ h
  intro s' a hP
  simp only [GenState.draw]
  split
  · split_ifs with hne hex
    · exact hP
    · exact noDup_push hP
        (not_samePair_of_edgeExists_false ((Bool.not_eq_true _).mp hex) rfl rfl)
    · exact hP
  · exact hP

theorem noDup_addHiddenRelationshipEdges (env : GenEnv) (s : GenState)
    (h : NoDupEdges s.edges) : NoDupEdges (addHiddenRelationshipEdges env s).edges := by
  unfold addHiddenRelationshipEdges
  refine foldl_preserves _ (fun t => NoDupEdges t.edges) ?_ _ _ h
  intro s' cl hP
  split_ifs with hlen
  · rcases hfp : farthestPair cl with _ | ab
    · simp only [hfp]
      exact hP
    · rcases ab with ⟨na, nb⟩
      simp only [hfp, GenState.draw]
      split_ifs with hex
      · exact hP
      · exact noDup_push hP
          (not_samePair_of_edgeExists_false ((Bool.not_eq_true _).mp hex) rfl rfl)
  · exact hP

/-- **Claim C1 (amended).**  The `edgeExists` linear scan does keep the
no-duplicate-undirected-edge invariant through every generation phase that
performs it before pushing: the in-cluster web connections, the cluster
cross-connections, the low-risk proximity edges, the long-range small-world
edges and the hidden-relationship edges each preserve `NoDupEdges`.  The
satellite wiring and the 25-attempt false-connection phase push edges without
the scan, and the false-connection phase actually produces duplicate edges, so
the original claim fails for the full generator (see the counterexample). -/
theorem no_dup_edges_guarded_phases (env : GenEnv) (cn : List GNode) (c : ℕ)
    (s : GenState) (h : NoDupEdges s.edges) :
    NoDupEdges (addWebConnections env cn c s).edges ∧
    NoDupEdges (addCrossConnections env cn c s).edges ∧
    NoDupEdges (addLowRiskEdges env s).edges ∧
    NoDupEdges (addLongRangeEdges env s).edges ∧
    NoDupEdges (addHiddenRelationshipEdges env s).edges :=
  ⟨noDup_addWebConnections env cn c s h, noDup_addCrossConnections env cn c s h,
   noDup_addLowRiskEdges env s h, noDup_addLongRangeEdges env s h,
   noDup_addHiddenRelationshipEdges env s h⟩

theorem no_dup_edges_guarded_phases_witness :
    NoDupEdges initialGenState.edges ∧
    (NoDupEdges (addWebConnections cexEnv [] 0 initialGenState).edges ∧
     NoDupEdges (addCrossConnections cexEnv [] 0 initialGenState).edges ∧
     NoDupEdges (addLowRiskEdges cexEnv initialGenState).edges ∧
     NoDupEdges (addLongRangeEdges cexEnv initialGenState).edges ∧
     NoDupEdges (addHiddenRelationshipEdges cexEnv initialGenState).edges) :=
  ⟨by decide, no_dup_edges_guarded_phases cexEnv [] 0 initialGenState (by decide)⟩

/-! ## Claim C5: convergence of the idle-motion integrator.

The noise-free one-axis step is affine inside the velocity clamp; with
`e = x - b` it is `(e, u) ↦ (e + 7/20 u, 49/50 (u - 1/125 (e + 7/20 u)))`,
a contraction for the quadratic form `idleV` below (an exact eigen-solution of
`Mᵀ P M = 49/50 P`), while the far-field linear form `idlePsi` decreases along
trajectories until the orbit enters the region where `idleV` contracts. -/

/-- Lyapunov quadratic form for the noise-free idle step (values from the
exact solution of the discrete Lyapunov equation for the step matrix). -/
def idleV (e u : ℚ) : ℚ :=
  14/625 * e^2 + 2 * (8082649/248762500) * e * u + u^2

/-- Far-field linear potential: decreases strictly once `e ≥ 9/2`. -/
def idlePsi (e u : ℚ) : ℚ := e + 43750/2843 * u

theorem idleStep0_fst (e u : ℚ) : (idleStep 0 0 (e, u)).1 = e + 7/20 * u := by
  unfold idleStep IDLE_SPEED
  norm_num
  ring

theorem idleStep0_snd (e u : ℚ) :
    (idleStep 0 0 (e, u)).2 =
      max (-(3/2)) (min (3/2) (49/50 * (u - 1/125 * (e + 7/20 * u)))) := by
  unfold idleStep IDLE_SPEED
  norm_num
  congr 1
  congr 1
  ring

theorem idle_u_clamped (s : ℚ × ℚ) :
    -(3/2) ≤ (idleStep 0 0 s).2 ∧ (idleStep 0 0 s).2 ≤ 3/2 := by
  have h := idleStep0_snd s.1 s.2
  constructor
  · rw [h]
    exact le_max_left _ _
  · rw [h]
    exact max_le (by norm_num) (min_le_left _ _)

theorem idleV_nonneg (e u : ℚ) : 0 ≤ idleV e u := by
  unfold idleV
  nlinarith [sq_nonneg (u + 8082649/248762500 * e), sq_nonneg e]

/-- Exact one-step identity in the unclamped regime:
the quadratic form scales by the determinant `49/50`. -/
theorem idleV_step_eq (e u : ℚ) :
    idleV (e + 7/20 * u) (49/50 * (u - 1/125 * (e + 7/20 * u))) = 49/50 * idleV e u := by
  unfold idleV
  ring

/-- Clamping the velocity toward `[-3/2, 3/2]` can only decrease the quadratic
form, provided the position error is moderate. -/
theorem idleV_clamp_le {e w : ℚ} (he : e^2 ≤ 1024) :
    idleV e (max (-(3/2)) (min (3/2) w)) ≤ idleV e w := by
  have heb1 : e ≤ 32 := by nlinarith [sq_nonneg (e - 32)]
  have heb2 : -32 ≤ e := by nlinarith [sq_nonneg (e + 32)]
  rcases le_total w (3/2) with h1 | h1
  · rcases le_total (-(3/2)) w with h2 | h2
    · rw [min_eq_right h1, max_eq_right h2]
    · rw [min_eq_right h1, max_eq_left h2]
      unfold idleV
      nlinarith [mul_nonneg (by linarith : (0:ℚ) ≤ -(3/2) - w)
        (by nlinarith : (0:ℚ) ≤ 3 - 2 * (8082649/248762500) * e - w - 3/2)]
  · rw [min_eq_left h1, max_eq_right (by linarith : -(3/2) ≤ (3/2 : ℚ))]
    unfold idleV
    nlinarith [mul_nonneg (by linarith : (0:ℚ) ≤ w - 3/2)
      (by nlinarith : (0:ℚ) ≤ w + 3/2 + 2 * (8082649/248762500) * e)]

theorem idleV_e_sq {e u : ℚ} (hV : idleV e u ≤ 20) : e^2 ≤ 961 := by
  unfold idleV at hV
  nlinarith [sq_nonneg (u + 8082649/248762500 * e)]

/-- One noise-free step contracts the quadratic form by `49/50` anywhere in
the absorbing region `idleV ≤ 20`, `|u| ≤ 3/2`. -/
theorem idleV_contract {e u : ℚ} (hul : -(3/2) ≤ u) (huh : u ≤ 3/2)
    (hV : idleV e u ≤ 20) :
    idleV (idleStep 0 0 (e, u)).1 (idleStep 0 0 (e, u)).2 ≤ 49/50 * idleV e u := by
  rw [idleStep0_fst, idleStep0_snd]
  have he2 := idleV_e_sq hV
  have heb1 : e ≤ 31 := by nlinarith [sq_nonneg (e - 31)]
  have heb2 : -31 ≤ e := by nlinarith [sq_nonneg (e + 31)]
  have he'2 : (e + 7/20 * u)^2 ≤ 1024 := by nlinarith
  calc idleV (e + 7/20 * u) (max (-(3/2)) (min (3/2) (49/50 * (u - 1/125 * (e + 7/20 * u)))))
      ≤ idleV (e + 7/20 * u) (49/50 * (u - 1/125 * (e + 7/20 * u))) := idleV_clamp_le he'2
    _ = 49/50 * idleV e u := idleV_step_eq e u

/-- The velocity bound is preserved by every iterate. -/
theorem idle_u_iter (s : ℚ × ℚ) (hul : -(3/2) ≤ s.2) (huh : s.2 ≤ 3/2) (k : ℕ) :
    -(3/2) ≤ ((idleStep 0 0)^[k] s).2 ∧ ((idleStep 0 0)^[k] s).2 ≤ 3/2 := by
  induction k with
  | zero => exact ⟨hul, huh⟩
  | succ k ih =>
      rw [Function.iterate_succ_apply']
      exact idle_u_clamped _

/-- Geometric decay of the quadratic form inside the absorbing region. -/
theorem idleA_iter (s : ℚ × ℚ) (hV : idleV s.1 s.2 ≤ 20) (hul : -(3/2) ≤ s.2)
    (huh : s.2 ≤ 3/2) (k : ℕ) :
    idleV ((idleStep 0 0)^[k] s).1 ((idleStep 0 0)^[k] s).2
        ≤ (49/50)^k * idleV s.1 s.2 ∧
      idleV ((idleStep 0 0)^[k] s).1 ((idleStep 0 0)^[k] s).2 ≤ 20 := by
  induction k with
  | zero =>
      constructor
      · rw [Function.iterate_zero_apply, pow_zero, one_mul]
      · exact hV
  | succ k ih =>
      have hu := idle_u_iter s hul huh k
      have hstep := idleV_contract hu.1 hu.2 ih.2
      have hVk := idleV_nonneg ((idleStep 0 0)^[k] s).1 ((idleStep 0 0)^[k] s).2
      rw [Function.iterate_succ_apply']
      constructor
      · calc idleV (idleStep 0 0 ((idleStep 0 0)^[k] s)).1
              (idleStep 0 0 ((idleStep 0 0)^[k] s)).2
            ≤ 49/50 * idleV ((idleStep 0 0)^[k] s).1 ((idleStep 0 0)^[k] s).2 := hstep
          _ ≤ 49/50 * ((49/50)^k * idleV s.1 s.2) := by
              have := ih.1
              linarith
          _ = (49/50)^(k+1) * idleV s.1 s.2 := by ring
      · calc idleV (idleStep 0 0 ((idleStep 0 0)^[k] s)).1
              (idleStep 0 0 ((idleStep 0 0)^[k] s)).2
            ≤ 49/50 * idleV ((idleStep 0 0)^[k] s).1 ((idleStep 0 0)^[k] s).2 := hstep
          _ ≤ idleV ((idleStep 0 0)^[k] s).1 ((idleStep 0 0)^[k] s).2 := by linarith
          _ ≤ 20 := ih.2

/-- Strict decrease of the far-field potential while `e ≥ 9/2`. -/
theorem idlePsi_step {e u : ℚ} (he : 9/2 ≤ e) (hul : -(3/2) ≤ u) (huh : u ≤ 3/2) :
    idlePsi (idleStep 0 0 (e, u)).1 (idleStep 0 0 (e, u)).2
      ≤ idlePsi e u - 47/100 := by
  rw [idleStep0_fst, idleStep0_snd]
  have hw : 49/50 * (u - 1/125 * (e + 7/20 * u)) ≤ 3/2 := by linarith
  rw [min_eq_right hw]
  rcases le_total (-(3/2)) (49/50 * (u - 1/125 * (e + 7/20 * u))) with h2 | h2
  · rw [max_eq_right h2]
    unfold idlePsi
    linarith
  · rw [max_eq_left h2]
    unfold idlePsi
    linarith

/-- As long as the orbit stays in the far field `e ≥ 9/2`, the potential
drops by at least `47/100` per step. -/
theorem idlePsi_iter (s : ℚ × ℚ) (hul : -(3/2) ≤ s.2) (huh : s.2 ≤ 3/2) (k : ℕ)
    (hstay : ∀ m, m < k → 9/2 ≤ ((idleStep 0 0)^[m] s).1) :
    idlePsi ((idleStep 0 0)^[k] s).1 ((idleStep 0 0)^[k] s).2
      ≤ idlePsi s.1 s.2 - k * (47/100) := by
  induction k with
  | zero =>
      rw [Function.iterate_zero_apply]
      push_cast
      linarith
  | succ k ih =>
      have hu := idle_u_iter s hul huh k
      have hk := hstay k (Nat.lt_succ_self k)
      have hstep := idlePsi_step hk hu.1 hu.2
      have ihk := ih (fun m hm => hstay m (Nat.lt_succ_of_lt hm))
      rw [Function.iterate_succ_apply']
      have heta : ((idleStep 0 0)^[k] s).1 = (((idleStep 0 0)^[k] s).1,
          ((idleStep 0 0)^[k] s).2).1 := rfl
      push_cast
      calc idlePsi (idleStep 0 0 ((idleStep 0 0)^[k] s)).1
            (idleStep 0 0 ((idleStep 0 0)^[k] s)).2
          ≤ idlePsi ((idleStep 0 0)^[k] s).1 ((idleStep 0 0)^[k] s).2 - 47/100 := hstep
        _ ≤ (idlePsi s.1 s.2 - k * (47/100)) - 47/100 := by linarith
        _ = idlePsi s.1 s.2 - (k + 1) * (47/100) := by ring

/-- From a far-field start `e ≥ 9/2` the orbit reaches the band `|e| ≤ 9/2`. -/
theorem idle_escape_pos (s : ℚ × ℚ) (hul : -(3/2) ≤ s.2) (huh : s.2 ≤ 3/2)
    (he : 9/2 ≤ s.1) :
    ∃ τ, -(9/2) ≤ ((idleStep 0 0)^[τ] s).1 ∧ ((idleStep 0 0)^[τ] s).1 ≤ 9/2 := by
  have hex : ∃ m, ((idleStep 0 0)^[m] s).1 < 9/2 := by
    by_contra hno
    push_neg at hno
    set K : ℕ := (⌈(idlePsi s.1 s.2 + 105663/5686) * (100/47)⌉).toNat + 1 with hK
    have hiter := idlePsi_iter s hul huh K (fun m _ => hno m)
    have huK := idle_u_iter s hul huh K
    have heK := hno K
    have hpsiK : -(105663/5686) ≤ idlePsi ((idleStep 0 0)^[K] s).1 ((idleStep 0 0)^[K] s).2 := by
      unfold idlePsi
      nlinarith [huK.1, heK]
    have hceil : (idlePsi s.1 s.2 + 105663/5686) * (100/47)
        ≤ ((⌈(idlePsi s.1 s.2 + 105663/5686) * (100/47)⌉).toNat : ℚ) := by
      calc (idlePsi s.1 s.2 + 105663/5686) * (100/47)
          ≤ ((⌈(idlePsi s.1 s.2 + 105663/5686) * (100/47)⌉ : ℤ) : ℚ) := Int.le_ceil _
        _ ≤ ((⌈(idlePsi s.1 s.2 + 105663/5686) * (100/47)⌉).toNat : ℚ) := by
            exact_mod_cast Int.self_le_toNat _
    have hKq : (K : ℚ) = ((⌈(idlePsi s.1 s.2 + 105663/5686) * (100/47)⌉).toNat : ℚ) + 1 := by
      rw [hK]
      push_cast
      ring
    have hbig : idlePsi s.1 s.2 + 105663/5686 < (K : ℚ) * (47/100) := by
      rw [hKq]
      nlinarith [hceil]
    linarith
  let τ := Nat.find hex
  have hd : ((idleStep 0 0)^[τ] s).1 < 9/2 := Nat.find_spec hex
  have hτpos : τ ≠ 0 := by
    intro h0
    rw [h0, Function.iterate_zero_apply] at hd
    linarith
  have hprev : ¬ ((idleStep 0 0)^[τ - 1] s).1 < 9/2 :=
    Nat.find_min hex (by omega)
  push_neg at hprev
  have hsucc : τ = (τ - 1) + 1 := by omega
  have hup := idle_u_iter s hul huh (τ - 1)
  have hstep : ((idleStep 0 0)^[τ] s).1
      = ((idleStep 0 0)^[τ-1] s).1 + 7/20 * ((idleStep 0 0)^[τ-1] s).2 := by
    conv_lhs => rw [hsucc]
    rw [Function.iterate_succ_apply']
    exact idleStep0_fst _ _
  refine ⟨τ, ?_, le_of_lt hd⟩
  rw [hstep]
  linarith

/-- The noise-free idle step is odd. -/
theorem idleStep_neg (s : ℚ × ℚ) :
    idleStep 0 0 (-s.1, -s.2) = (-(idleStep 0 0 s).1, -(idleStep 0 0 s).2) := by
  have hclamp : ∀ w : ℚ, max (-(3/2)) (min (3/2) (-w)) = -(max (-(3/2)) (min (3/2) w)) := by
    intro w
    rcases le_total w (3/2) with h1 | h1 <;> rcases le_total (-(3/2)) w with h2 | h2
    · rw [min_eq_right h1, max_eq_right h2,
        min_eq_right (by linarith : -w ≤ (3/2:ℚ)), max_eq_right (by linarith : -(3/2) ≤ -w)]
    · rw [min_eq_right h1, max_eq_left h2,
        min_eq_left (by linarith : (3/2:ℚ) ≤ -w), max_eq_right (by norm_num : -(3/2) ≤ (3/2:ℚ))]
      norm_num
    · rw [min_eq_left h1, max_eq_right (by norm_num : -(3/2) ≤ (3/2:ℚ)),
        min_eq_right (by linarith : -w ≤ (3/2:ℚ)), max_eq_left (by linarith : -w ≤ -(3/2))]
    · linarith
  have h1 : (idleStep 0 0 (-s.1, -s.2)).1 = -(idleStep 0 0 s).1 := by
    rw [idleStep0_fst]
    have := idleStep0_fst s.1 s.2
    rw [show idleStep 0 0 s = idleStep 0 0 (s.1, s.2) from rfl, this]
    ring
  have h2 : (idleStep 0 0 (-s.1, -s.2)).2 = -(idleStep 0 0 s).2 := by
    rw [idleStep0_snd]
    have := idleStep0_snd s.1 s.2
    rw [show idleStep 0 0 s = idleStep 0 0 (s.1, s.2) from rfl, this]
    rw [show (49/50 * (-s.2 - 1/125 * (-s.1 + 7/20 * -s.2)) : ℚ)
        = -(49/50 * (s.2 - 1/125 * (s.1 + 7/20 * s.2))) by ring]
    exact hclamp _
  exact Prod.ext_iff.mpr ⟨h1, h2⟩

theorem idle_iter_neg (s : ℚ × ℚ) (k : ℕ) :
    (idleStep 0 0)^[k] (-s.1, -s.2)
      = (-((idleStep 0 0)^[k] s).1, -((idleStep 0 0)^[k] s).2) := by
  induction k with
  | zero => rfl
  | succ k ih =>
      rw [Function.iterate_succ_apply', Function.iterate_succ_apply', ih]
      have := idleStep_neg ((idleStep 0 0)^[k] s)
      simpa using this

/-- From any start with clamped velocity the orbit reaches the band `|e| ≤ 9/2`. -/
theorem idle_escape (s : ℚ × ℚ) (hul : -(3/2) ≤ s.2) (huh : s.2 ≤ 3/2) :
    ∃ τ, -(9/2) ≤ ((idleStep 0 0)^[τ] s).1 ∧ ((idleStep 0 0)^[τ] s).1 ≤ 9/2 := by
  rcases le_total s.1 (9/2) with h1 | h1
  · rcases le_total (-(9/2)) s.1 with h2 | h2
    · exact ⟨0, by rw [Function.iterate_zero_apply]; exact ⟨h2, h1⟩⟩
    · obtain ⟨τ, hτ1, hτ2⟩ := idle_escape_pos (-s.1, -s.2) (by dsimp; linarith)
        (by dsimp; linarith) (by dsimp; linarith)
      rw [idle_iter_neg] at hτ1 hτ2
      dsimp at hτ1 hτ2
      exact ⟨τ, by linarith, by linarith⟩
  · exact idle_escape_pos s hul huh h1

/-- Entering the band puts the orbit inside the absorbing region. -/
theorem idleV_entry {e u : ℚ} (he1 : -(9/2) ≤ e) (he2 : e ≤ 9/2)
    (hul : -(3/2) ≤ u) (huh : u ≤ 3/2) : idleV e u ≤ 20 := by
  unfold idleV
  nlinarith [mul_nonneg (by linarith : (0:ℚ) ≤ 9/2 - e) (by linarith : (0:ℚ) ≤ 3/2 - u),
    mul_nonneg (by linarith : (0:ℚ) ≤ 9/2 + e) (by linarith : (0:ℚ) ≤ 3/2 + u),
    mul_nonneg (by linarith : (0:ℚ) ≤ 9/2 - e) (by linarith : (0:ℚ) ≤ 3/2 + u),
    mul_nonneg (by linarith : (0:ℚ) ≤ 9/2 + e) (by linarith : (0:ℚ) ≤ 3/2 - u)]

/-- Powers of `49/50` get below any positive rational. -/
theorem pow_small (q : ℚ) (hq : 0 < q) : ∃ k : ℕ, (49/50 : ℚ)^k < q := by
  refine ⟨(⌈(49/q : ℚ)⌉).toNat + 1, ?_⟩
  have hceil : (49/q : ℚ) ≤ ((⌈(49/q : ℚ)⌉).toNat : ℚ) := by
    calc (49/q : ℚ) ≤ ((⌈(49/q : ℚ)⌉ : ℤ) : ℚ) := Int.le_ceil _
      _ ≤ ((⌈(49/q : ℚ)⌉).toNat : ℚ) := by exact_mod_cast Int.self_le_toNat _
  set k : ℕ := (⌈(49/q : ℚ)⌉).toNat + 1 with hk
  have hkq : (49/q : ℚ) + 1 ≤ (k : ℚ) := by
    rw [hk]
    push_cast
    linarith
  have hbern : 1 + (k : ℚ) * (1/49) ≤ (1 + 1/49)^k :=
    one_add_mul_le_pow (by norm_num) k
  have hpow : (1/q : ℚ) < (50/49)^k := by
    have h1 : (1/q : ℚ) < 1 + (k : ℚ) * (1/49) := by
      have h2 : (49/q : ℚ) * (1/49) = 1/q := by
        field_simp
        ring
      nlinarith [hkq]
    calc (1/q : ℚ) < 1 + (k : ℚ) * (1/49) := h1
      _ ≤ (1 + 1/49)^k := hbern
      _ = (50/49)^k := by norm_num
  have h50 : (0:ℚ) < (50/49)^k := by positivity
  have heq : (49/50 : ℚ)^k = ((50/49 : ℚ)^k)⁻¹ := by
    rw [← inv_pow]
    norm_num
  rw [heq, inv_eq_one_div, div_lt_iff h50]
  calc (1:ℚ) = (1/q) * q := by field_simp
    _ < (50/49)^k * q := by
        have := mul_lt_mul_of_pos_right hpow hq
        linarith
    _ = q * (50/49)^k := by ring

theorem abs_lt_of_sq_lt {e ε : ℚ} (hε : 0 < ε) (h : e^2 < ε^2) : |e| < ε := by
  rcases abs_cases e with ⟨h1, h2⟩ | ⟨h1, h2⟩ <;> rw [h1] <;> nlinarith

/-- 1-D convergence: the noise-free idle iteration drives the position error
below any positive bound, from every initial error and velocity. -/
theorem idle1d_converges (s : ℚ × ℚ) (ε : ℚ) (hε : 0 < ε) :
    ∃ N, ∀ k, N ≤ k → |((idleStep 0 0)^[k] s).1| < ε := by
  have hu1 := idle_u_clamped s
  obtain ⟨τ, hτ1, hτ2⟩ := idle_escape (idleStep 0 0 s) hu1.1 hu1.2
  have hup := idle_u_iter (idleStep 0 0 s) hu1.1 hu1.2 τ
  have hVp : idleV ((idleStep 0 0)^[τ] (idleStep 0 0 s)).1
      ((idleStep 0 0)^[τ] (idleStep 0 0 s)).2 ≤ 20 :=
    idleV_entry hτ1 hτ2 hup.1 hup.2
  obtain ⟨k₀, hk₀⟩ := pow_small ((163417351/7656250000) * ε^2 / 20) (by positivity)
  refine ⟨τ + 1 + k₀, ?_⟩
  intro k hk
  obtain ⟨m, hm⟩ : ∃ m, k = m + (τ + 1) := ⟨k - (τ + 1), by omega⟩
  have hmk : k₀ ≤ m := by omega
  rw [hm, Function.iterate_add_apply]
  have hps : (idleStep 0 0)^[τ + 1] s = (idleStep 0 0)^[τ] (idleStep 0 0 s) := by
    rw [Function.iterate_succ_apply]
  rw [hps]
  set p := (idleStep 0 0)^[τ] (idleStep 0 0 s) with hpdef
  have hdecay := (idleA_iter p hVp hup.1 hup.2 m).1
  have hVpnn := idleV_nonneg p.1 p.2
  have hmono : ((49:ℚ)/50)^m ≤ (49/50)^k₀ :=
    pow_le_pow_of_le_one (by norm_num) (by norm_num) hmk
  have hV20 : idleV ((idleStep 0 0)^[m] p).1 ((idleStep 0 0)^[m] p).2
      < 163417351/7656250000 * ε^2 := by
    have h1 : ((49:ℚ)/50)^m * idleV p.1 p.2 ≤ (49/50)^k₀ * 20 := by
      have hplt : ((49:ℚ)/50)^m ≥ 0 := by positivity
      nlinarith
    have h2 : ((49:ℚ)/50)^k₀ * 20 < 163417351/7656250000 * ε^2 := by
      have := mul_lt_mul_of_pos_right hk₀ (by norm_num : (0:ℚ) < 20)
      calc ((49:ℚ)/50)^k₀ * 20 < 163417351/7656250000 * ε^2 / 20 * 20 := this
        _ = 163417351/7656250000 * ε^2 := by ring
    linarith
  have hsq : (((idleStep 0 0)^[m] p).1)^2 < ε^2 := by
    have hlow : 163417351/7656250000 * (((idleStep 0 0)^[m] p).1)^2
        ≤ idleV ((idleStep 0 0)^[m] p).1 ((idleStep 0 0)^[m] p).2 := by
      unfold idleV
      nlinarith [sq_nonneg (((idleStep 0 0)^[m] p).2
        + 8082649/248762500 * ((idleStep 0 0)^[m] p).1)]
    nlinarith
  exact abs_lt_of_sq_lt hε hsq

/-- The idle step about rest position `b` is the conjugate of the step about
`0` by the translation `x ↦ x - b`. -/
theorem idleStep_shift (b : ℚ) (s : ℚ × ℚ) :
    idleStep b 0 s = ((idleStep 0 0 (s.1 - b, s.2)).1 + b, (idleStep 0 0 (s.1 - b, s.2)).2) := by
  refine Prod.ext_iff.mpr ⟨?_, ?_⟩
  · rw [idleStep0_fst]
    unfold idleStep IDLE_SPEED
    dsimp only
    norm_num
    try ring
  · rw [idleStep0_snd]
    unfold idleStep IDLE_SPEED
    dsimp only
    norm_num
    congr 1
    congr 1
    ring

theorem idle_iter_shift (b : ℚ) (s : ℚ × ℚ) (k : ℕ) :
    (idleStep b 0)^[k] s
      = (((idleStep 0 0)^[k] (s.1 - b, s.2)).1 + b, ((idleStep 0 0)^[k] (s.1 - b, s.2)).2) := by
  induction k with
  | zero =>
      refine Prod.ext_iff.mpr ⟨?_, ?_⟩ <;> dsimp <;> ring
  | succ k ih =>
      rw [Function.iterate_succ_apply', Function.iterate_succ_apply', ih, idleStep_shift]
      have harg : ((((idleStep 0 0)^[k] (s.1 - b, s.2)).1 + b, ((idleStep 0 0)^[k] (s.1 - b, s.2)).2).1 - b,
          (((idleStep 0 0)^[k] (s.1 - b, s.2)).1 + b, ((idleStep 0 0)^[k] (s.1 - b, s.2)).2).2)
          = (idleStep 0 0)^[k] (s.1 - b, s.2) := by
        refine Prod.ext_iff.mpr ⟨?_, ?_⟩ <;> dsimp <;> ring
      rw [harg]

/-- The two axes of the noise-free node step decouple into 1-D idle steps, and
the rest position is preserved. -/
theorem nodeIdleStep_iter (n : GNode) (k : ℕ) :
    ((nodeIdleStep 0 0)^[k] n).baseX = n.baseX ∧
    ((nodeIdleStep 0 0)^[k] n).baseY = n.baseY ∧
    (((nodeIdleStep 0 0)^[k] n).x, ((nodeIdleStep 0 0)^[k] n).vx)
      = (idleStep n.baseX 0)^[k] (n.x, n.vx) ∧
    (((nodeIdleStep 0 0)^[k] n).y, ((nodeIdleStep 0 0)^[k] n).vy)
      = (idleStep n.baseY 0)^[k] (n.y, n.vy) := by
  induction k with
  | zero => exact ⟨rfl, rfl, rfl, rfl⟩
  | succ k ih =>
      obtain ⟨hbx, hby, hx, hy⟩ := ih
      rw [Function.iterate_succ_apply', Function.iterate_succ_apply',
        Function.iterate_succ_apply']
      refine ⟨hbx, hby, ?_, ?_⟩
      · show ((idleStep (((nodeIdleStep 0 0)^[k] n).baseX) 0
            (((nodeIdleStep 0 0)^[k] n).x, ((nodeIdleStep 0 0)^[k] n).vx)).1,
            (idleStep (((nodeIdleStep 0 0)^[k] n).baseX) 0
            (((nodeIdleStep 0 0)^[k] n).x, ((nodeIdleStep 0 0)^[k] n).vx)).2)
          = idleStep n.baseX 0 ((idleStep n.baseX 0)^[k] (n.x, n.vx))
        rw [hbx, hx]
      · show ((idleStep (((nodeIdleStep 0 0)^[k] n).baseY) 0
            (((nodeIdleStep 0 0)^[k] n).y, ((nodeIdleStep 0 0)^[k] n).vy)).1,
            (idleStep (((nodeIdleStep 0 0)^[k] n).baseY) 0
            (((nodeIdleStep 0 0)^[k] n).y, ((nodeIdleStep 0 0)^[k] n).vy)).2)
          = idleStep n.baseY 0 ((idleStep n.baseY 0)^[k] (n.y, n.vy))
        rw [hby, hy]

/-- **Claim C5.**  With the random-noise term set to zero, iterating the
idle-motion integrator step (position advance by `v * IDLE_SPEED`, spring term
`0.008` toward the rest position, damping `0.98`, velocity clamp `±1.5`)
converges every node's position to its rest position `(baseX, baseY)`: for
every target accuracy `ε > 0` there is a frame count after which both
coordinates stay within `ε` of the rest position, from every initial position
and velocity. -/
theorem idle_motion_converges (n : GNode) (ε : ℚ) (hε : 0 < ε) :
    ∃ N, ∀ k, N ≤ k →
      |((nodeIdleStep 0 0)^[k] n).x - n.baseX| < ε ∧
      |((nodeIdleStep 0 0)^[k] n).y - n.baseY| < ε := by
  obtain ⟨Nx, hNx⟩ := idle1d_converges (n.x - n.baseX, n.vx) ε hε
  obtain ⟨Ny, hNy⟩ := idle1d_converges (n.y - n.baseY, n.vy) ε hε
  refine ⟨max Nx Ny, ?_⟩
  intro k hk
  obtain ⟨hbx, hby, hx, hy⟩ := nodeIdleStep_iter n k
  have hxv : ((nodeIdleStep 0 0)^[k] n).x = ((idleStep n.baseX 0)^[k] (n.x, n.vx)).1 := by
    have := congrArg Prod.fst hx
    simpa using this
  have hyv : ((nodeIdleStep 0 0)^[k] n).y = ((idleStep n.baseY 0)^[k] (n.y, n.vy)).1 := by
    have := congrArg Prod.fst hy
    simpa using this
  constructor
  · rw [hxv, idle_iter_shift]
    have h1 := hNx k (le_trans (le_max_left _ _) hk)
    dsimp only
    have h2 : ((idleStep 0 0)^[k] (n.x - n.baseX, n.vx)).1 + n.baseX - n.baseX
        = ((idleStep 0 0)^[k] (n.x - n.baseX, n.vx)).1 := by ring
    rw [h2]
    exact h1
  · rw [hyv, idle_iter_shift]
    have h1 := hNy k (le_trans (le_max_right _ _) hk)
    dsimp only
    have h2 : ((idleStep 0 0)^[k] (n.y - n.baseY, n.vy)).1 + n.baseY - n.baseY
        = ((idleStep 0 0)^[k] (n.y - n.baseY, n.vy)).1 := by ring
    rw [h2]
    exact h1

/-- Concrete node for instantiating the convergence theorem. -/
def convNode : GNode :=
  { id := 0, x := 207, y := -5, baseX := 100, baseY := 40, vx := 9, vy := -31/7,
    radius := 3, riskScore := 1/10, accountId := none, isHighRisk := false,
    isHub := false, clusterId := none, pulseOffset := 0 }

theorem idle_motion_converges_witness :
    0 < (1/1000 : ℚ) ∧
    ∃ N, ∀ k, N ≤ k →
      |((nodeIdleStep 0 0)^[k] convNode).x - convNode.baseX| < 1/1000 ∧
      |((nodeIdleStep 0 0)^[k] convNode).y - convNode.baseY| < 1/1000 :=
  ⟨by norm_num, idle_motion_converges convNode (1/1000) (by norm_num)⟩

/-! ## Cluster attachment analysis (claim C3) -/

/-- Every node id is below the node count (ids are assigned as
`nodes.length` at push time). -/
def IdsOK (s : GenState) : Prop := ∀ n ∈ s.nodes, n.id < s.nodes.length

/-- Every edge endpoint is a node id below the node count. -/
def EdgesOK (s : GenState) : Prop :=
  ∀ e ∈ s.edges, e.source < s.nodes.length ∧ e.target < s.nodes.length

/-- Every node carrying a cluster id is incident to an edge carrying the same
cluster id. -/
def Attached (s : GenState) : Prop :=
  ∀ n ∈ s.nodes, ∀ c, n.clusterId = some c → HasClusterEdge s.edges n.id c

/-- The combined invariant maintained across the mule-cluster phases. -/
def ClusterInv (s : GenState) : Prop := IdsOK s ∧ EdgesOK s ∧ Attached s

/-- Fold preservation where the step may use membership of the element. -/
theorem foldl_preserves_mem {α : Type} (f : GenState → α → GenState)
    (P : GenState → Prop) (l : List α)
    (hf : ∀ u a, a ∈ l → P u → P (f u a)) :
    ∀ s, P s → P (l.foldl f s) := by
  induction l with
  | nil => exact fun s hp => hp
  | cons a as ih =>
      intro s hp
      exact ih (fun u b hb hu => hf u b (List.mem_cons_of_mem a hb) hu) (f s a)
        (hf s a (List.mem_cons_self a as) hp)

/-- Invariant preservation for pair-accumulator folds. -/
theorem foldl_pair_inv {α β : Type} (f : β × GenState → α → β × GenState)
    (P : β × GenState → Prop) (hf : ∀ p a, P p → P (f p a)) :
    ∀ (l : List α) (p : β × GenState), P p → P (l.foldl f p) := by
  intro l
  induction l with
  | nil => exact fun p hp => hp
  | cons a as ih => exact fun p hp => ih (f p a) (hf p a hp)

/-- Indexed invariant for folds over `List.range`. -/
theorem range_foldl_inv (f : GenState → ℕ → GenState) (P : ℕ → GenState → Prop)
    (hf : ∀ i t, P i t → P (i + 1) (f t i)) :
    ∀ (k : ℕ) (t : GenState), P 0 t → P k ((List.range k).foldl f t) := by
  intro k
  induction k with
  | zero => exact fun t h => h
  | succ k ih =>
      intro t h
      rw [List.range_succ, List.foldl_append]
      exact hf k _ (ih t h)

/-- A pair fold whose body grows the list accumulator by one element. -/
theorem foldl_fst_len {α β : Type} (f : List β × GenState → α → List β × GenState)
    (hf : ∀ p a, (f p a).1.length = p.1.length + 1) :
    ∀ (l : List α) (p : List β × GenState), (l.foldl f p).1.length = p.1.length + l.length := by
  intro l
  induction l with
  | nil => simp
  | cons a as ih =>
      intro p
      rw [List.foldl_cons, ih (f p a), hf p a, List.length_cons]
      omega

/-- Appending a node whose id is the current length keeps ids bounded. -/
theorem idsOK_append {l : List GNode} {n : GNode}
    (h : ∀ m ∈ l, m.id < l.length) (hn : n.id = l.length) :
    ∀ m ∈ l ++ [n], m.id < (l ++ [n]).length := by
  intro m hm
  rw [List.length_append, List.length_singleton]
  rcases List.mem_append.mp hm with hm | hm
  · have := h m hm
    omega
  · rcases List.mem_singleton.mp hm with rfl
    omega

/-- The edges of `t` are those of `base` plus cluster-`c` edges joining
members of `cn`. -/
def EdgesFrom (base : List GEdge) (cn : List GNode) (c : ℕ) (t : GenState) : Prop :=
  ∃ te, t.edges = base ++ te ∧ ∀ e ∈ te, e.clusterId = some c ∧
    (∃ n1 ∈ cn, e.source = n1.id) ∧ (∃ n2 ∈ cn, e.target = n2.id)

theorem edgesFrom_rfl (base : List GEdge) (cn : List GNode) (c : ℕ) {t : GenState}
    (h : t.edges = base) : EdgesFrom base cn c t :=
  ⟨[], by rw [h, List.append_nil], by intro e he; exact absurd he (List.not_mem_nil e)⟩

/-- Lower bound for `Math.floor(randomRange r lo hi)` with `0 ≤ r`. -/
theorem jsFloor_randomRange_ge (r : ℚ) (h0 : 0 ≤ r) (lo hi : ℕ) (hlh : (lo : ℚ) ≤ hi) :
    lo ≤ (jsFloor (randomRange r (lo : ℚ) (hi : ℚ))).toNat := by
  have hq : (lo : ℚ) ≤ randomRange r (lo : ℚ) (hi : ℚ) := by
    unfold randomRange
    nlinarith
  have hfl : (lo : ℤ) ≤ jsFloor (randomRange r (lo : ℚ) (hi : ℚ)) := by
    unfold jsFloor
    exact Int.le_floor.mpr (by exact_mod_cast hq)
  omega

/-- One cluster node: consumes draws only, and is built with the current node
count as id, the cluster id `c`, and the satellite flag off. -/
theorem mkClusterNode_spec (env : GenEnv) (center : ℚ × ℚ) (K c i : ℕ) (s : GenState) :
    (mkClusterNode env center K c i s).2.nodes = s.nodes ∧
    (mkClusterNode env center K c i s).2.edges = s.edges ∧
    (mkClusterNode env center K c i s).1.id = s.nodes.length ∧
    (mkClusterNode env center K c i s).1.clusterId = some c ∧
    (mkClusterNode env center K c i s).1.isSatellite = false :=
  ⟨rfl, rfl, rfl, rfl, rfl⟩

/-- The cluster-node creation loop appends exactly its local array, whose
members are fresh cluster-`c` non-satellite nodes. -/
theorem mkClusterNodes_spec (env : GenEnv) (center : ℚ × ℚ) (K c : ℕ) (s : GenState) :
    (mkClusterNodes env center K c s).2.nodes = s.nodes ++ (mkClusterNodes env center K c s).1 ∧
    (mkClusterNodes env center K c s).2.edges = s.edges ∧
    (mkClusterNodes env center K c s).1.length = K ∧
    ∀ n ∈ (mkClusterNodes env center K c s).1,
      n.clusterId = some c ∧ n.isSatellite = false ∧
      s.nodes.length ≤ n.id ∧
      n.id < s.nodes.length + (mkClusterNodes env center K c s).1.length := by
  unfold mkClusterNodes
  have hlen := foldl_fst_len
    (fun (acc : List GNode × GenState) i =>
      ((fun q => (acc.1 ++ [q.1], { q.2 with nodes := q.2.nodes ++ [q.1] }))
        (mkClusterNode env center K c i acc.2)))
    (by
      intro p a
      dsimp only
      rw [List.length_append, List.length_singleton])
    (List.range K) ([], s)
  have hinv := foldl_pair_inv
    (fun (acc : List GNode × GenState) i =>
      ((fun q => (acc.1 ++ [q.1], { q.2 with nodes := q.2.nodes ++ [q.1] }))
        (mkClusterNode env center K c i acc.2)))
    (fun p => p.2.nodes = s.nodes ++ p.1 ∧ p.2.edges = s.edges ∧
      ∀ n ∈ p.1, n.clusterId = some c ∧ n.isSatellite = false ∧
        s.nodes.length ≤ n.id ∧ n.id < s.nodes.length + p.1.length)
    (by
      intro p a hp
      obtain ⟨h1, h2, h3⟩ := hp
      obtain ⟨hn1, hn2, hid, hcid, hsat⟩ := mkClusterNode_spec env center K c a p.2
      dsimp only
      refine ⟨?_, ?_, ?_⟩
      · dsimp only
        rw [hn1, h1, List.append_assoc]
      · exact hn2.trans h2
      · intro n hn
        rcases List.mem_append.mp hn with hn | hn
        · obtain ⟨ha, hb, hc2, hd⟩ := h3 n hn
          refine ⟨ha, hb, hc2, ?_⟩
          rw [List.length_append, List.length_singleton]
          omega
        · rcases List.mem_singleton.mp hn with rfl
          refine ⟨hcid, hsat, ?_, ?_⟩
          · rw [hid, h1, List.length_append]
            omega
          · rw [hid, h1, List.length_append, List.length_append, List.length_singleton]
            omega)
    (List.range K) ([], s)
    (by
      refine ⟨by simp, rfl, ?_⟩
      intro n hn
      exact absurd hn (List.not_mem_nil n))
  obtain ⟨g1, g2, g3⟩ := hinv
  refine ⟨g1, g2, ?_, g3⟩
  rw [hlen]
  simp

theorem jsFloor_rr_ge_int (r lo hi : ℚ) (m : ℤ) (h0 : 0 ≤ r) (hlo : (m : ℚ) ≤ lo)
    (hlh : lo ≤ hi) : m ≤ jsFloor (randomRange r lo hi) := by
  unfold jsFloor randomRange
  apply Int.le_floor.mpr
  nlinarith

/-- Every available web target is a cluster node. -/
theorem web_targets_sub (cn : List GNode) (i : ℕ) :
    ∀ x ∈ (cn.enum.filter (fun p => p.1 != i)).map Prod.snd, x ∈ cn := by
  intro x hx
  rcases List.mem_map.mp hx with ⟨p, hp, rfl⟩
  have hp2 := List.mem_of_mem_filter hp
  have hmap : p.2 ∈ cn.enum.map Prod.snd := List.mem_map_of_mem Prod.snd hp2
  rwa [List.enum_map_snd] at hmap

/-- With at least two cluster nodes, every node has an available web target. -/
theorem web_avail_ne (cn : List GNode) (i : ℕ) (h2 : 2 ≤ cn.length) :
    (cn.enum.filter (fun p => p.1 != i)).map Prod.snd ≠ [] := by
  set j : ℕ := if i = 0 then 1 else 0 with hj
  have hjlen : j < cn.length := by
    rw [hj]
    split_ifs <;> omega
  have hjne : j ≠ i := by
    rw [hj]
    split_ifs with h <;> omega
  have hmem : (j, cn.get ⟨j, hjlen⟩) ∈ cn.enum := by
    have hg : cn.enum.get ⟨j, by rw [List.enum_length]; exact hjlen⟩
        = (j, cn.get ⟨j, hjlen⟩) := by
      simp [List.getElem_enum]
    rw [← hg]
    exact List.get_mem _ _ _
  have hmemf : (j, cn.get ⟨j, hjlen⟩) ∈ cn.enum.filter (fun p => p.1 != i) :=
    List.mem_filter.mpr ⟨hmem, by simpa using hjne⟩
  exact List.ne_nil_of_mem (List.mem_map_of_mem Prod.snd hmemf)

/-- The per-node web wiring loop: given a nonempty target list inside the
cluster, it keeps the nodes, only appends cluster-`c` edges between cluster
members, and leaves `node` attached to cluster `c`. -/
theorem web_inner_spec (env : GenEnv) (cn : List GNode) (c : ℕ) (N : List GNode)
    (sbase : List GEdge) (node : GNode) (hnode : node ∈ cn)
    (hfresh : ∀ e ∈ sbase, ∀ n ∈ cn, e.source ≠ n.id ∧ e.target ≠ n.id) :
    ∀ (tgts : List GNode) (t' : GenState), (∀ x ∈ tgts, x ∈ cn) → tgts ≠ [] →
      t'.nodes = N → EdgesFrom sbase cn c t' →
      ((tgts.foldl
          (fun u target =>
            if edgeExists u.edges node.id target.id then u
            else
              match u.draw env with
              | (ra, u1) =>
                { u1 with edges := u1.edges ++
                    [{ source := node.id, target := target.id, isHighRisk := true,
                       atoRisk := some (randomRange ra 0.05 0.18), clusterId := some c,
                       flashProgress := 0, isFlashing := false }] }) t').nodes = N ∧
        EdgesFrom sbase cn c
          (tgts.foldl
            (fun u target =>
              if edgeExists u.edges node.id target.id then u
              else
                match u.draw env with
                | (ra, u1) =>
                  { u1 with edges := u1.edges ++
                      [{ source := node.id, target := target.id, isHighRisk := true,
                         atoRisk := some (randomRange ra 0.05 0.18), clusterId := some c,
                         flashProgress := 0, isFlashing := false }] }) t') ∧
        HasClusterEdge
          (tgts.foldl
            (fun u target =>
              if edgeExists u.edges node.id target.id then u
              else
                match u.draw env with
                | (ra, u1) =>
                  { u1 with edges := u1.edges ++
                      [{ source := node.id, target := target.id, isHighRisk := true,
                         atoRisk := some (randomRange ra 0.05 0.18), clusterId := some c,
                         flashProgress := 0, isFlashing := false }] }) t').edges node.id c) := by
  intro tgts
  rcases tgts with _ | ⟨t0, ts⟩
  · intro t' _ hne _ _
    exact absurd rfl hne
  · intro t' htsub _ ht1 ht2
    rw [List.foldl_cons]
    have hstep1 : ∃ u1, (if edgeExists t'.edges node.id t0.id then t'
        else
          match t'.draw env with
          | (ra, u1) =>
            { u1 with edges := u1.edges ++
                [{ source := node.id, target := t0.id, isHighRisk := true,
                   atoRisk := some (randomRange ra 0.05 0.18), clusterId := some c,
                   flashProgress := 0, isFlashing := false }] }) = u1 ∧
        u1.nodes = N ∧ EdgesFrom sbase cn c u1 ∧ HasClusterEdge u1.edges node.id c := by
      split_ifs with hex
      · refine ⟨t', rfl, ht1, ht2, ?_⟩
        obtain ⟨e, he, hc⟩ := edgeExists_iff.mp hex
        obtain ⟨te, hte, hprop⟩ := ht2
        rw [hte] at he
        rcases List.mem_append.mp he with he | he
        · exfalso
          have := hfresh e he node hnode
          unfold connects at hc
          rcases hc with ⟨h1, _⟩ | ⟨_, h2⟩
          · exact this.1 h1
          · exact this.2 h2
        · obtain ⟨hcid, _, _⟩ := hprop e he
          refine ⟨e, by rw [hte]; exact List.mem_append_right _ he, hcid, ?_⟩
          unfold connects at hc
          rcases hc with ⟨h1, _⟩ | ⟨_, h2⟩
          · exact Or.inl h1
          · exact Or.inr h2
      · simp only [GenState.draw]
        refine ⟨_, rfl, ht1, ?_, ?_⟩
        · obtain ⟨te, hte, hprop⟩ := ht2
          refine ⟨te ++ [{ source := node.id, target := t0.id, isHighRisk := true,
                           atoRisk := some (randomRange (env.rand t'.ri) 0.05 0.18),
                           clusterId := some c, flashProgress := 0, isFlashing := false }],
            ?_, ?_⟩
          · dsimp only
            rw [hte, List.append_assoc]
          · intro e he
            rcases List.mem_append.mp he with he | he
            · exact hprop e he
            · rcases List.mem_singleton.mp he with rfl
              exact ⟨rfl, ⟨node, hnode, rfl⟩, ⟨t0, htsub t0 (List.mem_cons_self _ _), rfl⟩⟩
        · refine ⟨_, List.mem_append_right _ (List.mem_singleton_self _), rfl, Or.inl rfl⟩
    obtain ⟨u1, hu1eq, hu1⟩ := hstep1
    rw [hu1eq]
    refine foldl_preserves_mem _
      (fun u => u.nodes = N ∧ EdgesFrom sbase cn c u ∧ HasClusterEdge u.edges node.id c)
      ts ?_ u1 hu1
    intro u a ha hu
    obtain ⟨hun, hue, huh⟩ := hu
    split_ifs with hex
    · exact ⟨hun, hue, huh⟩
    · simp only [GenState.draw]
      refine ⟨hun, ?_, ?_⟩
      · obtain ⟨te, hte, hprop⟩ := hue
        refine ⟨te ++ [{ source := node.id, target := a.id, isHighRisk := true,
                         atoRisk := some (randomRange (env.rand u.ri) 0.05 0.18),
                         clusterId := some c, flashProgress := 0, isFlashing := false }],
          ?_, ?_⟩
        · dsimp only
          rw [hte, List.append_assoc]
        · intro e he
          rcases List.mem_append.mp he with he | he
          · exact hprop e he
          · rcases List.mem_singleton.mp he with rfl
            exact ⟨rfl, ⟨node, hnode, rfl⟩,
              ⟨a, htsub a (List.mem_cons_of_mem t0 ha), rfl⟩⟩
      · obtain ⟨e, he, hcid, hinc⟩ := huh
        exact ⟨e, List.mem_append_left _ he, hcid, hinc⟩

/-- The web-connection phase: nodes unchanged, only clean cluster-`c` edges
appended, and — under admissible oracles — every cluster node ends up attached
to cluster `c`. -/
theorem addWebConnections_spec (env : GenEnv) (cn : List GNode) (c : ℕ) (s : GenState)
    (hseed : SeedOK env.rand) (hshuf : ShuffleOK env.shuffle)
    (hfresh : ∀ e ∈ s.edges, ∀ n ∈ cn, e.source ≠ n.id ∧ e.target ≠ n.id)
    (hlen : 2 ≤ cn.length) :
    (addWebConnections env cn c s).nodes = s.nodes ∧
    EdgesFrom s.edges cn c (addWebConnections env cn c s) ∧
    ∀ n ∈ cn, HasClusterEdge (addWebConnections env cn c s).edges n.id c := by
  suffices h : (addWebConnections env cn c s).nodes = s.nodes ∧
      EdgesFrom s.edges cn c (addWebConnections env cn c s) ∧
      ∀ j, ∀ hj : j < cn.length, j < cn.length →
        HasClusterEdge (addWebConnections env cn c s).edges (cn.get ⟨j, hj⟩).id c by
    refine ⟨h.1, h.2.1, ?_⟩
    intro n hn
    obtain ⟨⟨j, hj⟩, hget⟩ := List.mem_iff_get.mp hn
    rw [← hget]
    exact h.2.2 j hj hj
  unfold addWebConnections
  refine range_foldl_inv _
    (fun i t => t.nodes = s.nodes ∧ EdgesFrom s.edges cn c t ∧
      ∀ j, ∀ hj : j < cn.length, j < i → HasClusterEdge t.edges (cn.get ⟨j, hj⟩).id c)
    ?_ cn.length s ⟨rfl, edgesFrom_rfl _ _ _ rfl, ?_⟩
  · intro i t ht
    obtain ⟨ht1, ht2, ht3⟩ := ht
    dsimp only
    rcases hg : cn.get? i with _ | node
    · simp only [hg]
      have hnone := List.get?_eq_none.mp hg
      refine ⟨ht1, ht2, ?_⟩
      intro j hj hji
      exact ht3 j hj (by omega)
    · simp only [hg]
      obtain ⟨hi, hget⟩ := List.get?_eq_some.mp hg
      have hperm := hshuf t.si ((cn.enum.filter fun p => p.1 != i).map Prod.snd)
      have havne := web_avail_ne cn i hlen
      have hccge : 1 ≤ (jsFloor (randomRange (env.rand t.ri) 2 5)).toNat := by
        have h1 := jsFloor_rr_ge_int (env.rand t.ri) 2 5 1 (hseed t.ri).1
          (by norm_num) (by norm_num)
        omega
      have hslen : 0 < (env.shuffle t.si
          ((cn.enum.filter fun p => p.1 != i).map Prod.snd)).length := by
        rw [hperm.length_eq]
        exact List.length_pos.mpr havne
      have htlen : 0 < ((env.shuffle t.si ((cn.enum.filter fun p => p.1 != i).map Prod.snd)).take
          (min ((jsFloor (randomRange (env.rand t.ri) 2 5)).toNat)
            (env.shuffle t.si ((cn.enum.filter fun p => p.1 != i).map Prod.snd)).length)).length := by
        rw [List.length_take]
        omega
      have htsub : ∀ x ∈ (env.shuffle t.si ((cn.enum.filter fun p => p.1 != i).map Prod.snd)).take
          (min ((jsFloor (randomRange (env.rand t.ri) 2 5)).toNat)
            (env.shuffle t.si ((cn.enum.filter fun p => p.1 != i).map Prod.snd)).length),
          x ∈ cn := by
        intro x hx
        exact web_targets_sub cn i x (hperm.mem_iff.mp (List.take_subset _ _ hx))
      have htne : (env.shuffle t.si ((cn.enum.filter fun p => p.1 != i).map Prod.snd)).take
          (min ((jsFloor (randomRange (env.rand t.ri) 2 5)).toNat)
            (env.shuffle t.si ((cn.enum.filter fun p => p.1 != i).map Prod.snd)).length) ≠ [] :=
        List.length_pos.mp htlen
      obtain ⟨w1, w2, w3⟩ := web_inner_spec env cn c s.nodes s.edges node
        (hget ▸ List.get_mem cn i hi) hfresh
        ((env.shuffle t.si ((cn.enum.filter fun p => p.1 != i).map Prod.snd)).take
          (min ((jsFloor (randomRange (env.rand t.ri) 2 5)).toNat)
            (env.shuffle t.si ((cn.enum.filter fun p => p.1 != i).map Prod.snd)).length))
        { t with ri := t.ri + 1, si := t.si + 1 } htsub htne ht1 ht2
      have hext : Extends t
          (((env.shuffle t.si ((cn.enum.filter fun p => p.1 != i).map Prod.snd)).take
            (min ((jsFloor (randomRange (env.rand t.ri) 2 5)).toNat)
              (env.shuffle t.si ((cn.enum.filter fun p => p.1 != i).map Prod.snd)).length)).foldl
            (fun u target =>
              if edgeExists u.edges node.id target.id then u
              else
                match u.draw env with
                | (ra, u1) =>
                  { u1 with edges := u1.edges ++
                      [{ source := node.id, target := target.id, isHighRisk := true,
                         atoRisk := some (randomRange ra 0.05 0.18), clusterId := some c,
                         flashProgress := 0, isFlashing := false }] })
            { t with ri := t.ri + 1, si := t.si + 1 }) := by
        refine Extends.trans
          (extends_of_eq (t := { t with ri := t.ri + 1, si := t.si + 1 }) rfl rfl) ?_
        refine foldl_extends _ ?_ _ _
        intro u a
        simp only [GenState.draw]
        split_ifs
        · exact Extends.refl _
        · exact extends_of_push_edge _ rfl rfl
      refine ⟨w1, w2, ?_⟩
      intro j hj hji
      rcases Nat.lt_or_ge j i with hlt | hge
      · exact (ht3 j hj hlt).of_extends hext
      · have hjeq : j = i := by omega
        subst hjeq
        have hgj : cn.get ⟨j, hj⟩ = node := hget
        rw [hgj]
        exact w3
  · intro j hj hji
    omega

/-- The cross-connection phase: nodes unchanged, only clean cluster-`c` edges
between cluster members appended. -/
theorem addCrossConnections_spec (env : GenEnv) (cn : List GNode) (c : ℕ) (s : GenState) :
    (addCrossConnections env cn c s).nodes = s.nodes ∧
    EdgesFrom s.edges cn c (addCrossConnections env cn c s) := by
  unfold addCrossConnections
  refine foldl_preserves _ (fun t => t.nodes = s.nodes ∧ EdgesFrom s.edges cn c t) ?_ _ _
    ⟨rfl, edgesFrom_rfl _ _ _ rfl⟩
  intro t i ht
  refine foldl_preserves _ (fun t => t.nodes = s.nodes ∧ EdgesFrom s.edges cn c t) ?_ _ _ ht
  intro u j hu
  obtain ⟨hu1, hu2⟩ := hu
  split_ifs with hij
  · rcases hi : cn.get? i with _ | ni <;> rcases hj : cn.get? j with _ | nj <;>
      simp only [hi, hj, GenState.draw]
    · exact ⟨hu1, hu2⟩
    · exact ⟨hu1, hu2⟩
    · exact ⟨hu1, hu2⟩
    · split_ifs with hprob hex
      · exact ⟨hu1, hu2⟩
      · refine ⟨hu1, ?_⟩
        obtain ⟨te, hte, hprop⟩ := hu2
        refine ⟨te ++ [{ source := ni.id, target := nj.id, isHighRisk := true,
                         atoRisk := some (randomRange (env.rand (u.ri + 1)) 0.06 0.16),
                         clusterId := some c, flashProgress := 0, isFlashing := false }],
          ?_, ?_⟩
        · dsimp only
          rw [hte, List.append_assoc]
        · intro e he
          rcases List.mem_append.mp he with he | he
          · exact hprop e he
          · rcases List.mem_singleton.mp he with rfl
            exact ⟨rfl, ⟨ni, List.get?_mem hi, rfl⟩, ⟨nj, List.get?_mem hj, rfl⟩⟩
      · exact ⟨hu1, hu2⟩
  · exact ⟨hu1, hu2⟩

/-- The innocent-node phase never touches the edge list. -/
theorem addInnocentNodes_edges (env : GenEnv) (center : ℚ × ℚ) (cn : List GNode)
    (s : GenState) : (addInnocentNodes env center cn s).edges = s.edges := by
  unfold addInnocentNodes
  refine foldl_preserves _ (fun t => t.edges = s.edges) ?_ _ _ rfl
  intro u a hu
  simp only [GenState.draw]
  split
  · exact hu
  · exact hu

/-- The innocent-node phase keeps ids bounded by the node count. -/
theorem idsOK_addInnocentNodes (env : GenEnv) (center : ℚ × ℚ) (cn : List GNode)
    (s : GenState) (h : IdsOK s) : IdsOK (addInnocentNodes env center cn s) := by
  unfold addInnocentNodes
  refine foldl_preserves _ IdsOK ?_ _ _ h
  intro u a hu
  simp only [GenState.draw]
  split
  · exact hu
  · exact idsOK_append hu rfl

theorem toNat_jsFloor_rr_one (r : ℚ) (h0 : 0 ≤ r) :
    1 ≤ (jsFloor (randomRange r 1 4)).toNat := by
  have h1 := jsFloor_rr_ge_int r 1 4 1 h0 (by norm_num) (by norm_num)
  omega

theorem toNat_jsFloor_rr_two (r : ℚ) (h0 : 0 ≤ r) :
    2 ≤ (jsFloor (randomRange r 8 15)).toNat := by
  have h1 := jsFloor_rr_ge_int r 8 15 2 h0 (by norm_num) (by norm_num)
  omega

theorem conn_count_ge_one (r : ℚ) (h0 : 0 ≤ r) :
    1 ≤ (jsFloor (randomRange r 2 5)).toNat := by
  have h1 := jsFloor_rr_ge_int r 2 5 1 h0 (by norm_num) (by norm_num)
  omega

/-- One satellite's wiring loop: starting from the state `u0` that has just
pushed the satellite `SAT`, the `min C sm.length ≥ 1` edge pushes keep the
invariant and leave `SAT` attached to cluster `c`. -/
theorem sat_step (env : GenEnv) (c : ℕ) (cn p1 : List GNode) (p2 : GenState)
    (SAT : GNode) (sm : List GNode) (u0 : GenState) (C : ℕ)
    (hid : SAT.id = p2.nodes.length) (hcid : SAT.clusterId = some c)
    (hsatf : SAT.isSatellite = true)
    (hCI : ClusterInv p2)
    (hfil : p1.filter (fun n => !n.isSatellite) = cn)
    (hmem : ∀ n ∈ p1, n ∈ p2.nodes)
    (hu0n : u0.nodes = p2.nodes ++ [SAT]) (hu0e : u0.edges = p2.edges)
    (hsm : sm.Perm ((p1 ++ [SAT]).filter (fun n => !n.isSatellite)))
    (hC : 1 ≤ C) (hcn1 : 0 < cn.length) :
    (p1 ++ [SAT]).filter (fun n => !n.isSatellite) = cn ∧
    ClusterInv ((List.range (min C sm.length)).foldl
      (fun u m =>
        match sm.get? m with
        | none => u
        | some tgt =>
          match u.draw env with
          | (rar, u1) =>
            { u1 with edges := u1.edges ++
                [{ source := SAT.id, target := tgt.id, isHighRisk := true,
                   atoRisk := some (randomRange rar 0.04 0.14), clusterId := some c,
                   flashProgress := 0, isFlashing := false }] }) u0) ∧
    ∀ n ∈ p1 ++ [SAT], n ∈ ((List.range (min C sm.length)).foldl
      (fun u m =>
        match sm.get? m with
        | none => u
        | some tgt =>
          match u.draw env with
          | (rar, u1) =>
            { u1 with edges := u1.edges ++
                [{ source := SAT.id, target := tgt.id, isHighRisk := true,
                   atoRisk := some (randomRange rar 0.04 0.14), clusterId := some c,
                   flashProgress := 0, isFlashing := false }] }) u0).nodes := by
  obtain ⟨hIds, hEdg, hAtt⟩ := hCI
  set F : GenState → ℕ → GenState := fun u m =>
    match sm.get? m with
    | none => u
    | some tgt =>
      match u.draw env with
      | (rar, u1) =>
        { u1 with edges := u1.edges ++
            [{ source := SAT.id, target := tgt.id, isHighRisk := true,
               atoRisk := some (randomRange rar 0.04 0.14), clusterId := some c,
               flashProgress := 0, isFlashing := false }] } with hF
  have hfil2 : (p1 ++ [SAT]).filter (fun n => !n.isSatellite) = cn := by
    rw [List.filter_append, hfil, List.filter_singleton]
    simp [hsatf]
  have hsmcn : sm.Perm cn := hfil2 ▸ hsm
  have hsmlen : sm.length = cn.length := hsmcn.length_eq
  have hsm_lt : ∀ tgt ∈ sm, tgt.id < p2.nodes.length := by
    intro tgt ht
    have h1 : tgt ∈ cn := hsmcn.mem_iff.mp ht
    have h2 : tgt ∈ p1 := by
      rw [← hfil] at h1
      exact List.mem_of_mem_filter h1
    exact hIds tgt (hmem tgt h2)
  obtain ⟨k, hk⟩ : ∃ k, min C sm.length = k + 1 :=
    ⟨min C sm.length - 1, by omega⟩
  obtain ⟨tgt0, hg0⟩ : ∃ tgt0, sm.get? 0 = some tgt0 := by
    rcases hg : sm.get? 0 with _ | tgt0
    · have := List.get?_eq_none.mp hg
      omega
    · exact ⟨tgt0, rfl⟩
  have htgt0 := hsm_lt tgt0 (List.get?_mem hg0)
  rw [hk, List.range_succ_eq_map, List.foldl_cons]
  have hu1 : F u0 0 = { u0 with
      edges := u0.edges ++
        [{ source := SAT.id, target := tgt0.id, isHighRisk := true,
           atoRisk := some (randomRange (env.rand u0.ri) 0.04 0.14), clusterId := some c,
           flashProgress := 0, isFlashing := false }],
      ri := u0.ri + 1 } := by
    rw [hF]
    simp only [hg0, GenState.draw]
  have hstep : ∀ u m, (u.nodes = u0.nodes ∧ Extends (F u0 0) u ∧ EdgesOK u) →
      ((F u m).nodes = u0.nodes ∧ Extends (F u0 0) (F u m) ∧ EdgesOK (F u m)) := by
    intro u m hu
    obtain ⟨hun, huext, huE⟩ := hu
    rw [hF]
    dsimp only
    rcases hm : sm.get? m with _ | tgt
    · simp only [hm]
      exact ⟨hun, huext, huE⟩
    · simp only [hm, GenState.draw]
      refine ⟨hun, huext.trans (extends_of_push_edge _ rfl rfl), ?_⟩
      intro e he
      rcases List.mem_append.mp he with he | he
      · have h2 := huE e he
        exact h2
      · rcases List.mem_singleton.mp he with rfl
        refine ⟨?_, ?_⟩
        · dsimp only
          rw [hun, hu0n, List.length_append, List.length_singleton, hid]
          omega
        · dsimp only
          rw [hun, hu0n, List.length_append, List.length_singleton]
          have h3 := hsm_lt tgt (List.get?_mem hm)
          omega
  have hinit : (F u0 0).nodes = u0.nodes ∧ Extends (F u0 0) (F u0 0) ∧ EdgesOK (F u0 0) := by
    refine ⟨by rw [hu1], Extends.refl _, ?_⟩
    rw [hu1]
    intro e he
    rcases List.mem_append.mp he with he | he
    · rw [hu0e] at he
      have h2 := hEdg e he
      refine ⟨?_, ?_⟩
      · dsimp only
        rw [hu0n, List.length_append, List.length_singleton]
        omega
      · dsimp only
        rw [hu0n, List.length_append, List.length_singleton]
        omega
    · rcases List.mem_singleton.mp he with rfl
      refine ⟨?_, ?_⟩
      · dsimp only
        rw [hu0n, List.length_append, List.length_singleton, hid]
        omega
      · dsimp only
        rw [hu0n, List.length_append, List.length_singleton]
        omega
  have hW := foldl_preserves F
    (fun u => u.nodes = u0.nodes ∧ Extends (F u0 0) u ∧ EdgesOK u)
    hstep ((List.range k).map Nat.succ) (F u0 0) hinit
  have he0 : HasClusterEdge (F u0 0).edges SAT.id c := by
    rw [hu1]
    exact ⟨_, List.mem_append_right _ (List.mem_singleton_self _), rfl, Or.inl rfl⟩
  have hextfull : Extends p2 (((List.range k).map Nat.succ).foldl F (F u0 0)) := by
    refine Extends.trans (t := u0) ⟨⟨[SAT], hu0n⟩, ⟨[], by rw [hu0e, List.append_nil]⟩⟩ ?_
    refine Extends.trans ?_ hW.2.1
    rw [hu1]
    exact extends_of_push_edge _ rfl rfl
  refine ⟨hfil2, ⟨?_, hW.2.2, ?_⟩, ?_⟩
  · intro n hn
    rw [hW.1, hu0n] at hn
    rw [hW.1, hu0n, List.length_append, List.length_singleton]
    rcases List.mem_append.mp hn with hn | hn
    · have h2 := hIds n hn
      omega
    · rcases List.mem_singleton.mp hn with rfl
      omega
  · intro n hn c' hc'
    rw [hW.1, hu0n] at hn
    rcases List.mem_append.mp hn with hn | hn
    · exact (hAtt n hn c' hc').of_extends hextfull
    · rcases List.mem_singleton.mp hn with rfl
      have hcc : c' = c := by
        rw [hcid] at hc'
        exact (Option.some.inj hc').symm
      rw [hcc]
      exact he0.of_extends hW.2.1
  · intro n hn
    rw [hW.1, hu0n]
    rcases List.mem_append.mp hn with hn | hn
    · exact List.mem_append_left _ (hmem n hn)
    · exact List.mem_append_right _ hn

/-- The satellite phase preserves the combined invariant: each satellite is
pushed with a fresh id and the cluster id `c`, and is immediately wired to at
least one main-cluster node with a cluster-`c` edge. -/
theorem addSatellites_spec (env : GenEnv) (center : ℚ × ℚ) (cn : List GNode) (c : ℕ)
    (s : GenState) (hseed : SeedOK env.rand) (hshuf : ShuffleOK env.shuffle)
    (hCI : ClusterInv s) (hcn1 : 0 < cn.length)
    (hcnmem : ∀ n ∈ cn, n ∈ s.nodes)
    (hcnsat : ∀ n ∈ cn, n.isSatellite = false) :
    ClusterInv (addSatellites env center cn c s).2 := by
  unfold addSatellites
  have hfil0 : cn.filter (fun n => !n.isSatellite) = cn :=
    List.filter_eq_self.mpr (fun n hn => by rw [hcnsat n hn]; rfl)
  refine (foldl_pair_inv _
    (fun p => p.1.filter (fun n => !n.isSatellite) = cn ∧ ClusterInv p.2 ∧
      ∀ n ∈ p.1, n ∈ p.2.nodes)
    ?_ _ _ ⟨hfil0, hCI, hcnmem⟩).2.1
  intro p a hp
  obtain ⟨hPfil, hPci, hPmem⟩ := hp
  dsimp only [GenState.draw, GenState.doShuffle]
  refine sat_step env c cn p.1 p.2 _ _ _ _ ?_ ?_ ?_ hPci hPfil hPmem ?_ ?_ ?_ ?_ hcn1
  · rfl
  · rfl
  · rfl
  · rfl
  · rfl
  · exact hshuf _ _
  · exact toNat_jsFloor_rr_one _ ((hseed _).1)

/-- Appending cluster-`c` edges between known nodes preserves the combined
invariant. -/
theorem clusterInv_extend_edges {t u : GenState} (cn : List GNode) (c : ℕ)
    (h : ClusterInv t) (hn : u.nodes = t.nodes)
    (he : EdgesFrom t.edges cn c u)
    (hcn : ∀ n ∈ cn, n ∈ t.nodes) :
    ClusterInv u := by
  obtain ⟨hIds, hEdg, hAtt⟩ := h
  obtain ⟨te, hte, hprop⟩ := he
  refine ⟨?_, ?_, ?_⟩
  · intro n hnn
    rw [hn] at hnn ⊢
    exact hIds n hnn
  · intro e hee
    rw [hte] at hee
    rw [hn]
    rcases List.mem_append.mp hee with hee | hee
    · exact hEdg e hee
    · obtain ⟨_, ⟨n1, hn1, hs⟩, ⟨n2, hn2, ht2⟩⟩ := hprop e hee
      rw [hs, ht2]
      exact ⟨hIds n1 (hcn n1 hn1), hIds n2 (hcn n2 hn2)⟩
  · intro n hnn c' hc'
    rw [hn] at hnn
    rw [hte]
    exact (hAtt n hnn c' hc').mono

/-- One full mule-cluster construction preserves the combined invariant. -/
theorem clusterInv_mkCluster (env : GenEnv) (hseed : SeedOK env.rand)
    (hshuf : ShuffleOK env.shuffle) (c : ℕ) (s : GenState) (h : ClusterInv s) :
    ClusterInv (mkCluster env c s) := by
  obtain ⟨hIds, hEdg, hAtt⟩ := h
  unfold mkCluster
  rcases hpos : (clusterPositions env).get? c with _ | center
  · simp only [hpos]
    exact ⟨hIds, hEdg, hAtt⟩
  · simp only [hpos, GenState.draw]
    rcases hmk : mkClusterNodes env center
        ((jsFloor (randomRange (env.rand s.ri) 8 15)).toNat) c { s with ri := s.ri + 1 }
      with ⟨cn, sB⟩
    dsimp only
    have hspec := mkClusterNodes_spec env center
      ((jsFloor (randomRange (env.rand s.ri) 8 15)).toNat) c { s with ri := s.ri + 1 }
    rw [hmk] at hspec
    dsimp only at hspec
    obtain ⟨hBn, hBe, hBlen, hBmem⟩ := hspec
    have hK2 : 2 ≤ cn.length := by
      rw [hBlen]
      exact toNat_jsFloor_rr_two _ ((hseed s.ri).1)
    have hfresh : ∀ e ∈ sB.edges, ∀ n ∈ cn, e.source ≠ n.id ∧ e.target ≠ n.id := by
      intro e he n hn
      rw [hBe] at he
      have h1 := hEdg e he
      have h2 := (hBmem n hn).2.2.1
      constructor <;> omega
    obtain ⟨hWn, hWe, hWatt⟩ := addWebConnections_spec env cn c sB hseed hshuf hfresh hK2
    have hcnmemB : ∀ n ∈ cn, n ∈ sB.nodes := by
      intro n hn
      rw [hBn]
      exact List.mem_append_right _ hn
    have hCI2 : ClusterInv (addWebConnections env cn c sB) := by
      refine ⟨?_, ?_, ?_⟩
      · intro n hn
        rw [hWn, hBn] at hn
        rw [hWn, hBn, List.length_append]
        rcases List.mem_append.mp hn with hn | hn
        · have hb := hIds n hn
          omega
        · have hb := (hBmem n hn).2.2.2
          omega
      · intro e he
        obtain ⟨te, hte, hprop⟩ := hWe
        rw [hte] at he
        rw [hWn, hBn, List.length_append]
        rcases List.mem_append.mp he with he | he
        · rw [hBe] at he
          have hb := hEdg e he
          exact ⟨by omega, by omega⟩
        · obtain ⟨_, ⟨n1, hn1, hs1⟩, ⟨n2, hn2, hs2⟩⟩ := hprop e he
          have b1 := (hBmem n1 hn1).2.2.2
          have b2 := (hBmem n2 hn2).2.2.2
          rw [hs1, hs2]
          exact ⟨by omega, by omega⟩
      · intro n hn c' hc'
        rw [hWn, hBn] at hn
        obtain ⟨te, hte, hprop⟩ := hWe
        rcases List.mem_append.mp hn with hn | hn
        · have hac := hAtt n hn c' hc'
          rw [hte, hBe]
          exact hac.mono
        · have hcid := (hBmem n hn).1
          rw [hcid] at hc'
          have hcc : c' = c := (Option.some.inj hc').symm
          rw [hcc]
          exact hWatt n hn
    obtain ⟨hXn, hXe⟩ := addCrossConnections_spec env cn c (addWebConnections env cn c sB)
    have hcnmem2 : ∀ n ∈ cn, n ∈ (addWebConnections env cn c sB).nodes := by
      intro n hn
      rw [hWn]
      exact hcnmemB n hn
    have hCI3 : ClusterInv (addCrossConnections env cn c (addWebConnections env cn c sB)) :=
      clusterInv_extend_edges cn c hCI2 hXn hXe hcnmem2
    obtain ⟨added, hIn, hIp⟩ := addInnocentNodes_spec env center cn
      (addCrossConnections env cn c (addWebConnections env cn c sB))
    have hIe := addInnocentNodes_edges env center cn
      (addCrossConnections env cn c (addWebConnections env cn c sB))
    have hCI4 : ClusterInv (addInnocentNodes env center cn
        (addCrossConnections env cn c (addWebConnections env cn c sB))) := by
      refine ⟨?_, ?_, ?_⟩
      · exact idsOK_addInnocentNodes env center cn _ hCI3.1
      · intro e he
        rw [hIe] at he
        have hb := hCI3.2.1 e he
        rw [hIn, List.length_append]
        exact ⟨by omega, by omega⟩
      · intro n hn c' hc'
        rw [hIn] at hn
        rw [hIe]
        rcases List.mem_append.mp hn with hn | hn
        · exact hCI3.2.2 n hn c' hc'
        · have hnone := (hIp n hn).2.1
          rw [hnone] at hc'
          exact absurd hc' (by simp)
    rcases hsat : addSatellites env center cn c (addInnocentNodes env center cn
        (addCrossConnections env cn c (addWebConnections env cn c sB))) with ⟨cn2, s5⟩
    dsimp only
    have hsatspec := addSatellites_spec env center cn c
      (addInnocentNodes env center cn
        (addCrossConnections env cn c (addWebConnections env cn c sB)))
      hseed hshuf hCI4 (by omega)
      (by
        intro n hn
        rw [hIn]
        refine List.mem_append_left _ ?_
        rw [hXn, hWn]
        exact hcnmemB n hn)
      (fun n hn => (hBmem n hn).2.1)
    rw [hsat] at hsatspec
    dsimp only at hsatspec
    exact hsatspec

theorem lowRiskCandidate_edges (env : GenEnv) (gridCols : ℕ) (cw ch : ℚ) (i : ℕ)
    (s : GenState) : (lowRiskCandidate env gridCols cw ch i s).1.edges = s.edges := by
  unfold lowRiskCandidate
  simp only [GenState.draw]
  split_ifs <;> rfl

theorem lowRiskLoop_edges (env : GenEnv) (gridCols : ℕ) (cw ch : ℚ) (L : ℤ) :
    ∀ (fuel i created : ℕ) (s : GenState),
      (lowRiskLoop env gridCols cw ch L fuel i created s).edges = s.edges := by
  intro fuel
  induction fuel with
  | zero => intro i created s; rfl
  | succ f ih =>
      intro i created s
      unfold lowRiskLoop
      split_ifs with hg
      · rw [ih]
        exact lowRiskCandidate_edges env gridCols cw ch i s
      · rfl

/-- The low-risk grid phase never touches the edge list. -/
theorem addLowRiskNodes_edges (env : GenEnv) (s : GenState) :
    (addLowRiskNodes env s).edges = s.edges := by
  simp only [addLowRiskNodes]
  exact lowRiskLoop_edges env _ _ _ _ _ 0 0 s

/-- The proximity-edge phase keeps the nodes and only appends edges. -/
theorem addLowRiskEdges_keep (env : GenEnv) (s : GenState) :
    (addLowRiskEdges env s).nodes = s.nodes ∧ Extends s (addLowRiskEdges env s) := by
  unfold addLowRiskEdges
  refine foldl_preserves _ (fun t => t.nodes = s.nodes ∧ Extends s t) ?_ _ _
    ⟨rfl, Extends.refl s⟩
  intro u node hu
  simp only [GenState.draw]
  refine foldl_preserves _ (fun t => t.nodes = s.nodes ∧ Extends s t) ?_ _ _
    ⟨hu.1, hu.2.trans (extends_of_eq rfl rfl)⟩
  intro v target hv
  split_ifs
  · exact hv
  · exact ⟨hv.1, hv.2.trans (extends_of_push_edge _ rfl rfl)⟩

/-- The long-range phase keeps the nodes and only appends edges. -/
theorem addLongRangeEdges_keep (env : GenEnv) (s : GenState) :
    (addLongRangeEdges env s).nodes = s.nodes ∧ Extends s (addLongRangeEdges env s) := by
  unfold addLongRangeEdges
  refine foldl_preserves _ (fun t => t.nodes = s.nodes ∧ Extends s t) ?_ _ _
    ⟨rfl, Extends.refl s⟩
  intro u a hu
  simp only [GenState.draw]
  split
  · split_ifs
    · exact ⟨hu.1, hu.2.trans (extends_of_eq rfl rfl)⟩
    · exact ⟨hu.1, hu.2.trans (extends_of_push_edge _ rfl rfl)⟩
    · exact ⟨hu.1, hu.2.trans (extends_of_eq rfl rfl)⟩
  · exact ⟨hu.1, hu.2.trans (extends_of_eq rfl rfl)⟩

/-- The false-connection phase keeps the nodes and only appends edges. -/
theorem addFalseConnections_keep (env : GenEnv) (s : GenState) :
    (addFalseConnections env s).nodes = s.nodes ∧ Extends s (addFalseConnections env s) := by
  unfold addFalseConnections
  refine foldl_preserves _ (fun t => t.nodes = s.nodes ∧ Extends s t) ?_ _ _
    ⟨rfl, Extends.refl s⟩
  intro u a hu
  simp only [GenState.draw]
  split
  · split_ifs
    · exact ⟨hu.1, hu.2.trans (extends_of_push_edge _ rfl rfl)⟩
    · exact ⟨hu.1, hu.2.trans (extends_of_eq rfl rfl)⟩
  · exact ⟨hu.1, hu.2.trans (extends_of_eq rfl rfl)⟩

/-- The hidden-relationship phase keeps the nodes and only appends edges. -/
theorem addHiddenRelationshipEdges_keep (env : GenEnv) (s : GenState) :
    (addHiddenRelationshipEdges env s).nodes = s.nodes ∧
    Extends s (addHiddenRelationshipEdges env s) := by
  unfold addHiddenRelationshipEdges
  refine foldl_preserves _ (fun t => t.nodes = s.nodes ∧ Extends s t) ?_ _ _
    ⟨rfl, Extends.refl s⟩
  intro u cl hu
  split_ifs with hlen
  · rcases hfp : farthestPair cl with _ | ab
    · simp only [hfp]
      exact hu
    · rcases ab with ⟨na, nb⟩
      simp only [hfp, GenState.draw]
      split_ifs with hex
      · exact hu
      · exact ⟨hu.1, hu.2.trans (extends_of_push_edge _ rfl rfl)⟩
  · exact hu

/-- **Claim C3 (amended).**  Full pairwise connectivity of each cluster's
induced edge set fails (see the counterexample: a comparator-driven shuffle can
split a cluster's web into two components).  What the generator does guarantee,
under admissible oracles (`Math.random() ∈ [0,1)` and sorts that permute), is
that no cluster member is ever isolated from its cluster's edge set: every node
whose `clusterId` is `c` — cluster core nodes and satellites alike — is an
endpoint of at least one edge carrying cluster id `c` in the final graph. -/
theorem cluster_nodes_attached (env : GenEnv) (hv : env.Valid) :
    ∀ n ∈ (generateNetworkData env).nodes, ∀ c, n.clusterId = some c →
      HasClusterEdge (generateNetworkData env).edges n.id c := by
  obtain ⟨hseed, hshuf⟩ := hv
  have h3 : ClusterInv ((List.range MULE_CLUSTERS).foldl
      (fun s c => mkCluster env c s) initialGenState) := by
    refine foldl_preserves (fun s c => mkCluster env c s) ClusterInv ?_ _ _ ?_
    · intro s' c hc
      exact clusterInv_mkCluster env hseed hshuf c s' hc
    · refine ⟨?_, ?_, ?_⟩
      · intro x hx
        exact absurd hx (List.not_mem_nil x)
      · intro x hx
        exact absurd hx (List.not_mem_nil x)
      · intro x hx
        exact absurd hx (List.not_mem_nil x)
  obtain ⟨added, hS4n, _, hS4p⟩ := addLowRiskNodes_spec env
    ((List.range MULE_CLUSTERS).foldl (fun s c => mkCluster env c s) initialGenState)
  have hS4e := addLowRiskNodes_edges env
    ((List.range MULE_CLUSTERS).foldl (fun s c => mkCluster env c s) initialGenState)
  obtain ⟨hS5n, hS5x⟩ := addLowRiskEdges_keep env
    (addLowRiskNodes env
      ((List.range MULE_CLUSTERS).foldl (fun s c => mkCluster env c s) initialGenState))
  obtain ⟨hS6n, hS6x⟩ := addLongRangeEdges_keep env
    (addLowRiskEdges env
      (addLowRiskNodes env
        ((List.range MULE_CLUSTERS).foldl (fun s c => mkCluster env c s) initialGenState)))
  obtain ⟨hS7n, hS7x⟩ := addFalseConnections_keep env
    (addLongRangeEdges env
      (addLowRiskEdges env
        (addLowRiskNodes env
          ((List.range MULE_CLUSTERS).foldl (fun s c => mkCluster env c s) initialGenState))))
  obtain ⟨hS8n, hS8x⟩ := addHiddenRelationshipEdges_keep env
    (addFalseConnections env
      (addLongRangeEdges env
        (addLowRiskEdges env
          (addLowRiskNodes env
            ((List.range MULE_CLUSTERS).foldl (fun s c => mkCluster env c s) initialGenState)))))
  have hgen : generateNetworkData env
      = addHiddenRelationshipEdges env
          (addFalseConnections env
            (addLongRangeEdges env
              (addLowRiskEdges env
                (addLowRiskNodes env
                  ((List.range MULE_CLUSTERS).foldl (fun s c => mkCluster env c s)
                    initialGenState))))) := rfl
  intro n hn c hc
  rw [hgen] at hn ⊢
  rw [hS8n, hS7n, hS6n, hS5n, hS4n] at hn
  rcases List.mem_append.mp hn with hn | hn
  · have hatt := h3.2.2 n hn c hc
    have hx45 : Extends
        (addLowRiskNodes env
          ((List.range MULE_CLUSTERS).foldl (fun s c => mkCluster env c s) initialGenState))
        (addHiddenRelationshipEdges env
          (addFalseConnections env
            (addLongRangeEdges env
              (addLowRiskEdges env
                (addLowRiskNodes env
                  ((List.range MULE_CLUSTERS).foldl (fun s c => mkCluster env c s)
                    initialGenState)))))) :=
      hS5x.trans (hS6x.trans (hS7x.trans hS8x))
    have hatt4 : HasClusterEdge
        (addLowRiskNodes env
          ((List.range MULE_CLUSTERS).foldl (fun s c => mkCluster env c s)
            initialGenState)).edges n.id c := by
      rw [hS4e]
      exact hatt
    exact hatt4.of_extends hx45
  · have hnone := (hS4p n hn).2.1
    rw [hnone] at hc
    exact absurd hc (by simp)

theorem cluster_nodes_attached_witness :
    cexEnv.Valid ∧
    (∀ n ∈ (generateNetworkData cexEnv).nodes, ∀ c, n.clusterId = some c →
      HasClusterEdge (generateNetworkData cexEnv).edges n.id c) :=
  ⟨⟨seedOK_cexSigma, shuffleOK_cexShuffle⟩,
   cluster_nodes_attached cexEnv ⟨seedOK_cexSigma, shuffleOK_cexShuffle⟩⟩
